import Mathlib

/-!
BRIE: binary-descriptor engine.

Shallow embedding of `src/src/source.cpp` (class `Source`: cursor-advancing
bounds-checked reads), `src/src/source_test.h` (`add_number`),
`src/src/structs.cpp` (the struct registry), `src/src/parser.cpp` (the
descriptor parsers and the descriptor cache) and `src/src/luna.cpp` (the
decoder `retrieve`), followed by the theorems that settle the specification
claims.

Modelling conventions.
* `size_t` is 64 bits wide: every `size_t` addition, subtraction and
  multiplication of the source whose result can leave `[0, 2^64)` is reduced
  modulo `SIZE_MOD`.  Loop counters that are guarded by a `size_t` bound
  (`pos < m_size`, `i < m_pos + len`) are incremented without reduction.
* Memory is a total function from byte offsets (relative to `m_ptr`) to bytes.
  The backing region of a source is `[0, m_size)`; the function also gives the
  bytes that follow the region, which the C++ code is able to touch (the test
  fixtures allocate 1024 bytes and shrink `m_size` with `set_size`).
* A C++ `for`/`break` loop is a function that recurses on a step budget; the
  caller passes the distance between the start value and the loop bound, which
  the loop cannot exceed.
* A thrown exception is the `Except.error` result; the object state is the one
  before the call (no member is assigned before a `throw` in the source).
* The generated lexer behind `briebase_callback` is not part of the sources:
  the parsers are modelled on the sequence of `on_token` calls, and where a
  descriptor string is the input the lexer is a parameter.
* The Lua stack is a list of values with the top first; a Lua error and a
  thrown `Error` are one error type, as `func_read` turns the second into the
  first.
* A Lua function that the decoder calls is a function on the world it can
  reach: the active source, the struct registry and the Lua globals (it can
  call the registered `read`, `setpos`, `open` and `decl`).  It can return
  different values at every call, or raise an error.
-/

namespace brie

/-! ## Definitions -/

/-- Number of values of a 64-bit `size_t`, that is `2^64`. -/
abbrev SIZE_MOD : Nat := 18446744073709551616

/-- One byte of memory (`char` seen as its unsigned value). -/
abbrev Byte := Fin 256

/-- The enum `Type` of `briebase.tab.h`. -/
inductive DataType
  | UNDEFINED_TYPE | U8 | U16 | U32 | I16 | I32 | I64 | F32 | F64 | STRING
  | WSTRING | VOID | FUNC | MAX_TYPE
  deriving DecidableEq, Repr

/-- Exceptions that leave the modelled functions: `brie::Error` (thrown by
`throwex`, carrying its message) and the `std::length_error` of the
`std::string` constructor. -/
inductive Error
  | brie (msg : String)
  | length_error
  deriving DecidableEq, Repr

/-- The data members of `class Source` that the read operations use. -/
structure Source where
  m_ptr : Nat → Byte
  m_size : Nat
  m_pos : Nat

/-- Memory whose first bytes are the given list (zero elsewhere). -/
def mem_of (l : List Byte) : Nat → Byte := fun i => l.getD i 0

/-- Result of `Source::nopos()`, `UINT64_MAX`. -/
def nopos : Nat := 18446744073709551615

/-- Largest length the `std::string(const char*, size_t)` constructor accepts
before throwing `std::length_error` (`max_size()`, at most `PTRDIFF_MAX`). -/
def STRING_MAX : Nat := 9223372036854775807

/-- The `len` bytes of memory that start at offset `off`. -/
def bytes_at (ptr : Nat → Byte) (off len : Nat) : List Byte :=
  (List.range len).map (fun j => ptr (off + j))

/-- The constructor `std::string(ptr + off, n)`: a copy of `n` bytes. -/
def string_ctor (ptr : Nat → Byte) (off n : Nat) : Except Error (List Byte) :=
  if n > STRING_MAX then .error .length_error
  else .ok (bytes_at ptr off n)

/-- The function `type_length` of `source.cpp`: `sizeof` of the C type. -/
def type_length : DataType → Except Error Nat
  | .U8 => .ok 1
  | .U16 => .ok 2
  | .U32 => .ok 4
  | .I16 => .ok 2
  | .I32 => .ok 4
  | .I64 => .ok 8
  | .F32 => .ok 4
  | .F64 => .ok 8
  | _ => .error (.brie "Invalid type")

/-- Value of the `w` bytes at offset `off`, read as a little-endian unsigned
number: what `memcpy(&val, data, len)` stores in an unsigned `val`. -/
def load_le (ptr : Nat → Byte) (off : Nat) : Nat → Nat
  | 0 => 0
  | w + 1 => (ptr off).val + 256 * load_le ptr (off + 1) w

/-- Two's-complement value of a `w`-byte pattern: `static_cast<int64_t>` of a
signed `val` whose object representation is `n`. -/
def to_signed (w : Nat) (n : Nat) : Int :=
  if n < 2 ^ (8 * w - 1) then (n : Int) else (n : Int) - 2 ^ (8 * w)

/-- The method `Source::read_int`. -/
def Source.read_int (s : Source) (type : DataType) : Except Error (Int × Source) :=
  match type_length type with
  | .error e => .error e
  | .ok len =>
    if (s.m_pos + len) % SIZE_MOD > s.m_size then
      .error (.brie "Insufficent data in source")
    else
      let raw := load_le s.m_ptr s.m_pos len
      let s1 : Source := { s with m_pos := (s.m_pos + len) % SIZE_MOD }
      match type with
      | .U8 => .ok ((raw : Int), s1)
      | .U16 => .ok ((raw : Int), s1)
      | .U32 => .ok ((raw : Int), s1)
      | .I16 => .ok (to_signed len raw, s1)
      | .I32 => .ok (to_signed len raw, s1)
      | .I64 => .ok (to_signed len raw, s1)
      | _ => .error (.brie "Invalid type")

/-- A floating-point result, kept as the bit pattern that was read: the
`float` (widened to `double` by the return) or the `double` with these bits. -/
inductive FloatVal
  | of_f32 (bits : Nat)
  | of_f64 (bits : Nat)
  deriving DecidableEq, Repr

/-- The method `Source::read_float`. -/
def Source.read_float (s : Source) (type : DataType) : Except Error (FloatVal × Source) :=
  match type_length type with
  | .error e => .error e
  | .ok len =>
    if (s.m_pos + len) % SIZE_MOD > s.m_size then
      .error (.brie "Insufficent data in source")
    else
      let raw := load_le s.m_ptr s.m_pos len
      let s1 : Source := { s with m_pos := (s.m_pos + len) % SIZE_MOD }
      match type with
      | .F32 => .ok (.of_f32 raw, s1)
      | .F64 => .ok (.of_f64 raw, s1)
      | _ => .error (.brie "Invalid type")

/-- Loop of the null-terminated mode of `read_str`:
`for (pos = m_pos; pos < m_size; pos++, len++) if (m_ptr[pos] == 0) break;`
The result is the final `len`. -/
def str_scan_term (ptr : Nat → Byte) (size : Nat) : Nat → Nat → Nat → Nat
  | 0, _, len => len
  | fuel + 1, pos, len =>
    if pos < size then
      if ptr pos = 0 then len
      else str_scan_term ptr size fuel (pos + 1) (len + 1)
    else len

/-- Loop of the fixed-length mode of `read_str`:
`for (pos = m_pos; pos < m_pos + len; pos++, tempLen++)
   if (m_ptr[pos] == 0) { alterLen = tempLen; break; }`
The result is the final `alterLen` (initially 0). -/
def str_scan_fixed (ptr : Nat → Byte) (lim : Nat) : Nat → Nat → Nat → Nat
  | 0, _, _ => 0
  | fuel + 1, pos, tempLen =>
    if pos < lim then
      if ptr pos = 0 then tempLen
      else str_scan_fixed ptr lim fuel (pos + 1) (tempLen + 1)
    else 0

/-- The method `Source::read_str`. -/
def Source.read_str (s : Source) (len : Nat) : Except Error (List Byte × Source) :=
  let is_null_terminated : Bool := decide (len = 0)
  let len1 : Nat :=
    if len = 0 then str_scan_term s.m_ptr s.m_size (s.m_size - s.m_pos) s.m_pos 0
    else len
  let lim : Nat := (s.m_pos + len) % SIZE_MOD
  let alterLen : Nat :=
    if len = 0 then 0 else str_scan_fixed s.m_ptr lim (lim - s.m_pos) s.m_pos 0
  if (s.m_pos + len1) % SIZE_MOD ≥ s.m_size then
    .error (.brie "No available data: string is too long")
  else
    let alterLen1 : Nat := if alterLen = 0 then len1 else alterLen
    match string_ctor s.m_ptr s.m_pos alterLen1 with
    | .error e => .error e
    | .ok str =>
      let pos1 : Nat := (s.m_pos + len1) % SIZE_MOD
      let pos2 : Nat := if is_null_terminated then (pos1 + 1) % SIZE_MOD else pos1
      .ok (str, { s with m_pos := pos2 })

/-- Loop of the null-terminated mode of `read_wstr`:
`for (i = m_pos + prefixLen; i < m_size; i += 2, len += 2)
   if (m_ptr[i] == 0) { if (i >= m_size - 1) throwex(..); if (m_ptr[i+1] == 0) break; }`
The result is the final `len`, or the error thrown inside the loop. -/
def wstr_scan_term (ptr : Nat → Byte) (size : Nat) : Nat → Nat → Nat → Except Error Nat
  | 0, _, len => .ok len
  | fuel + 1, i, len =>
    if i < size then
      if ptr i = 0 then
        if i ≥ (size + SIZE_MOD - 1) % SIZE_MOD then
          .error (.brie "Invalid format of wstr: no terminator")
        else if ptr (i + 1) = 0 then .ok len
        else wstr_scan_term ptr size fuel (i + 2) (len + 2)
      else wstr_scan_term ptr size fuel (i + 2) (len + 2)
    else .ok len

/-- Loop of the fixed-length mode of `read_wstr`:
`for (i = m_pos + prefixLen; i < m_pos + len; i += 2, tempLen += 2) {
   if (i >= m_size - 1) break;
   if (m_ptr[i] == 0 && m_ptr[i+1] == 0) { alterLen = tempLen; break; } }`
The result is the final `alterLen` (initially 0). -/
def wstr_scan_fixed (ptr : Nat → Byte) (size lim : Nat) : Nat → Nat → Nat → Nat
  | 0, _, _ => 0
  | fuel + 1, i, tempLen =>
    if i < lim then
      if i ≥ (size + SIZE_MOD - 1) % SIZE_MOD then 0
      else if ptr i = 0 ∧ ptr (i + 1) = 0 then tempLen
      else wstr_scan_fixed ptr size lim fuel (i + 2) (tempLen + 2)
    else 0

/-- Length of the byte-order mark that `read_wstr` detects at the cursor:
`if (*s == FF || *s == FE) prefixLen = 2`. -/
def bom_len (s : Source) : Nat :=
  if s.m_ptr s.m_pos = 255 ∨ s.m_ptr s.m_pos = 254 then 2 else 0

/-- The method `Source::read_wstr`; `units` is its argument `len`. -/
def Source.read_wstr (s : Source) (units : Nat) : Except Error (List Byte × Source) :=
  let len : Nat := (units * 2) % SIZE_MOD
  let prefixLen : Nat := bom_len s
  let start : Nat := (s.m_pos + prefixLen) % SIZE_MOD
  let lim : Nat := (s.m_pos + len) % SIZE_MOD
  let scanned : Except Error (Nat × Nat) :=
    if len = 0 then
      match wstr_scan_term s.m_ptr s.m_size (s.m_size - start) start 0 with
      | .error e => .error e
      | .ok l => .ok (l, 0)
    else .ok (len, wstr_scan_fixed s.m_ptr s.m_size lim (lim - start) start 0)
  match scanned with
  | .error e => .error e
  | .ok (len1, alterLen) =>
    if (s.m_pos + len1) % SIZE_MOD > s.m_size then
      .error (.brie "No available data: wstring is too long")
    else
      let len2 : Nat := (len1 + SIZE_MOD - prefixLen) % SIZE_MOD
      let len3 : Nat := if alterLen ≠ 0 then alterLen else len2
      match string_ctor s.m_ptr (s.m_pos + prefixLen) len3 with
      | .error e => .error e
      | .ok str =>
        let pos1 : Nat := (s.m_pos + (len3 + prefixLen) % SIZE_MOD) % SIZE_MOD
        let pos2 : Nat := if len = 0 then (pos1 + 2) % SIZE_MOD else pos1
        .ok (str, { s with m_pos := pos2 })

/-- The method `Source::set_pos`. -/
def Source.set_pos (s : Source) (value : Nat) : Except Error Source :=
  if value > s.m_size then .error (.brie "Position outside of data space")
  else .ok { s with m_pos := value }

/-- Loop of `Source::find`:
`for (i = m_pos; i < m_size - len && i < maxOffset - len; i++)
   if (m_ptr[i] == *str) if (0 == memcmp(m_ptr + i, str, len)) return i;`
followed by `return nopos()`. -/
def find_loop (ptr : Nat → Byte) (str : List Byte) (lim1 lim2 : Nat) : Nat → Nat → Nat
  | 0, _ => nopos
  | fuel + 1, i =>
    if i < lim1 ∧ i < lim2 then
      if ptr i = str.headD 0 ∧ bytes_at ptr i str.length = str then i
      else find_loop ptr str lim1 lim2 fuel (i + 1)
    else nopos

/-- The method `Source::find`; `str` holds the bytes of the C string before
its terminating zero (the empty list stands for `nullptr` and for `""`). -/
def Source.find (s : Source) (str : List Byte) (maxOffset : Nat) : Nat :=
  if str = [] then nopos
  else if str.length > s.m_size ∨ str.length > maxOffset then nopos
  else
    find_loop s.m_ptr str (s.m_size - str.length) (maxOffset - str.length)
      (s.m_size - str.length - s.m_pos) s.m_pos

/-- One call on a `Source` object. -/
inductive Call
  | read_int (type : DataType)
  | read_float (type : DataType)
  | read_str (len : Nat)
  | read_wstr (len : Nat)
  | set_pos (value : Nat)
  | find (str : List Byte) (maxOffset : Nat)

/-- State of the source after one call, whether it returned or threw. -/
def Source.after (s : Source) : Call → Source
  | .read_int t => match s.read_int t with
    | .ok r => r.2
    | .error _ => s
  | .read_float t => match s.read_float t with
    | .ok r => r.2
    | .error _ => s
  | .read_str n => match s.read_str n with
    | .ok r => r.2
    | .error _ => s
  | .read_wstr n => match s.read_wstr n with
    | .ok r => r.2
    | .error _ => s
  | .set_pos v => match s.set_pos v with
    | .ok r => r
    | .error _ => s
  | .find _ _ => s

/-- State of the source after a sequence of calls. -/
def Source.after_all (s : Source) : List Call → Source
  | [] => s
  | c :: cs => (s.after c).after_all cs

/-- Object representation of the integer `num` in a `w`-byte integer type:
byte `i` of the little-endian two's-complement encoding. -/
def repr_byte (w : Nat) (num : Int) (i : Nat) : Byte :=
  Fin.ofNat ((num % 2 ^ (8 * w)).toNat / 256 ^ i)

/-- The call `memcpy(ptr + pos, &num, w)` for an integer `num` of width `w`. -/
def memcpy_num (ptr : Nat → Byte) (pos w : Nat) (num : Int) : Nat → Byte :=
  fun a => if pos ≤ a ∧ a < pos + w then repr_byte w num (a - pos) else ptr a

/-- The template `add_number<T>` of `source_test.h` for an integer type `T`
with `sizeof(T) = w`: writes `num` at `ptr + pos` and advances `pos`. -/
def add_number (w : Nat) (num : Int) (ptr : Nat → Byte) (pos : Nat) : (Nat → Byte) × Nat :=
  (memcpy_num ptr pos w num, pos + w)

/-- Largest size of an object in memory (`PTRDIFF_MAX`): `malloc`, `mmap` and
`shmat` give no region larger than this, so it bounds `m_size` of a source
whose backing region exists. -/
def PTRDIFF_MAX : Nat := 9223372036854775807

/-- Width in bytes of an integer type of the descriptor language (0 for the
other enumerators): `sizeof` of the C type that `read_int` uses for it. -/
def int_width : DataType → Nat
  | .U8 => 1
  | .U16 => 2
  | .U32 => 4
  | .I16 => 2
  | .I32 => 4
  | .I64 => 8
  | _ => 0

/-- Value range of the C integer type behind an integer `DataType`. -/
def in_range : DataType → Int → Prop
  | .U8, v => 0 ≤ v ∧ v < 256
  | .U16, v => 0 ≤ v ∧ v < 65536
  | .U32, v => 0 ≤ v ∧ v < 4294967296
  | .I16, v => -32768 ≤ v ∧ v < 32768
  | .I32, v => -2147483648 ≤ v ∧ v < 2147483648
  | .I64, v => -9223372036854775808 ≤ v ∧ v < 9223372036854775808
  | _, _ => False

/-- The bytes at offset `p` are the consecutive encodings of the given values. -/
def encoded_at (ptr : Nat → Byte) : Nat → List (DataType × Int) → Prop
  | _, [] => True
  | p, (T, v) :: rest =>
    (∀ i, i < int_width T → ptr (p + i) = repr_byte (int_width T) v i) ∧
      encoded_at ptr (p + int_width T) rest

/-- Consecutive `add_number` calls, as in `TEST(DATA, RetrieveNumbers)`. -/
def write_numbers : List (DataType × Int) → (Nat → Byte) → Nat → (Nat → Byte) × Nat
  | [], ptr, pos => (ptr, pos)
  | (T, v) :: rest, ptr, pos =>
    write_numbers rest (add_number (int_width T) v ptr pos).1 (add_number (int_width T) v ptr pos).2

/-- Consecutive `read_int` calls, collecting the values returned. -/
def read_ints (s : Source) : List DataType → Except Error (List Int × Source)
  | [] => .ok ([], s)
  | T :: rest =>
    match s.read_int T with
    | .error e => .error e
    | .ok (v, s1) =>
      match read_ints s1 rest with
      | .error e => .error e
      | .ok (vs, s2) => .ok (v :: vs, s2)

/-- Sum of the widths of a list of items. -/
def total_width : List (DataType × Int) → Nat
  | [] => 0
  | (T, _) :: rest => int_width T + total_width rest

/-! ### Struct registry (`structs.h`, `structs.cpp`) -/

/-- The struct `DataItem` of `structs.h`. -/
structure DataItem where
  type : DataType
  size : Nat
  count : Nat
  typeName : String
  deriving DecidableEq, Repr

/-- The struct `Field` of `structs.h`: a `DataItem` with a name. -/
structure Field extends DataItem where
  name : String
  deriving DecidableEq, Repr

/-- The type `FieldList` (`std::vector<Field>`); a `StructPtr` points to one. -/
abbrev FieldList := List Field

/-- The type `StructDict`: the map from struct names to field lists, kept as
an association list with at most one entry per name. -/
abbrev StructDict := List (String × FieldList)

/-- The call `structs->find(name)`: `none` stands for `structs->end()`. -/
def dict_find : StructDict → String → Option FieldList
  | [], _ => none
  | (k, v) :: rest, name => if k = name then some v else dict_find rest name

/-- The assignment `dict[name] = sp`: inserts the entry or replaces the one
registered under `name`. -/
def dict_set (d : StructDict) (name : String) (sp : FieldList) : StructDict :=
  (name, sp) :: d.filter (fun e => decide (e.1 ≠ name))

/-- The function `get_struct`. -/
def get_struct (structs : StructDict) (name : String) : Except Error FieldList :=
  match dict_find structs name with
  | none => .error (.brie "Struct is not found")
  | some sp => .ok sp

/-- The function `check_in_width`. -/
def check_in_width (structs : StructDict) (name : String) : FieldList → Except Error Unit
  | [] => .ok ()
  | f :: rest =>
    if f.typeName = "" ∨ f.type = DataType.FUNC then check_in_width structs name rest
    else if f.typeName = name then .error (.brie "Self reference")
    else
      match dict_find structs f.typeName with
      | none => .error (.brie "Missing struct definition")
      | some _ => check_in_width structs name rest

/-- The function `check_in_depth`.  The C++ function recurses into the fields
of every referenced struct and need not return; the first argument bounds the
number of calls and loop iterations, and `none` is the result of a walk that
did not finish within the bound. -/
def check_in_depth (structs : StructDict) (name : String) :
    Nat → FieldList → Option (Except Error Unit)
  | 0, _ => none
  | _ + 1, [] => some (.ok ())
  | fuel + 1, f :: rest =>
    if f.typeName = "" ∨ f.type = DataType.FUNC then check_in_depth structs name fuel rest
    else if name = f.typeName then some (.error (.brie "Circular struct definition"))
    else
      match dict_find structs f.typeName with
      | none => some (.error (.brie "Missing struct definition"))
      | some sub =>
        match check_in_depth structs name fuel sub with
        | none => none
        | some (.error e) => some (.error e)
        | some (.ok ()) => check_in_depth structs name fuel rest

/-- The function `add_struct` on the registry `structs`: the new registry, or
the error thrown by one of the two checks (the registry is then unchanged);
`none` when the depth walk did not finish within `fuel` steps. -/
def add_struct (structs : StructDict) (fuel : Nat) (name : String) (sp : FieldList) :
    Option (Except Error StructDict) :=
  match check_in_width structs name sp with
  | .error e => some (.error e)
  | .ok () =>
    match check_in_depth structs name fuel sp with
    | none => none
    | some (.error e) => some (.error e)
    | some (.ok ()) => some (.ok (dict_set structs name sp))

/-- One call on the registry. -/
inductive RegCall
  | init_structs
  | add_struct (name : String) (sp : FieldList)

/-- Registry after a sequence of calls; `init_structs` installs an empty
dictionary and a failed `add_struct` leaves the registry as it was. -/
def run_calls (fuel : Nat) : StructDict → List RegCall → Option StructDict
  | d, [] => some d
  | _, RegCall.init_structs :: cs => run_calls fuel [] cs
  | d, RegCall.add_struct name sp :: cs =>
    match add_struct d fuel name sp with
    | none => none
    | some (.ok d1) => run_calls fuel d1 cs
    | some (.error _) => run_calls fuel d cs

/-- Struct `a` is registered and has a non-function field of custom type `b`. -/
def embeds (d : StructDict) (a b : String) : Prop :=
  ∃ fl, dict_find d a = some fl ∧
    ∃ f ∈ fl, f.type ≠ DataType.FUNC ∧ f.typeName ≠ "" ∧ f.typeName = b

/-- Every custom-type field of a registered struct names a registered struct. -/
def registry_closed (d : StructDict) : Prop :=
  ∀ n fl, dict_find d n = some fl →
    ∀ f ∈ fl, f.type ≠ DataType.FUNC → f.typeName ≠ "" → (dict_find d f.typeName).isSome

/-- No registered struct reaches its own name through custom-type fields. -/
def registry_acyclic (d : StructDict) : Prop :=
  ∀ n, ¬ Relation.TransGen (embeds d) n n

/-! ### Concrete inputs -/

/-- The bytes `"two\0"` of the test data, cursor at their start. -/
def src_two : Source := ⟨mem_of [0x74, 0x77, 0x6f, 0], 4, 0⟩

/-- Three bytes without a zero that fill the source exactly. -/
def src_abc : Source := ⟨mem_of [0x61, 0x62, 0x63], 3, 0⟩

/-- A zero byte followed by two letters. -/
def src_pad : Source := ⟨mem_of [0, 0x41, 0x42], 3, 0⟩

/-- One wide character followed by the double-zero terminator. -/
def src_wide : Source := ⟨mem_of [0xD0, 0x94, 0, 0], 4, 0⟩

/-- Two wide characters that fill the source, without a terminator. -/
def src_wide_open : Source := ⟨mem_of [0x41, 0, 0x42, 0], 4, 0⟩

/-- One wide character and nothing else. -/
def src_wide_one : Source := ⟨mem_of [0x41, 0x42], 2, 0⟩

/-- A byte-order mark, one wide character and the double-zero terminator. -/
def src_bom : Source := ⟨mem_of [0xFF, 0xFE, 0x41, 0, 0, 0], 6, 0⟩

/-- Three bytes of a source whose cursor is one byte in. -/
def src_short : Source := ⟨mem_of [1, 2, 3], 3, 1⟩

/-- The integers written by `TEST(DATA, RetrieveNumbers)`. -/
def test_numbers : List (DataType × Int) :=
  [(DataType.U8, 1), (DataType.U16, 2), (DataType.U32, 3), (DataType.I16, -5),
   (DataType.I32, -6), (DataType.I64, -7)]

/-- A field of primitive type. -/
def prim_field (t : DataType) (name : String) : Field := ⟨⟨t, 0, 1, ""⟩, name⟩

/-- A field whose type is the struct `typeName`. -/
def struct_field (typeName name : String) : Field :=
  ⟨⟨DataType.UNDEFINED_TYPE, 0, 1, typeName⟩, name⟩

/-- Declares `A`, then `B` embedding `A`, then tries to re-declare `A` as
embedding `B` (rejected) and re-declares `A` with another primitive field. -/
def test_calls : List RegCall :=
  [RegCall.add_struct "A" [prim_field DataType.U8 "x"],
   RegCall.add_struct "B" [struct_field "A" "a"],
   RegCall.add_struct "A" [struct_field "B" "b"],
   RegCall.add_struct "A" [prim_field DataType.U16 "y"]]

/-- The registry that `test_calls` leaves. -/
def test_dict : StructDict :=
  [("A", [prim_field DataType.U16 "y"]), ("B", [struct_field "A" "a"])]

/-! ### Calls with the object state they leave -/

/-- The method `Source::read_int` together with the state of the object when
the call returns or throws: every `throwex` hands back the members as they
are at that statement, `m_pos += len` is the only assignment. -/
def Source.read_int_state (s : Source) (type : DataType) : Except Error Int × Source :=
  match type_length type with
  | .error e => (.error e, s)
  | .ok len =>
    if (s.m_pos + len) % SIZE_MOD > s.m_size then
      (.error (.brie "Insufficent data in source"), s)
    else
      let raw := load_le s.m_ptr s.m_pos len
      match type with
      | .U8 => (.ok (raw : Int), { s with m_pos := (s.m_pos + len) % SIZE_MOD })
      | .U16 => (.ok (raw : Int), { s with m_pos := (s.m_pos + len) % SIZE_MOD })
      | .U32 => (.ok (raw : Int), { s with m_pos := (s.m_pos + len) % SIZE_MOD })
      | .I16 => (.ok (to_signed len raw), { s with m_pos := (s.m_pos + len) % SIZE_MOD })
      | .I32 => (.ok (to_signed len raw), { s with m_pos := (s.m_pos + len) % SIZE_MOD })
      | .I64 => (.ok (to_signed len raw), { s with m_pos := (s.m_pos + len) % SIZE_MOD })
      | _ => (.error (.brie "Invalid type"), s)

/-- The method `Source::read_float` together with the state it leaves. -/
def Source.read_float_state (s : Source) (type : DataType) : Except Error FloatVal × Source :=
  match type_length type with
  | .error e => (.error e, s)
  | .ok len =>
    if (s.m_pos + len) % SIZE_MOD > s.m_size then
      (.error (.brie "Insufficent data in source"), s)
    else
      let raw := load_le s.m_ptr s.m_pos len
      match type with
      | .F32 => (.ok (.of_f32 raw), { s with m_pos := (s.m_pos + len) % SIZE_MOD })
      | .F64 => (.ok (.of_f64 raw), { s with m_pos := (s.m_pos + len) % SIZE_MOD })
      | _ => (.error (.brie "Invalid type"), s)

/-- The method `Source::read_str` together with the state it leaves: the two
assignments `m_pos += len` and `m_pos += 1` follow the `throwex` and the
construction of the result string. -/
def Source.read_str_state (s : Source) (len : Nat) : Except Error (List Byte) × Source :=
  let is_null_terminated : Bool := decide (len = 0)
  let len1 : Nat :=
    if len = 0 then str_scan_term s.m_ptr s.m_size (s.m_size - s.m_pos) s.m_pos 0
    else len
  let lim : Nat := (s.m_pos + len) % SIZE_MOD
  let alterLen : Nat :=
    if len = 0 then 0 else str_scan_fixed s.m_ptr lim (lim - s.m_pos) s.m_pos 0
  if (s.m_pos + len1) % SIZE_MOD ≥ s.m_size then
    (.error (.brie "No available data: string is too long"), s)
  else
    let alterLen1 : Nat := if alterLen = 0 then len1 else alterLen
    match string_ctor s.m_ptr s.m_pos alterLen1 with
    | .error e => (.error e, s)
    | .ok str =>
      let s1 : Source := { s with m_pos := (s.m_pos + len1) % SIZE_MOD }
      let s2 : Source :=
        if is_null_terminated then { s1 with m_pos := (s1.m_pos + 1) % SIZE_MOD } else s1
      (.ok str, s2)

/-- The method `Source::read_wstr` together with the state it leaves: the
assignments `m_pos += len + prefixLen` and `m_pos += 2` follow every
`throwex` and the construction of the result string. -/
def Source.read_wstr_state (s : Source) (units : Nat) : Except Error (List Byte) × Source :=
  let len : Nat := (units * 2) % SIZE_MOD
  let prefixLen : Nat := bom_len s
  let start : Nat := (s.m_pos + prefixLen) % SIZE_MOD
  let lim : Nat := (s.m_pos + len) % SIZE_MOD
  let scanned : Except Error (Nat × Nat) :=
    if len = 0 then
      match wstr_scan_term s.m_ptr s.m_size (s.m_size - start) start 0 with
      | .error e => .error e
      | .ok l => .ok (l, 0)
    else .ok (len, wstr_scan_fixed s.m_ptr s.m_size lim (lim - start) start 0)
  match scanned with
  | .error e => (.error e, s)
  | .ok (len1, alterLen) =>
    if (s.m_pos + len1) % SIZE_MOD > s.m_size then
      (.error (.brie "No available data: wstring is too long"), s)
    else
      let len2 : Nat := (len1 + SIZE_MOD - prefixLen) % SIZE_MOD
      let len3 : Nat := if alterLen ≠ 0 then alterLen else len2
      match string_ctor s.m_ptr (s.m_pos + prefixLen) len3 with
      | .error e => (.error e, s)
      | .ok str =>
        let s1 : Source := { s with m_pos := (s.m_pos + (len3 + prefixLen) % SIZE_MOD) % SIZE_MOD }
        let s2 : Source := if len = 0 then { s1 with m_pos := (s1.m_pos + 2) % SIZE_MOD } else s1
        (.ok str, s2)

/-- The method `Source::set_pos` together with the state it leaves. -/
def Source.set_pos_state (s : Source) (value : Nat) : Except Error Unit × Source :=
  if value > s.m_size then (.error (.brie "Position outside of data space"), s)
  else (.ok (), { s with m_pos := value })

/-- A wide character, a double-zero unit and two more wide characters. -/
def src_wide_pad : Source := ⟨mem_of [0x41, 0, 0, 0, 0x42, 0, 0x43, 0], 8, 0⟩

/-- The function `add_struct` together with the registry it leaves: the two
checks only read `structs`, and `dict[name] = sp` is the last statement, so a
throwing check hands back the registry as it was. -/
def add_struct_state (structs : StructDict) (fuel : Nat) (name : String) (sp : FieldList) :
    Option (Except Error Unit × StructDict) :=
  match check_in_width structs name sp with
  | .error e => some (.error e, structs)
  | .ok () =>
    match check_in_depth structs name fuel sp with
    | none => none
    | some (.error e) => some (.error e, structs)
    | some (.ok ()) => some (.ok (), dict_set structs name sp)

/-- The three messages of the errors that reject a struct declaration. -/
def schema_error (msg : String) : Prop :=
  msg = "Self reference" ∨ msg = "Missing struct definition" ∨
    msg = "Circular struct definition"

/-- A function-reference field (`@callback:name`). -/
def func_field (callback name : String) : Field :=
  ⟨⟨DataType.FUNC, 0, 1, callback⟩, name⟩

/-- Declares `A`, then `B` embedding `A`. -/
def calls_ab : List RegCall :=
  [RegCall.add_struct "A" [prim_field DataType.U8 "x"],
   RegCall.add_struct "B" [struct_field "A" "a"]]

/-- The registry that `calls_ab` leaves. -/
def dict_ab : StructDict :=
  [("B", [struct_field "A" "a"]), ("A", [prim_field DataType.U8 "x"])]

/-- Declares `one` and `two`, as `TEST(PARSER, ComplexStructs)` does. -/
def calls_one_two : List RegCall :=
  [RegCall.add_struct "one" [prim_field DataType.U8 "aaa"],
   RegCall.add_struct "two" [prim_field DataType.U8 "bbb"]]

/-- The registry that `calls_one_two` leaves. -/
def dict_one_two : StructDict :=
  [("two", [prim_field DataType.U8 "bbb"]), ("one", [prim_field DataType.U8 "aaa"])]

/-! ### Descriptor parser (`parser.h`, `parser.cpp`) -/

/-- One call of the lexer callback `on_token(context, num, str)`: the token
number and the token text. -/
structure Token where
  num : Int
  str : String
  deriving DecidableEq, Repr

/-- Value of the enumerator `UNDEFINED_TYPE`. -/
abbrev UNDEFINED_TYPE_NUM : Int := 3000

/-- Value of the enumerator `MAX_TYPE`. -/
abbrev MAX_TYPE_NUM : Int := 3013

/-- Value of the enumerator `IDENTIFIER`. -/
abbrev IDENTIFIER : Int := 4001

/-- Value of the enumerator `FIXED_LENGTH`. -/
abbrev FIXED_LENGTH : Int := 4005

/-- Value of the enumerator `ARRAY_SIZE`. -/
abbrev ARRAY_SIZE : Int := 4006

/-- Value of the enumerator `FUNC_CONSTANT`. -/
abbrev FUNC_CONSTANT : Int := 4007

/-- Value of the enumerator `MAX_LITERAL`. -/
abbrev MAX_LITERAL : Int := 4008

/-- Value of an enumerator of `enum Type` (`UNDEFINED_TYPE = 3000`, then
consecutive). -/
def type_num : DataType → Int
  | .UNDEFINED_TYPE => 3000
  | .U8 => 3001
  | .U16 => 3002
  | .U32 => 3003
  | .I16 => 3004
  | .I32 => 3005
  | .I64 => 3006
  | .F32 => 3007
  | .F64 => 3008
  | .STRING => 3009
  | .WSTRING => 3010
  | .VOID => 3011
  | .FUNC => 3012
  | .MAX_TYPE => 3013

/-- The cast `static_cast<Type>(num)` for a token number in
`[UNDEFINED_TYPE, MAX_TYPE)`. -/
def type_of_num (num : Int) : DataType :=
  if num = 3000 then .UNDEFINED_TYPE
  else if num = 3001 then .U8
  else if num = 3002 then .U16
  else if num = 3003 then .U32
  else if num = 3004 then .I16
  else if num = 3005 then .I32
  else if num = 3006 then .I64
  else if num = 3007 then .F32
  else if num = 3008 then .F64
  else if num = 3009 then .STRING
  else if num = 3010 then .WSTRING
  else if num = 3011 then .VOID
  else if num = 3012 then .FUNC
  else .MAX_TYPE

/-- The C string `str + 1`: the text without its first character. -/
def cstr_tail (str : String) : String := ⟨str.data.drop 1⟩

/-- Value of a decimal digit character, if it is one. -/
def digit_of (c : Char) : Option Nat :=
  if 48 ≤ c.toNat ∧ c.toNat ≤ 57 then some (c.toNat - 48) else none

/-- The longest run of decimal digits at the start of a text: its value
after `acc`, and whether a digit was seen. -/
def scan_digits : List Char → Nat → Bool → Nat × Bool
  | [], acc, seen => (acc, seen)
  | c :: cs, acc, seen =>
    match digit_of c with
    | some dgt => scan_digits cs (acc * 10 + dgt) true
    | none => (acc, seen)

/-- The white space that `sscanf` skips before a conversion (`isspace`: the
blank and the characters 9 to 13). -/
def skip_space : List Char → List Char
  | [] => []
  | c :: cs => if c.toNat = 32 ∨ (9 ≤ c.toNat ∧ c.toNat ≤ 13) then skip_space cs else c :: cs

/-- Conversion `%lu` of `sscanf`, which takes the subject sequence of
`strtoul` with base 10: white space is skipped, a sign `+` (43) or `-` (45)
may precede the digits, and the digits run up to the first other character.
The result is `none` when no digit follows.  A value beyond `ULONG_MAX` is
stored as `ULONG_MAX`, and a value after `-` is negated in `unsigned long`. -/
def scan_ulong (cs : List Char) : Option Nat :=
  let body : List Char := skip_space cs
  let neg : Bool := decide (body.head?.map Char.toNat = some 45)
  let signed : Bool := neg || decide (body.head?.map Char.toNat = some 43)
  match scan_digits (if signed then body.drop 1 else body) 0 false with
  | (_, false) => none
  | (v, true) =>
    if v > SIZE_MOD - 1 then some (SIZE_MOD - 1)
    else if neg then some ((SIZE_MOD - v) % SIZE_MOD)
    else some v

/-- The function `extract_num`: `sscanf(str + 1, "%lu", &val)`, an error when
no number was converted. -/
def extract_num (str : String) : Except Error Nat :=
  match scan_ulong (str.data.drop 1) with
  | none => .error (.brie "Parser: invalid fixed length or array size value")
  | some v => .ok v

/-- The function `clear_data_item`, as the value it leaves in the item. -/
def clear_data_item : DataItem := ⟨.UNDEFINED_TYPE, 0, 1, ""⟩

/-- The function `clear_field`, as the value it leaves in the field. -/
def clear_field : Field := ⟨clear_data_item, ""⟩

/-- The enum `ReadStringParser::State`. -/
inductive RState
  | Initial | Type_ | Name | FixedLength | ArraySize
  deriving DecidableEq, Repr

/-- The data members of `class ReadStringParser`; `m_dataItems` is the list
the constructor received by reference. -/
structure ReadStringParser where
  m_dataItems : List DataItem
  m_current : DataItem
  m_state : RState
  deriving DecidableEq, Repr

/-- The constructor `ReadStringParser(dataItems)`. -/
def ReadStringParser.new (dataItems : List DataItem) : ReadStringParser :=
  ⟨dataItems, clear_data_item, .Initial⟩

/-- The method `ReadStringParser::complete`. -/
def ReadStringParser.complete (p : ReadStringParser) : Except Error ReadStringParser :=
  if p.m_state ≠ .Initial then
    if p.m_current.type = .VOID ∧ p.m_current.size = 0 then
      .error (.brie "Parser: invalid state")
    else
      .ok { m_dataItems := p.m_dataItems ++ [p.m_current], m_current := clear_data_item,
            m_state := .Initial }
  else .ok p

/-- The method `ReadStringParser::push_type`. -/
def ReadStringParser.push_type (p : ReadStringParser) (type : DataType) :
    Except Error ReadStringParser :=
  match p.complete with
  | .error e => .error e
  | .ok p1 =>
    if p1.m_state ≠ .Initial then .error (.brie "Parser: invalid state")
    else .ok { p1 with m_current := { p1.m_current with type := type }, m_state := .Type_ }

/-- The method `ReadStringParser::push_identifier`. -/
def ReadStringParser.push_identifier (p : ReadStringParser) (str : String) :
    Except Error ReadStringParser :=
  match p.complete with
  | .error e => .error e
  | .ok p1 =>
    if p1.m_state ≠ .Initial then .error (.brie "Parser: invalid state")
    else .ok { p1 with m_current := { p1.m_current with typeName := str }, m_state := .Name }

/-- The method `ReadStringParser::push_value`. -/
def ReadStringParser.push_value (p : ReadStringParser) (valueType : Int) (str : String) :
    Except Error ReadStringParser :=
  if valueType = FIXED_LENGTH then
    if p.m_state ≠ .Type_ then .error (.brie "Parser: invalid state")
    else if p.m_current.type ≠ .STRING ∧ p.m_current.type ≠ .WSTRING ∧
        p.m_current.type ≠ .VOID then
      .error (.brie "Parser: invalid state")
    else
      match extract_num str with
      | .error e => .error e
      | .ok v => .ok { p with m_current := { p.m_current with size := v },
                              m_state := .FixedLength }
  else if valueType = ARRAY_SIZE then
    if p.m_state ≠ .Type_ ∧ p.m_state ≠ .FixedLength ∧ p.m_state ≠ .Name then
      .error (.brie "Parser: invalid state")
    else
      match extract_num str with
      | .error e => .error e
      | .ok v => .ok { p with m_current := { p.m_current with count := v },
                              m_state := .ArraySize }
  else if valueType = FUNC_CONSTANT then
    if p.m_state ≠ .Initial then .error (.brie "Parser: invalid state")
    else .ok { p with m_current := { p.m_current with typeName := cstr_tail str,
                                                      type := .FUNC },
                      m_state := .Type_ }
  else .error (.brie "Parser: invalid token type")

/-- The callback `ParserBase::on_token` on a `ReadStringParser`, which
inherits `push_symbol` from `ParserBase`. -/
def ReadStringParser.on_token (p : ReadStringParser) (tok : Token) :
    Except Error ReadStringParser :=
  if tok.num < UNDEFINED_TYPE_NUM then
    .error (.brie "ParserBase::push_symbol not impleneted")
  else if tok.num < MAX_TYPE_NUM then p.push_type (type_of_num tok.num)
  else if tok.num < MAX_LITERAL then
    if tok.num = IDENTIFIER then p.push_identifier tok.str
    else p.push_value tok.num tok.str
  else .error (.brie "Parser: invalid token type")

/-- The lexer run `briebase_callback(&parser, t, ParserBase::on_token)` on a
`ReadStringParser`, for the token sequence the lexer reports. -/
def ReadStringParser.feed (p : ReadStringParser) : List Token → Except Error ReadStringParser
  | [] => .ok p
  | tok :: rest =>
    match p.on_token tok with
    | .error e => .error e
    | .ok p1 => p1.feed rest

/-- The body of `parse_read_str` after a cache miss, on the token sequence of
the descriptor: the parsed items. -/
def parse_read_tokens (tokens : List Token) : Except Error (List DataItem) :=
  match (ReadStringParser.new []).feed tokens with
  | .error e => .error e
  | .ok p =>
    match p.complete with
    | .error e => .error e
    | .ok p1 => .ok p1.m_dataItems

/-- The enum `FieldsParser::State`. -/
inductive FState
  | Initial | Type_ | FixedLength | ArraySize | Colon | Name
  deriving DecidableEq, Repr

/-- The data members of `class FieldsParser`; `m_fields` is the list the
constructor received by reference. -/
structure FieldsParser where
  m_fields : FieldList
  m_current : Field
  m_state : FState
  deriving DecidableEq, Repr

/-- The constructor `FieldsParser(fields)`. -/
def FieldsParser.new (fields : FieldList) : FieldsParser :=
  ⟨fields, clear_field, .Initial⟩

/-- The method `FieldsParser::complete`. -/
def FieldsParser.complete (p : FieldsParser) : Except Error FieldsParser :=
  if p.m_state = .Initial then .ok p
  else if p.m_current.type = .VOID then
    if p.m_state ≠ .FixedLength ∧ p.m_state ≠ .ArraySize then
      .error (.brie "Parser: invalid state")
    else if p.m_current.size = 0 then .error (.brie "Parser: invalid state")
    else .ok { m_fields := p.m_fields ++ [p.m_current], m_current := clear_field,
               m_state := .Initial }
  else
    if p.m_state ≠ .Name then .error (.brie "Parser: invalid state")
    else if p.m_current.name = "" then .error (.brie "Parser: invalid state")
    else .ok { m_fields := p.m_fields ++ [p.m_current], m_current := clear_field,
               m_state := .Initial }

/-- The first statement of `FieldsParser::push_type` and `push_identifier`:
an open `void` item with a length is completed. -/
def FieldsParser.complete_void (p : FieldsParser) : Except Error FieldsParser :=
  if p.m_current.type = .VOID ∧ (p.m_state = .FixedLength ∨ p.m_state = .ArraySize) then
    p.complete
  else .ok p

/-- The method `FieldsParser::push_type`. -/
def FieldsParser.push_type (p : FieldsParser) (type : DataType) : Except Error FieldsParser :=
  match p.complete_void with
  | .error e => .error e
  | .ok p1 =>
    if p1.m_state ≠ .Initial then .error (.brie "Parser: invalid state")
    else .ok { p1 with m_current := { p1.m_current with type := type }, m_state := .Type_ }

/-- The method `FieldsParser::push_identifier`. -/
def FieldsParser.push_identifier (p : FieldsParser) (str : String) :
    Except Error FieldsParser :=
  match p.complete_void with
  | .error e => .error e
  | .ok p1 =>
    if p1.m_state = .Initial then
      .ok { p1 with m_current := { p1.m_current with typeName := str }, m_state := .Type_ }
    else if p1.m_state = .Colon then
      FieldsParser.complete
        { p1 with m_current := { p1.m_current with name := str }, m_state := .Name }
    else .error (.brie "Parser: invalid state")

/-- The method `FieldsParser::push_value`. -/
def FieldsParser.push_value (p : FieldsParser) (valueType : Int) (str : String) :
    Except Error FieldsParser :=
  if valueType = FIXED_LENGTH then
    if p.m_state ≠ .Type_ then .error (.brie "Parser: invalid state")
    else if p.m_current.type ≠ .STRING ∧ p.m_current.type ≠ .WSTRING ∧
        p.m_current.type ≠ .VOID then
      .error (.brie "Parser: invalid state")
    else
      match extract_num str with
      | .error e => .error e
      | .ok v => .ok { p with m_current := { p.m_current with size := v },
                              m_state := .FixedLength }
  else if valueType = ARRAY_SIZE then
    if p.m_state ≠ .Type_ ∧ p.m_state ≠ .FixedLength then
      .error (.brie "Parser: invalid state")
    else
      match extract_num str with
      | .error e => .error e
      | .ok v => .ok { p with m_current := { p.m_current with count := v },
                              m_state := .ArraySize }
  else if valueType = FUNC_CONSTANT then
    if p.m_state ≠ .Initial then .error (.brie "Parser: invalid state")
    else .ok { p with m_current := { p.m_current with typeName := cstr_tail str,
                                                      type := .FUNC },
                      m_state := .Type_ }
  else .error (.brie "Parser: invalid state")

/-- The method `FieldsParser::push_symbol`; `sym` is the character code. -/
def FieldsParser.push_symbol (p : FieldsParser) (sym : Int) : Except Error FieldsParser :=
  if sym = 58 then
    if p.m_state ≠ .Type_ ∧ p.m_state ≠ .FixedLength ∧ p.m_state ≠ .ArraySize then
      .error (.brie "Parser: invalid state")
    else .ok { p with m_state := .Colon }
  else .error (.brie "Parser: invalid state")

/-- The callback `ParserBase::on_token` on a `FieldsParser`. -/
def FieldsParser.on_token (p : FieldsParser) (tok : Token) : Except Error FieldsParser :=
  if tok.num < UNDEFINED_TYPE_NUM then p.push_symbol tok.num
  else if tok.num < MAX_TYPE_NUM then p.push_type (type_of_num tok.num)
  else if tok.num < MAX_LITERAL then
    if tok.num = IDENTIFIER then p.push_identifier tok.str
    else p.push_value tok.num tok.str
  else .error (.brie "Parser: invalid token type")

/-- The lexer run `briebase_callback(&parser, t, ParserBase::on_token)` on a
`FieldsParser`, for the token sequence the lexer reports. -/
def FieldsParser.feed (p : FieldsParser) : List Token → Except Error FieldsParser
  | [] => .ok p
  | tok :: rest =>
    match p.on_token tok with
    | .error e => .error e
    | .ok p1 => p1.feed rest

/-- The function `parse_fields_str` on the token sequence of the declaration:
the list `fields` after the call (the function appends to it). -/
def parse_fields_tokens (tokens : List Token) (fields : FieldList) : Except Error FieldList :=
  match (FieldsParser.new fields).feed tokens with
  | .error e => .error e
  | .ok p =>
    match p.complete with
    | .error e => .error e
    | .ok p1 => .ok p1.m_fields

/-- The token of a type keyword. -/
def tok_type (t : DataType) : Token := ⟨type_num t, ""⟩

/-- The token of a bare identifier. -/
def tok_ident (name : String) : Token := ⟨IDENTIFIER, name⟩

/-- The token of a fixed-length suffix with the text `str` (`#` and digits). -/
def tok_fixed (str : String) : Token := ⟨FIXED_LENGTH, str⟩

/-- The token of an array-size suffix with the text `str` (`*` and digits). -/
def tok_array (str : String) : Token := ⟨ARRAY_SIZE, str⟩

/-- The token of a function marker with the text `str` (`@` and a name). -/
def tok_func (str : String) : Token := ⟨FUNC_CONSTANT, str⟩

/-- The token of the field separator `:`. -/
def tok_colon : Token := ⟨58, ":"⟩

/-! ### Item forms of the descriptor grammar -/

/-- A numeric suffix: the token text and the number it stands for. -/
structure NumSuffix where
  text : String
  value : Nat
  deriving DecidableEq, Repr

/-- The text of the suffix converts to its value. -/
def NumSuffix.wf (n : NumSuffix) : Prop := extract_num n.text = .ok n.value

/-- The type keywords other than `void`: `u8 u16 u32 i16 i32 i64 f32 f64 str wstr`. -/
def non_void_keyword (t : DataType) : Prop :=
  t = .U8 ∨ t = .U16 ∨ t = .U32 ∨ t = .I16 ∨ t = .I32 ∨ t = .I64 ∨ t = .F32 ∨ t = .F64 ∨
    t = .STRING ∨ t = .WSTRING

/-- The leading part of an item: a type keyword `T`, a sized keyword `S#N`,
or a bare identifier `I`. -/
inductive ItemHead
  | keyword (t : DataType)
  | sized (s : DataType) (n : NumSuffix)
  | ident (name : String)
  deriving DecidableEq, Repr

/-- An unnamed item `T`, `T*M`, `S#N`, `S#N*M`, `I` or `I*M`. -/
structure ReadItem where
  head : ItemHead
  count : Option NumSuffix
  deriving DecidableEq, Repr

/-- The tokens of the leading part of an item. -/
def ItemHead.tokens : ItemHead → List Token
  | .keyword t => [tok_type t]
  | .sized s n => [tok_type s, tok_fixed n.text]
  | .ident name => [tok_ident name]

/-- The tokens of an optional array-size suffix. -/
def count_tokens : Option NumSuffix → List Token
  | none => []
  | some m => [tok_array m.text]

/-- The tokens of an unnamed item. -/
def ReadItem.tokens (it : ReadItem) : List Token := it.head.tokens ++ count_tokens it.count

/-- The count an optional array-size suffix stands for (1 when absent). -/
def count_value : Option NumSuffix → Nat
  | none => 1
  | some m => m.value

/-- The `DataItem` that the item stands for. -/
def ReadItem.item (it : ReadItem) : DataItem :=
  match it.head with
  | .keyword t => ⟨t, 0, count_value it.count, ""⟩
  | .sized s n => ⟨s, n.value, count_value it.count, ""⟩
  | .ident name => ⟨.UNDEFINED_TYPE, 0, count_value it.count, name⟩

/-- The item has one of the forms `T`, `T*M` (`T` a non-void type keyword),
`S#N`, `S#N*M` (`S` one of `str`, `wstr`, `void`, with `N > 0` for `void`),
`I`, `I*M`. -/
def ReadItem.wf (it : ReadItem) : Prop :=
  (match it.head with
    | .keyword t => non_void_keyword t
    | .sized s n => (s = .STRING ∨ s = .WSTRING ∨ s = .VOID) ∧ n.wf ∧ (s = .VOID → 0 < n.value)
    | .ident _ => True) ∧
  (match it.count with
    | none => True
    | some m => m.wf)

/-- The items a `ReadStringParser` has collected, its open item included. -/
def ReadStringParser.pending (p : ReadStringParser) : List DataItem :=
  if p.m_state = .Initial then p.m_dataItems else p.m_dataItems ++ [p.m_current]

/-- The parser was constructed and has consumed tokens without an error so
that its open item, if any, can be completed: in state `Initial` the current
item is cleared, otherwise it is not a `void` of size 0. -/
def ReadStringParser.sound (p : ReadStringParser) : Prop :=
  (p.m_state = .Initial → p.m_current = clear_data_item) ∧
  (p.m_state ≠ .Initial → ¬ (p.m_current.type = .VOID ∧ p.m_current.size = 0))

/-- A named item `T:name`, `T*M:name`, `S#N:name`, `S#N*M:name`, `I:name` or
`I*M:name` of a struct declaration. -/
structure NamedItem where
  head : ItemHead
  count : Option NumSuffix
  name : String
  deriving DecidableEq, Repr

/-- The tokens of a named item. -/
def NamedItem.tokens (it : NamedItem) : List Token :=
  it.head.tokens ++ count_tokens it.count ++ [tok_colon, tok_ident it.name]

/-- The `Field` that the named item stands for. -/
def NamedItem.field (it : NamedItem) : Field :=
  match it.head with
  | .keyword t => ⟨⟨t, 0, count_value it.count, ""⟩, it.name⟩
  | .sized s n => ⟨⟨s, n.value, count_value it.count, ""⟩, it.name⟩
  | .ident name => ⟨⟨.UNDEFINED_TYPE, 0, count_value it.count, name⟩, it.name⟩

/-- The named item has one of the forms `T:name`, `T*M:name` (`T` a non-void
type keyword), `S#N:name`, `S#N*M:name` (`S` one of `str`, `wstr`),
`I:name`, `I*M:name`; the name, an identifier, is not empty. -/
def NamedItem.wf (it : NamedItem) : Prop :=
  (match it.head with
    | .keyword t => non_void_keyword t
    | .sized s n => (s = .STRING ∨ s = .WSTRING) ∧ n.wf
    | .ident _ => True) ∧
  (match it.count with
    | none => True
    | some m => m.wf) ∧
  it.name ≠ ""

/-- The token is dispatched to `push_type`. -/
def Token.is_type (tok : Token) : Prop := UNDEFINED_TYPE_NUM ≤ tok.num ∧ tok.num < MAX_TYPE_NUM

/-- The token is a bare identifier. -/
def Token.is_ident (tok : Token) : Prop := tok.num = IDENTIFIER

/-- The token is a function marker `@name`. -/
def Token.is_func (tok : Token) : Prop := tok.num = FUNC_CONSTANT

/-- The token is a fixed-length suffix `#N`. -/
def Token.is_fixed (tok : Token) : Prop := tok.num = FIXED_LENGTH

/-- The token is an array-size suffix `*M`. -/
def Token.is_array (tok : Token) : Prop := tok.num = ARRAY_SIZE

/-- State of a `FieldsParser` between two tokens: in state `Initial` the
current field is cleared, and the state `Name` has been left again. -/
def FieldsParser.sound (p : FieldsParser) : Prop :=
  (p.m_state = .Initial → p.m_current = clear_field) ∧ p.m_state ≠ .Name

/-- State of a `ReadStringParser` between two tokens: in state `Initial` the
current item is cleared. -/
def ReadStringParser.clean (p : ReadStringParser) : Prop :=
  p.m_state = .Initial → p.m_current = clear_data_item

/-- An anonymous skip item `void#N` or `void#N*M` of a struct declaration. -/
structure VoidItem where
  size : NumSuffix
  count : Option NumSuffix
  deriving DecidableEq, Repr

/-- The tokens of an anonymous skip item. -/
def VoidItem.tokens (it : VoidItem) : List Token :=
  [tok_type .VOID, tok_fixed it.size.text] ++ count_tokens it.count

/-- The `Field` that the skip item stands for. -/
def VoidItem.field (it : VoidItem) : Field :=
  ⟨⟨.VOID, it.size.value, count_value it.count, ""⟩, ""⟩

/-- The skip item has a length `N > 0`, and its suffixes are numbers. -/
def VoidItem.wf (it : VoidItem) : Prop :=
  it.size.wf ∧ 0 < it.size.value ∧
  (match it.count with
    | none => True
    | some m => m.wf)

/-- The fields a `FieldsParser` has collected, an open `void` item included. -/
def FieldsParser.pending (p : FieldsParser) : FieldList :=
  if p.m_state = .Initial then p.m_fields else p.m_fields ++ [p.m_current]

/-- The parser is between two items, or its open item is a `void` item with
a length that the next item or the end of the input completes. -/
def FieldsParser.flushable (p : FieldsParser) : Prop :=
  (p.m_state = .Initial ∧ p.m_current = clear_field) ∨
  (p.m_current.type = .VOID ∧ (p.m_state = .FixedLength ∨ p.m_state = .ArraySize) ∧
    p.m_current.size ≠ 0)

/-- The integer and float type keywords `u8 u16 u32 i16 i32 i64 f32 f64`. -/
def numeric_keyword (t : DataType) : Prop :=
  t = .U8 ∨ t = .U16 ∨ t = .U32 ∨ t = .I16 ∨ t = .I32 ∨ t = .I64 ∨ t = .F32 ∨ t = .F64

/-- A `void` item whose declared size is zero: `void`, `void*M`, `void#0` or
`void#0*M`. -/
structure ZeroVoid where
  size : Option NumSuffix
  count : Option NumSuffix
  deriving DecidableEq, Repr

/-- The tokens of an optional fixed-length suffix. -/
def size_tokens : Option NumSuffix → List Token
  | none => []
  | some n => [tok_fixed n.text]

/-- The tokens of a zero-size `void` item. -/
def ZeroVoid.tokens (z : ZeroVoid) : List Token :=
  [tok_type .VOID] ++ size_tokens z.size ++ count_tokens z.count

/-- The suffixes are numbers and the size, when given, is `#0`. -/
def ZeroVoid.wf (z : ZeroVoid) : Prop :=
  (match z.size with
    | none => True
    | some n => n.wf ∧ n.value = 0) ∧
  (match z.count with
    | none => True
    | some m => m.wf)

/-- The item before `rest` ends: the input ends, or the next token is no
fixed-length or array-size suffix. -/
def item_ends (rest : List Token) : Prop :=
  rest = [] ∨ ∃ tok tl, rest = tok :: tl ∧ ¬ tok.is_fixed ∧ ¬ tok.is_array

/-! ### Descriptor cache (`parse_read_str`) -/

/-- The type `ParserCache`: the map from descriptor strings to parsed item
lists, kept as an association list with at most one entry per string. -/
abbrev ParserCache := List (String × List DataItem)

/-- The call `parserCache.find(str)`: `none` stands for `parserCache.end()`. -/
def cache_find : ParserCache → String → Option (List DataItem)
  | [], _ => none
  | (k, v) :: rest, str => if k = str then some v else cache_find rest str

/-- The assignment `parserCache[str] = p`. -/
def cache_set (c : ParserCache) (str : String) (items : List DataItem) : ParserCache :=
  (str, items) :: c.filter (fun e => decide (e.1 ≠ str))

/-- The function `parse_read_str` with the cache it leaves; `lexer` gives
the token sequence that `briebase_callback` reports for a string.  The first
component is the outcome: the content of `dataItems` after a return, or the
error thrown. -/
def parse_read_str (lexer : String → List Token) (cache : ParserCache) (str : String) :
    Except Error (List DataItem) × ParserCache :=
  match cache_find cache str with
  | some items => (.ok items, cache)
  | none =>
    match parse_read_tokens (lexer str) with
    | .error e => (.error e, cache)
    | .ok items => (.ok items, cache_set cache str items)

/-- A sequence of `parse_read_str` calls: the outcomes in order and the cache
after the last call. -/
def parse_read_strs (lexer : String → List Token) :
    ParserCache → List String → List (Except Error (List DataItem)) × ParserCache
  | cache, [] => ([], cache)
  | cache, str :: rest =>
    ((parse_read_str lexer cache str).1 ::
        (parse_read_strs lexer (parse_read_str lexer cache str).2 rest).1,
      (parse_read_strs lexer (parse_read_str lexer cache str).2 rest).2)

/-! ### Decoder (`luna.cpp`: `retrieve`, `retrieve_struct`, `func_read_wrapped`) -/

/-- A key of a Lua table: an array index or a field name. -/
inductive LuaKey
  | idx (i : Nat)
  | name (k : String)
  deriving DecidableEq, Repr

/-- A Lua value on the stack.  A table is the list of its entries in the
order in which the keys were first set; the decoder builds every table
itself and holds the only reference to it, so tables are values here.  An
`object` is a reference to a value that lives on the Lua side (a table,
function or other object that a called function returned): the decoder
stores the reference and never looks into it. -/
inductive LuaValue
  | nil
  | boolean (b : Bool)
  | integer (v : Int)
  | number (v : FloatVal)
  | string (s : List Byte)
  | table (entries : List (LuaKey × LuaValue))
  | object (id : Nat)

/-- The assignment `t[k] = v` on the entries of a table: a `nil` value
removes the key, another value replaces the entry or adds one at the end. -/
def table_set : List (LuaKey × LuaValue) → LuaKey → LuaValue → List (LuaKey × LuaValue)
  | es, k, .nil => es.filter (fun e => decide (e.1 ≠ k))
  | [], k, v => [(k, v)]
  | (k1, v1) :: rest, k, v =>
    if k1 = k then (k, v) :: rest else (k1, v1) :: table_set rest k v

/-- The call `lua_setfield(L, -2, k)` on the stack (top first): pops the value
and stores it under `k` in the table below it.  Indexing a value that is no
table raises a Lua error, modelled like the errors `throwex` raises, since
`func_read` hands both to Lua as an error message. -/
def lua_setfield (k : String) : List LuaValue → Except Error (List LuaValue)
  | v :: .table es :: rest => .ok (.table (table_set es (.name k) v) :: rest)
  | _ => .error (.brie "attempt to index a non-table value")

/-- The call `lua_rawseti(L, -2, i)` on the stack (top first). -/
def lua_rawseti (i : Nat) : List LuaValue → Except Error (List LuaValue)
  | v :: .table es :: rest => .ok (.table (table_set es (.idx i) v) :: rest)
  | _ => .error (.brie "attempt to index a non-table value")

/-- What a Lua function can reach besides the values it is called with: the
active source (through the registered `read`, `setpos` and `open`), the
struct registry (through `decl`) and the Lua globals, whose state has the
type `σ`. -/
structure World (σ : Type) where
  source : Source
  structs : StructDict
  globals : σ

/-- The Lua interpreter as the decoder uses it.  `call w name` is
`lua_getglobal(L, name)` followed by `lua_call(L, 0, LUA_MULTRET)` in the
world `w`: `none` when the global is not a function; otherwise the values
that the call returned, or the error that it raised, and the world that it
left.  `set_pos_var g pos` is the assignment of `pos` to the global
`BRIE_POS` (`set_brie_pos_var`).  A called function is taken to return or to
raise an error, and not to reach into the stack of the C function that
called it. -/
structure LuaEnv (σ : Type) where
  call : World σ → String → Option (Except Error (List LuaValue) × World σ)
  set_pos_var : σ → Nat → σ

/-- What the decoder works on: the active source, the Lua stack of
`func_read` (top first), the struct registry and the Lua globals. -/
structure DecState (σ : Type) where
  source : Source
  stack : List LuaValue
  structs : StructDict
  globals : σ

/-- The world that a Lua function called in the state `st` finds. -/
def DecState.world {σ : Type} (st : DecState σ) : World σ :=
  ⟨st.source, st.structs, st.globals⟩

/-- The state of the decoder after a Lua function left the world `w`: the
stack of the decoder is not touched by the call. -/
def DecState.set_world {σ : Type} (st : DecState σ) (w : World σ) : DecState σ :=
  ⟨w.source, st.stack, w.structs, w.globals⟩

/-- Outcome of a decoding step: the state it leaves and whether it returned
or threw; `none` when the step did not finish (the recursion into nested
structs within the step budget, or a loop that the source never leaves). -/
abbrev Decode (σ : Type) := Option (Except Error Unit × DecState σ)

/-- The loop of `retrieve_struct` over the fields:
`retrieve(L, f); if (f.type != VOID) lua_setfield(L, -2, f.name.c_str());`. -/
def retrieve_fields {σ : Type} (rec : DataItem → DecState σ → Decode σ) :
    FieldList → DecState σ → Decode σ
  | [], st => some (.ok (), st)
  | f :: rest, st =>
    match rec f.toDataItem st with
    | none => none
    | some (.error e, st1) => some (.error e, st1)
    | some (.ok (), st1) =>
      if f.type ≠ .VOID then
        match lua_setfield f.name st1.stack with
        | .error e => some (.error e, st1)
        | .ok stack2 => retrieve_fields rec rest { st1 with stack := stack2 }
      else retrieve_fields rec rest st1

/-- The function `retrieve_struct`; `rec` is the function `retrieve`. -/
def retrieve_struct {σ : Type} (rec : DataItem → DecState σ → Decode σ)
    (name : String) (st : DecState σ) : Decode σ :=
  match get_struct st.structs name with
  | .error e => some (.error e, st)
  | .ok fields => retrieve_fields rec fields { st with stack := .table [] :: st.stack }

/-- The `switch` of `retrieve` for one element of the item: reads or computes
one value and pushes it.  In the case `FUNC` the call of the Lua function
comes first and acts on the world; the values it returned are on the stack
when their number is checked. -/
def retrieve_value {σ : Type} (env : LuaEnv σ) (rec : DataItem → DecState σ → Decode σ)
    (item : DataItem) (st : DecState σ) : Decode σ :=
  match item.type with
  | .U8 | .U16 | .U32 | .I16 | .I32 | .I64 =>
    match st.source.read_int_state item.type with
    | (.error e, s) => some (.error e, { st with source := s })
    | (.ok v, s) => some (.ok (), { st with source := s, stack := .integer v :: st.stack })
  | .F32 | .F64 =>
    match st.source.read_float_state item.type with
    | (.error e, s) => some (.error e, { st with source := s })
    | (.ok v, s) => some (.ok (), { st with source := s, stack := .number v :: st.stack })
  | .STRING =>
    match st.source.read_str_state item.size with
    | (.error e, s) => some (.error e, { st with source := s })
    | (.ok v, s) => some (.ok (), { st with source := s, stack := .string v :: st.stack })
  | .WSTRING =>
    match st.source.read_wstr_state item.size with
    | (.error e, s) => some (.error e, { st with source := s })
    | (.ok v, s) => some (.ok (), { st with source := s, stack := .string v :: st.stack })
  | .VOID => some (.error (.brie "Unexpected retrieve"), st)
  | .FUNC =>
    match env.call st.world item.typeName with
    | none => some (.error (.brie "Function not defined"), st)
    | some (.error e, w) => some (.error e, st.set_world w)
    | some (.ok results, w) =>
      if results.length ≠ 1 then
        some (.error (.brie "Function returned too many results"),
          { st.set_world w with stack := results.reverse ++ st.stack })
      else some (.ok (), { st.set_world w with stack := results.reverse ++ st.stack })
  | _ => retrieve_struct rec item.typeName st

/-- The loop `for (size_t i = 1; i <= item.count; i++)` of `retrieve` with
`n` iterations left: the `switch`, then `lua_rawseti(L, -2, i)` for an item
with `count > 1`.  Started with `n = count` the loop runs `count` iterations
and is left when `i` exceeds `count`.  For `count = 2^64 - 1` the condition
`i <= item.count` of the source never fails: the loop is left only by a
throw, and the result is `none` when none of the first `2^64 - 1` iterations
throws. -/
def retrieve_loop {σ : Type} (body : DecState σ → Decode σ) (count : Nat) :
    Nat → Nat → DecState σ → Decode σ
  | 0, _, st => if count = SIZE_MOD - 1 then none else some (.ok (), st)
  | n + 1, i, st =>
    match body st with
    | none => none
    | some (.error e, st1) => some (.error e, st1)
    | some (.ok (), st1) =>
      if count > 1 then
        match lua_rawseti i st1.stack with
        | .error e => some (.error e, st1)
        | .ok stack2 => retrieve_loop body count n (i + 1) { st1 with stack := stack2 }
      else retrieve_loop body count n (i + 1) st1

/-- The function `retrieve`.  The first argument bounds the depth of the
recursion through `retrieve_struct`. -/
def retrieve {σ : Type} (env : LuaEnv σ) : Nat → DataItem → DecState σ → Decode σ
  | 0, _, _ => none
  | fuel + 1, item, st =>
    if item.type = .VOID then
      match st.source.set_pos_state
          ((st.source.m_pos + (item.size * item.count) % SIZE_MOD) % SIZE_MOD) with
      | (.error e, s) => some (.error e, { st with source := s })
      | (.ok (), s) => some (.ok (), { st with source := s })
    else
      retrieve_loop (retrieve_value env (retrieve env fuel) item) item.count
        item.count 1
        (if item.count > 1 then { st with stack := .table [] :: st.stack } else st)

/-- The loop of `func_read_wrapped` over the parsed items:
`if (item.type != VOID) count++; retrieve(L, item);`, with the count so far. -/
def read_items {σ : Type} (env : LuaEnv σ) (fuel : Nat) :
    List DataItem → Nat → DecState σ → Option (Except Error Nat × DecState σ)
  | [], count, st => some (.ok count, st)
  | item :: rest, count, st =>
    match retrieve env fuel item st with
    | none => none
    | some (.error e, st1) => some (.error e, st1)
    | some (.ok (), st1) =>
      read_items env fuel rest (if item.type ≠ .VOID then count + 1 else count) st1

/-- The function `func_read_wrapped` for a descriptor with the given token
sequence: the number of values it hands to Lua (they are the topmost values
of the stack) and the state it leaves; after the loop `set_brie_pos_var`
stores the cursor in the global `BRIE_POS`. -/
def func_read_wrapped {σ : Type} (env : LuaEnv σ) (fuel : Nat) (tokens : List Token)
    (st : DecState σ) : Option (Except Error Nat × DecState σ) :=
  match parse_read_tokens tokens with
  | .error e => some (.error e, st)
  | .ok items =>
    match read_items env fuel items 0 st with
    | none => none
    | some (.error e, st1) => some (.error e, st1)
    | some (.ok count, st1) =>
      some (.ok count, { st1 with globals := env.set_pos_var st1.globals st1.source.m_pos })

/-- No Lua function is defined, and no global is kept. -/
def env_none : LuaEnv Unit := ⟨fun _ _ => none, fun g _ => g⟩

/-- The eight numbers of `populate_data`: the integers of `test_numbers`,
then the object representations of the `float` -8.1 and the `double` 9.2. -/
def mem_numbers : Nat → Byte :=
  (add_number 8 0x4022666666666666
    (add_number 4 0xC101999A (write_numbers test_numbers (mem_of []) 0).1 21).1 25).1

/-- The token sequence of the descriptor `"u8 u16 u32 i16 i32 i64 f32 f64"`. -/
def tokens_numbers : List Token :=
  [tok_type .U8, tok_type .U16, tok_type .U32, tok_type .I16, tok_type .I32, tok_type .I64,
   tok_type .F32, tok_type .F64]

/-- The declarations `one := u8:aaa u16:bbb`, `two := u32:ccc i16:ddd` and
`three := one:xxx two:yyy` of `TEST(CONSOLE, Struct)`. -/
def calls_three : List RegCall :=
  [RegCall.add_struct "one" [prim_field .U8 "aaa", prim_field .U16 "bbb"],
   RegCall.add_struct "two" [prim_field .U32 "ccc", prim_field .I16 "ddd"],
   RegCall.add_struct "three" [struct_field "one" "xxx", struct_field "two" "yyy"]]

/-- The registry that `calls_three` leaves. -/
def dict_three : StructDict :=
  [("three", [struct_field "one" "xxx", struct_field "two" "yyy"]),
   ("two", [prim_field .U32 "ccc", prim_field .I16 "ddd"]),
   ("one", [prim_field .U8 "aaa", prim_field .U16 "bbb"])]

/-- The encoding of `u8 = 1, u16 = 2, u32 = 3, i16 = -5`. -/
def mem_three : Nat → Byte :=
  (write_numbers [(.U8, 1), (.U16, 2), (.U32, 3), (.I16, -5)] (mem_of []) 0).1

/-- The record `{xxx:{aaa:1,bbb:2}, yyy:{ccc:3,ddd:-5}}`. -/
def record_three : LuaValue :=
  .table [(.name "xxx", .table [(.name "aaa", .integer 1), (.name "bbb", .integer 2)]),
          (.name "yyy", .table [(.name "ccc", .integer 3), (.name "ddd", .integer (-5))])]

/-- The integer types `u8 u16 u32 i16 i32 i64`. -/
def integer_type (t : DataType) : Prop :=
  t = .U8 ∨ t = .U16 ∨ t = .U32 ∨ t = .I16 ∨ t = .I32 ∨ t = .I64

/-- The types that `retrieve` hands to `retrieve_struct` (the `default` case
of its `switch`): an item of custom type has the undefined type. -/
def custom_type (t : DataType) : Prop := t = .UNDEFINED_TYPE ∨ t = .MAX_TYPE

/-- The entries of a record after the values `vs` were stored under the names
of the fields `fs`, in order. -/
def set_fields : List (LuaKey × LuaValue) → FieldList → List Int → List (LuaKey × LuaValue)
  | es, f :: fs, v :: vs => set_fields (table_set es (.name f.name) (.integer v)) fs vs
  | es, _, _ => es

/-- Two integer items, `u8` and `i16`, of count 1. -/
def items_u8_i16 : List DataItem := [⟨.U8, 0, 1, ""⟩, ⟨.I16, 0, 1, ""⟩]

/-- A descriptor lexer for two strings: `"u8"` is the keyword `u8`, every
other string is a lone `:`. -/
def lexer_u8 : String → List Token := fun s => if s = "u8" then [tok_type .U8] else [tok_colon]

/-! ### Test descriptors -/

/-- The items of the descriptor `"str#3 str#32*8"`. -/
def items_str : List ReadItem :=
  [⟨.sized .STRING ⟨"#3", 3⟩, none⟩, ⟨.sized .STRING ⟨"#32", 32⟩, some ⟨"*8", 8⟩⟩]

/-- The items of the declaration `"u8:a1 one*4:a2"`. -/
def items_named : List NamedItem :=
  [⟨.keyword .U8, none, "a1"⟩, ⟨.ident "one", some ⟨"*4", 4⟩, "a2"⟩]

/-- The items of the declaration `"void#1 void#2*3"`. -/
def items_void : List VoidItem := [⟨⟨"#1", 1⟩, none⟩, ⟨⟨"#2", 2⟩, some ⟨"*3", 3⟩⟩]

/-! ### Concrete inputs of the decoder and parser theorems -/

/-- Four bytes `1 2 3 4` with the cursor at 2. -/
def src_four : Source := ⟨mem_of [1, 2, 3, 4], 4, 2⟩

/-- Three bytes `1 2 3` with the cursor at 0. -/
def src_three : Source := ⟨mem_of [1, 2, 3], 3, 0⟩

/-- The token sequence of the descriptor `"void#18446744073709551615"`. -/
def tokens_void_max : List Token := [tok_type .VOID, tok_fixed "#18446744073709551615"]

/-- The token sequence of the descriptor `"u8*0"`. -/
def tokens_u8_zero : List Token := [tok_type .U8, tok_array "*0"]

/-- The token sequence of the descriptor `"u8 u32"`. -/
def tokens_u8_u32 : List Token := [tok_type .U8, tok_type .U32]

/-- The bytes `"abcd"` with the cursor at 0. -/
def src_abcd : Source := ⟨mem_of [0x61, 0x62, 0x63, 0x64], 4, 0⟩

/-- The token is the field separator `:`, which `on_token` hands to
`push_symbol` with its character code. -/
def Token.is_colon (tok : Token) : Prop := tok.num = 58

/-- The entries of an array table after `lua_rawseti` stored the values `vs`
at the indices `i`, `i + 1`, ... -/
def set_elems : List (LuaKey × LuaValue) → Nat → List LuaValue → List (LuaKey × LuaValue)
  | es, _, [] => es
  | es, i, v :: vs => set_elems (table_set es (.idx i) v) (i + 1) vs

/-- An item that `retrieve` decodes with at most one call on the source,
without `retrieve_struct` and without a call of a Lua function: a `void`
skip, or an item of count 1 whose type is a number or string type. -/
def DataItem.single (item : DataItem) : Prop :=
  item.type = .VOID ∨ (item.count = 1 ∧ ¬ custom_type item.type ∧ item.type ≠ .FUNC)

/-- The token sequence of the descriptor `"@f*0"`. -/
def tokens_func_zero : List Token := [tok_func "@f", tok_array "*0"]

/-- The Lua globals of `TEST(CONSOLE, Struct5)`: `f2` returns 42 and `f3`
returns 37, and neither touches the world. -/
def env_f2_f3 : LuaEnv Unit :=
  ⟨fun w name =>
      if name = "f2" then some (.ok [.integer 42], w)
      else if name = "f3" then some (.ok [.integer 37], w) else none,
    fun g _ => g⟩

/-- The Lua global `function h() return read('u8') end`: the call decodes one
`u8` from the active source and returns it, or raises the error of the
failed read. -/
def env_reader : LuaEnv Unit :=
  ⟨fun w name =>
      if name = "h" then
        match w.source.read_int .U8 with
        | .ok r => some (.ok [.integer r.1], { w with source := r.2 })
        | .error e => some (.error e, w)
      else none,
    fun g _ => g⟩

/-- The invocations that decoding a function-reference item makes of the
global `name`, `n` of them one after the other from the world `w`, each of
which has to find a function and to get exactly one value back: the returned
values in call order and the world after the last call, or the error of the
first invocation that fails (the global is no function, the call raises an
error, or it returns no value or more than one) and the world it leaves. -/
def invoke_all {σ : Type} (env : LuaEnv σ) (name : String) :
    Nat → World σ → Except (Error × World σ) (List LuaValue × World σ)
  | 0, w => .ok ([], w)
  | n + 1, w =>
    match env.call w name with
    | none => .error (.brie "Function not defined", w)
    | some (.error e, w1) => .error (e, w1)
    | some (.ok results, w1) =>
      match results with
      | [v] =>
        match invoke_all env name n w1 with
        | .error x => .error x
        | .ok (vs, w2) => .ok (v :: vs, w2)
      | _ => .error (.brie "Function returned too many results", w1)

/-- Every field of every registered struct has a count of at least 1. -/
def counts_pos (d : StructDict) : Prop :=
  ∀ name fields, get_struct d name = .ok fields → ∀ f ∈ fields, 1 ≤ f.count

/-- The parser `p` started on a list that already holds the items `pre`. -/
def ReadStringParser.shift (pre : List DataItem) (p : ReadStringParser) : ReadStringParser :=
  ⟨pre ++ p.m_dataItems, p.m_current, p.m_state⟩

/-- The parser `p` started on a list that already holds the fields `pre`. -/
def FieldsParser.shift (pre : FieldList) (p : FieldsParser) : FieldsParser :=
  ⟨pre ++ p.m_fields, p.m_current, p.m_state⟩

/-! ## Theorems -/

/-! ### Fixed-width reads -/

/-- Claim C3: for each of the eight numeric types, with `w` its width, and every
source with `pos ≤ size`, `read_int` (integer types) or `read_float` (float
types) throws the insufficient-data error exactly when `size - pos < w`, and
otherwise returns with the cursor advanced by exactly `w`. -/
theorem read_fixed_width (s : Source) (T : DataType) (w : Nat)
    (hT : (T, w) ∈ [(DataType.U8, 1), (DataType.U16, 2), (DataType.U32, 4), (DataType.I16, 2),
      (DataType.I32, 4), (DataType.I64, 8), (DataType.F32, 4), (DataType.F64, 8)])
    (hpos : s.m_pos ≤ s.m_size) (hsz : s.m_size ≤ PTRDIFF_MAX) :
    ((T ≠ DataType.F32 ∧ T ≠ DataType.F64) →
      (s.read_int T = .error (.brie "Insufficent data in source") ↔ s.m_size - s.m_pos < w) ∧
      (¬ s.m_size - s.m_pos < w →
        ∃ v, s.read_int T = .ok (v, { s with m_pos := s.m_pos + w }))) ∧
    ((T = DataType.F32 ∨ T = DataType.F64) →
      (s.read_float T = .error (.brie "Insufficent data in source") ↔ s.m_size - s.m_pos < w) ∧
      (¬ s.m_size - s.m_pos < w →
        ∃ v, s.read_float T = .ok (v, { s with m_pos := s.m_pos + w }))) := by
  simp only [PTRDIFF_MAX] at hsz
  have e : ∀ k, k ≤ 8 → (s.m_pos + k) % SIZE_MOD = s.m_pos + k := fun k hk =>
    Nat.mod_eq_of_lt (by simp only [SIZE_MOD]; omega)
  simp only [List.mem_cons, Prod.mk.injEq, List.mem_singleton, List.not_mem_nil, or_false] at hT
  rcases hT with h | h | h | h | h | h | h | h <;> obtain ⟨rfl, rfl⟩ := h <;>
    refine ⟨fun hi => ?_, fun hf => ?_⟩ <;>
    first
      | (exfalso; simp at hi; done)
      | (exfalso; simp at hf; done)
      | (simp only [Source.read_int, Source.read_float, type_length]
         rw [e _ (by norm_num)]
         split_ifs with hc
         · exact ⟨⟨fun _ => by omega, fun _ => rfl⟩, fun h => absurd (by omega) h⟩
         · exact ⟨⟨fun h => by simp at h, fun h => absurd h (by omega)⟩, fun _ => ⟨_, rfl⟩⟩)

theorem load_le_eq (ptr : Nat → Byte) : ∀ (w off n : Nat), n < 256 ^ w →
    (∀ i, i < w → (ptr (off + i)).val = n / 256 ^ i % 256) → load_le ptr off w = n := by
  intro w
  induction w with
  | zero => intro off n hn _; simp at hn; simp [load_le, hn]
  | succ w ih =>
    intro off n hn hb
    have h0 := hb 0 (by omega)
    simp only [Nat.add_zero, pow_zero, Nat.div_one] at h0
    have hrec : load_le ptr (off + 1) w = n / 256 := by
      apply ih
      · rw [pow_succ] at hn
        exact Nat.div_lt_of_lt_mul (by rw [Nat.mul_comm]; exact hn)
      · intro i hi
        have := hb (i + 1) (by omega)
        rw [show off + 1 + i = off + (i + 1) by omega, this, pow_succ, Nat.mul_comm, Nat.div_div_eq_div_mul]
    simp only [load_le, hrec, h0]
    omega

theorem repr_byte_val (w : Nat) (v : Int) (i : Nat) :
    (repr_byte w v i).val = (v % 2 ^ (8 * w)).toNat / 256 ^ i % 256 := by
  simp [repr_byte, Fin.ofNat]

theorem load_repr (ptr : Nat → Byte) (off w : Nat) (v : Int)
    (hb : ∀ i, i < w → ptr (off + i) = repr_byte w v i) :
    load_le ptr off w = (v % 2 ^ (8 * w)).toNat := by
  apply load_le_eq
  · have h256 : (256 : Nat) ^ w = 2 ^ (8 * w) := by rw [pow_mul]; norm_num
    rw [h256]
    have hp : (0 : Int) < 2 ^ (8 * w) := by positivity
    have h1 := Int.emod_lt_of_pos v hp
    have h2 := Int.emod_nonneg v (ne_of_gt hp)
    zify
    rw [Int.toNat_of_nonneg h2]
    exact_mod_cast h1
  · intro i hi
    rw [hb i hi, repr_byte_val]

theorem read_int_encoded (s : Source) (T : DataType) (v : Int) (hr : in_range T v)
    (hfit : s.m_pos + int_width T ≤ s.m_size) (hsz : s.m_size ≤ PTRDIFF_MAX)
    (hb : ∀ i, i < int_width T → s.m_ptr (s.m_pos + i) = repr_byte (int_width T) v i) :
    s.read_int T = .ok (v, { s with m_pos := s.m_pos + int_width T }) := by
  simp only [PTRDIFF_MAX] at hsz
  have e : ∀ k, k ≤ 8 → (s.m_pos + k) % SIZE_MOD = s.m_pos + k := fun k hk =>
    Nat.mod_eq_of_lt (by simp only [SIZE_MOD]; omega)
  have hl := load_repr s.m_ptr s.m_pos (int_width T) v hb
  cases T <;> simp only [in_range] at hr <;>
    simp only [int_width] at hfit hl ⊢ <;>
    simp only [Source.read_int, type_length] <;>
    rw [e _ (by norm_num), if_neg (by omega), hl] <;>
    norm_num [to_signed] <;>
    omega

theorem write_numbers_frame : ∀ (items : List (DataType × Int)) (ptr : Nat → Byte) (p a : Nat),
    a < p → (write_numbers items ptr p).1 a = ptr a := by
  intro items
  induction items with
  | nil => intro ptr p a _; rfl
  | cons it rest ih =>
    intro ptr p a ha
    obtain ⟨T, v⟩ := it
    simp only [write_numbers, add_number]
    rw [ih _ _ a (by omega)]
    simp only [memcpy_num]
    rw [if_neg (by omega)]

theorem write_numbers_encoded : ∀ (items : List (DataType × Int)) (ptr : Nat → Byte) (p : Nat),
    encoded_at (write_numbers items ptr p).1 p items := by
  intro items
  induction items with
  | nil => intro ptr p; trivial
  | cons it rest ih =>
    intro ptr p
    obtain ⟨T, v⟩ := it
    simp only [encoded_at, write_numbers, add_number]
    refine ⟨fun i hi => ?_, ih _ _⟩
    by_cases hw : int_width T = 0
    · omega
    · rw [write_numbers_frame _ _ _ _ (by omega)]
      simp only [memcpy_num]
      rw [if_pos (by omega), Nat.add_sub_cancel_left]

theorem read_ints_encoded : ∀ (items : List (DataType × Int)) (s : Source),
    (∀ it ∈ items, in_range it.1 it.2) → s.m_pos + total_width items ≤ s.m_size →
    s.m_size ≤ PTRDIFF_MAX → encoded_at s.m_ptr s.m_pos items →
    read_ints s (items.map Prod.fst) =
      .ok (items.map Prod.snd, { s with m_pos := s.m_pos + total_width items }) := by
  intro items
  induction items with
  | nil => intro s _ _ _ _; rfl
  | cons it rest ih =>
    intro s hr hfit hsz henc
    obtain ⟨T, v⟩ := it
    simp only [total_width] at hfit
    simp only [encoded_at] at henc
    have h1 := read_int_encoded s T v (hr (T, v) (List.mem_cons_self _ _)) (by omega) hsz henc.1
    have h2 := ih { s with m_pos := s.m_pos + int_width T }
      (fun it hit => hr it (List.mem_cons_of_mem _ hit)) (by simpa [Nat.add_assoc] using hfit) hsz henc.2
    simp only [List.map_cons, read_ints, h1, h2, total_width, Nat.add_assoc]

/-! ### Null-terminated narrow strings -/

theorem str_scan_term_found (ptr : Nat → Byte) (size : Nat) : ∀ (fuel pos len k : Nat),
    pos ≤ k → k < size → k - pos < fuel → (∀ j, pos ≤ j → j < k → ptr j ≠ 0) → ptr k = 0 →
    str_scan_term ptr size fuel pos len = len + (k - pos) := by
  intro fuel
  induction fuel with
  | zero => intro pos len k _ _ hf; omega
  | succ fuel ih =>
    intro pos len k hpk hks hf hne hk
    simp only [str_scan_term]
    rw [if_pos (by omega)]
    by_cases hp : ptr pos = 0
    · have : pos = k := by
        by_contra hc
        exact hne pos (le_refl _) (by omega) hp
      subst this
      simp [hp]
    · have hlt : pos < k := by
        rcases Nat.lt_or_ge pos k with h | h
        · exact h
        · have : pos = k := by omega
          subst this
          exact absurd hk hp
      rw [if_neg hp, ih (pos + 1) (len + 1) k (by omega) hks (by omega)
        (fun j hj hjk => hne j (by omega) hjk) hk]
      omega

theorem str_scan_term_none (ptr : Nat → Byte) (size : Nat) : ∀ (fuel pos len : Nat),
    pos ≤ size → size - pos ≤ fuel → (∀ j, pos ≤ j → j < size → ptr j ≠ 0) →
    str_scan_term ptr size fuel pos len = len + (size - pos) := by
  intro fuel
  induction fuel with
  | zero =>
    intro pos len hp hf _
    simp only [str_scan_term]
    omega
  | succ fuel ih =>
    intro pos len hp hf hne
    simp only [str_scan_term]
    by_cases hlt : pos < size
    · rw [if_pos hlt, if_neg (hne pos (le_refl _) hlt),
        ih (pos + 1) (len + 1) (by omega) (by omega) (fun j hj hjs => hne j (by omega) hjs)]
      omega
    · rw [if_neg hlt]
      omega

theorem read_str_term_found (s : Source) (k : Nat) (hsz : s.m_size ≤ PTRDIFF_MAX)
    (hpk : s.m_pos ≤ k) (hks : k < s.m_size) (hk : s.m_ptr k = 0)
    (hfirst : ∀ j, s.m_pos ≤ j → j < k → s.m_ptr j ≠ 0) :
    s.read_str 0 = .ok (bytes_at s.m_ptr s.m_pos (k - s.m_pos), { s with m_pos := k + 1 }) := by
  simp only [PTRDIFF_MAX] at hsz
  have hscan := str_scan_term_found s.m_ptr s.m_size (s.m_size - s.m_pos) s.m_pos 0 k hpk hks
    (by omega) hfirst hk
  simp only [Nat.zero_add] at hscan
  simp only [Source.read_str, if_true, hscan, string_ctor, STRING_MAX, decide_True]
  have e1 : (s.m_pos + (k - s.m_pos)) % SIZE_MOD = k := by
    rw [Nat.mod_eq_of_lt (by simp only [SIZE_MOD]; omega)]; omega
  have e2 : (k + 1) % SIZE_MOD = k + 1 := Nat.mod_eq_of_lt (by simp only [SIZE_MOD]; omega)
  rw [e1, if_neg (by omega), if_neg (by omega)]
  simp [e2]

theorem read_str_term_none (s : Source) (hsz : s.m_size ≤ PTRDIFF_MAX)
    (hpos : s.m_pos ≤ s.m_size) (hnone : ∀ j, s.m_pos ≤ j → j < s.m_size → s.m_ptr j ≠ 0) :
    s.read_str 0 = .error (.brie "No available data: string is too long") := by
  simp only [PTRDIFF_MAX] at hsz
  have hscan := str_scan_term_none s.m_ptr s.m_size (s.m_size - s.m_pos) s.m_pos 0 hpos
    (le_refl _) hnone
  simp only [Nat.zero_add] at hscan
  simp only [Source.read_str, if_true, hscan]
  have e1 : (s.m_pos + (s.m_size - s.m_pos)) % SIZE_MOD = s.m_size := by
    rw [Nat.mod_eq_of_lt (by simp only [SIZE_MOD]; omega)]; omega
  rw [e1, if_pos (le_refl _)]

/-- Claim C5: For a source with `pos ≤ size`, `read_str(0)` returns a result exactly
when a zero byte lies at an offset in `[pos, size)`; with `k` the offset of the
first one, the result is the bytes at `[pos, k)` and the cursor is `k + 1`. -/
theorem read_str_null_terminated (s : Source) (hpos : s.m_pos ≤ s.m_size)
    (hsz : s.m_size ≤ PTRDIFF_MAX) :
    ((∃ r, s.read_str 0 = .ok r) ↔ ∃ k, s.m_pos ≤ k ∧ k < s.m_size ∧ s.m_ptr k = 0) ∧
    (∀ k, s.m_pos ≤ k → k < s.m_size → s.m_ptr k = 0 →
      (∀ j, s.m_pos ≤ j → j < k → s.m_ptr j ≠ 0) →
      s.read_str 0 =
        .ok (bytes_at s.m_ptr s.m_pos (k - s.m_pos), { s with m_pos := k + 1 })) := by
  refine ⟨⟨fun hr => ?_, fun hex => ?_⟩, fun k hpk hks hk hfirst =>
    read_str_term_found s k hsz hpk hks hk hfirst⟩
  · by_contra hno
    have hnone : ∀ j, s.m_pos ≤ j → j < s.m_size → s.m_ptr j ≠ 0 :=
      fun j hj hjs h0 => hno ⟨j, hj, hjs, h0⟩
    obtain ⟨r, hr⟩ := hr
    rw [read_str_term_none s hsz hpos hnone] at hr
    cases hr
  · classical
    have hex2 : ∃ k, s.m_pos ≤ k ∧ k < s.m_size ∧ s.m_ptr k = 0 := hex
    obtain ⟨hpk, hks, hk⟩ := Nat.find_spec hex2
    refine ⟨_, read_str_term_found s (Nat.find hex2) hsz hpk hks hk (fun j hj hjk h0 => ?_)⟩
    exact Nat.find_min hex2 hjk ⟨hj, by omega, h0⟩

/-! ### Null-terminated wide strings -/

theorem wstr_scan_term_found (ptr : Nat → Byte) (size : Nat) (hsize : size < SIZE_MOD) :
    ∀ (m fuel i len : Nat), i + 2 * m + 1 < size → 2 * m < fuel →
    (∀ j, j < m → ¬ (ptr (i + 2 * j) = 0 ∧ ptr (i + 2 * j + 1) = 0)) →
    ptr (i + 2 * m) = 0 → ptr (i + 2 * m + 1) = 0 →
    wstr_scan_term ptr size fuel i len = .ok (len + 2 * m) := by
  simp only [SIZE_MOD] at hsize
  intro m
  induction m with
  | zero =>
    intro fuel i len hin hf _ h0 h1
    obtain ⟨fuel, rfl⟩ : ∃ f, fuel = f + 1 := ⟨fuel - 1, by omega⟩
    simp only [Nat.mul_zero, Nat.add_zero] at h0 h1 hin ⊢
    simp only [wstr_scan_term, SIZE_MOD]
    rw [if_pos (by omega), if_pos h0, if_neg (by omega), if_pos h1]
  | succ m ih =>
    intro fuel i len hin hf hne h0 h1
    obtain ⟨fuel, rfl⟩ : ∃ f, fuel = f + 1 := ⟨fuel - 1, by omega⟩
    have hrec := ih fuel (i + 2) (len + 2) (by omega) (by omega)
      (fun j hj => by
        have := hne (j + 1) (by omega)
        rwa [show i + 2 * (j + 1) = i + 2 + 2 * j by omega] at this)
      (by rwa [show i + 2 * (m + 1) = i + 2 + 2 * m by omega] at h0)
      (by rwa [show i + 2 * (m + 1) = i + 2 + 2 * m by omega] at h1)
    have hu := hne 0 (by omega)
    simp only [Nat.mul_zero, Nat.add_zero] at hu
    simp only [wstr_scan_term, SIZE_MOD]
    rw [if_pos (by omega)]
    by_cases hz : ptr i = 0
    · rw [if_pos hz, if_neg (by omega), if_neg (fun h => hu ⟨hz, h⟩), hrec]
      congr 1; omega
    · rw [if_neg hz, hrec]
      congr 1; omega

/-- Claim C8: When the byte at the cursor is no byte-order mark and a double-zero
unit lies inside the source at an even byte offset `k` from the cursor,
`read_wstr(0)` returns the `k` bytes before the first such unit and leaves
the cursor at `pos + k + 2`. -/
theorem read_wstr_null_terminated (s : Source) (k : Nat) (hsz : s.m_size ≤ PTRDIFF_MAX)
    (hbom : s.m_ptr s.m_pos ≠ 255 ∧ s.m_ptr s.m_pos ≠ 254)
    (heven : k % 2 = 0) (hin : s.m_pos + k + 1 < s.m_size)
    (h0 : s.m_ptr (s.m_pos + k) = 0) (h1 : s.m_ptr (s.m_pos + k + 1) = 0)
    (hfirst : ∀ j, j < k → j % 2 = 0 →
      ¬ (s.m_ptr (s.m_pos + j) = 0 ∧ s.m_ptr (s.m_pos + j + 1) = 0)) :
    s.read_wstr 0 = .ok (bytes_at s.m_ptr s.m_pos k, { s with m_pos := s.m_pos + k + 2 }) := by
  simp only [PTRDIFF_MAX] at hsz
  obtain ⟨m, rfl⟩ : ∃ m, k = 2 * m := ⟨k / 2, by omega⟩
  have hpre : bom_len s = 0 := by
    simp only [bom_len]
    rw [if_neg (by rintro (h | h); exact hbom.1 h; exact hbom.2 h)]
  have hscan := wstr_scan_term_found s.m_ptr s.m_size (by simp only [SIZE_MOD]; omega) m
    (s.m_size - s.m_pos) s.m_pos 0 hin (by omega)
    (fun j hj => hfirst (2 * j) (by omega) (by omega)) h0 h1
  simp only [Nat.zero_add] at hscan
  have e0 : s.m_pos % SIZE_MOD = s.m_pos := Nat.mod_eq_of_lt (by simp only [SIZE_MOD]; omega)
  have e1 : (s.m_pos + 2 * m) % SIZE_MOD = s.m_pos + 2 * m :=
    Nat.mod_eq_of_lt (by simp only [SIZE_MOD]; omega)
  have e2 : (2 * m + SIZE_MOD) % SIZE_MOD = 2 * m := by
    simp only [SIZE_MOD]; omega
  have e3 : (2 * m) % SIZE_MOD = 2 * m := Nat.mod_eq_of_lt (by simp only [SIZE_MOD]; omega)
  have e4 : (s.m_pos + 2 * m + 2) % SIZE_MOD = s.m_pos + 2 * m + 2 :=
    Nat.mod_eq_of_lt (by simp only [SIZE_MOD]; omega)
  simp only [Source.read_wstr, hpre, Nat.zero_mul, Nat.zero_mod, Nat.add_zero, if_true, e0, hscan,
    Nat.sub_zero, e1, e2, e3, e4, string_ctor, STRING_MAX, ne_eq, not_true_eq_false, if_false]
  rw [if_neg (by omega), if_neg (by omega)]

/-! ### Struct registry -/

theorem dict_find_filter (name m : String) (hm : name ≠ m) : ∀ d : StructDict,
    dict_find (d.filter (fun e => decide (e.1 ≠ name))) m = dict_find d m := by
  intro d
  induction d with
  | nil => rfl
  | cons e rest ih =>
    obtain ⟨k, v⟩ := e
    by_cases hk : k = name
    · subst hk
      simp only [List.filter, ne_eq, not_true_eq_false, decide_False, dict_find, if_neg hm]
      exact ih
    · simp only [List.filter, ne_eq, hk, not_false_eq_true, decide_True, dict_find]
      rw [ih]

theorem dict_find_set (d : StructDict) (name m : String) (sp : FieldList) :
    dict_find (dict_set d name sp) m = if name = m then some sp else dict_find d m := by
  simp only [dict_set, dict_find]
  by_cases h : name = m
  · simp [h]
  · simp only [h, if_false]
    exact dict_find_filter name m h d

theorem check_in_width_ok (d : StructDict) (name : String) : ∀ fl : FieldList,
    check_in_width d name fl = .ok () →
    ∀ f ∈ fl, f.type ≠ DataType.FUNC → f.typeName ≠ "" →
      f.typeName ≠ name ∧ (dict_find d f.typeName).isSome := by
  intro fl
  induction fl with
  | nil => intro _ f hf; cases hf
  | cons g rest ih =>
    intro h f hf hty hnm
    simp only [check_in_width] at h
    split_ifs at h with h1 h2
    · rcases List.mem_cons.mp hf with rfl | hf
      · rcases h1 with h1 | h1
        · exact absurd h1 hnm
        · exact absurd h1 hty
      · exact ih h f hf hty hnm
    · cases hg : dict_find d g.typeName with
      | none => rw [hg] at h; cases h
      | some sub =>
        rw [hg] at h
        rcases List.mem_cons.mp hf with rfl | hf
        · exact ⟨h2, by simp [hg]⟩
        · exact ih h f hf hty hnm

theorem check_in_depth_ok (d : StructDict) (name : String) : ∀ (fuel : Nat) (fl : FieldList),
    check_in_depth d name fuel fl = some (.ok ()) →
    ∀ f ∈ fl, f.type ≠ DataType.FUNC → f.typeName ≠ "" →
      f.typeName ≠ name ∧ ∃ sub fuel1, dict_find d f.typeName = some sub ∧
        check_in_depth d name fuel1 sub = some (.ok ()) := by
  intro fuel
  induction fuel with
  | zero => intro fl h; simp [check_in_depth] at h
  | succ fuel ih =>
    intro fl h f hf hty hnm
    cases fl with
    | nil => cases hf
    | cons g rest =>
      simp only [check_in_depth] at h
      split_ifs at h with h1 h2
      · rcases List.mem_cons.mp hf with rfl | hf
        · rcases h1 with h1 | h1
          · exact absurd h1 hnm
          · exact absurd h1 hty
        · exact ih rest h f hf hty hnm
      · simp at h
      · cases hg : dict_find d g.typeName with
        | none => rw [hg] at h; simp at h
        | some sub =>
          rw [hg] at h
          simp only at h
          cases hsub : check_in_depth d name fuel sub with
          | none => rw [hsub] at h; simp at h
          | some r =>
            cases r with
            | error e => rw [hsub] at h; simp at h
            | ok u =>
              rw [hsub] at h
              simp only at h
              rcases List.mem_cons.mp hf with rfl | hf
              · exact ⟨fun hc => h2 hc.symm, sub, fuel, hg, hsub⟩
              · exact ih rest h f hf hty hnm

theorem depth_ok_unreachable (d : StructDict) (name : String) (t x : String)
    (hreach : Relation.ReflTransGen (embeds d) t x) :
    ∀ (fuel : Nat) (fl : FieldList), check_in_depth d name fuel fl = some (.ok ()) →
      (∃ f ∈ fl, f.type ≠ DataType.FUNC ∧ f.typeName ≠ "" ∧ f.typeName = t) → x ≠ name := by
  induction hreach using Relation.ReflTransGen.head_induction_on with
  | refl =>
    intro fuel fl hok hex
    obtain ⟨f, hf, hty, hnm, rfl⟩ := hex
    exact (check_in_depth_ok d name fuel fl hok f hf hty hnm).1
  | head hstep _ ih =>
    intro fuel fl hok hex
    obtain ⟨f, hf, hty, hnm, rfl⟩ := hex
    obtain ⟨_, sub, fuel1, hsub, hok1⟩ := check_in_depth_ok d name fuel fl hok f hf hty hnm
    obtain ⟨fl2, hfl2, g, hg, hgty, hgnm, hgeq⟩ := hstep
    rw [hsub] at hfl2
    cases hfl2
    exact ih fuel1 sub hok1 ⟨g, hg, hgty, hgnm, hgeq⟩

theorem embeds_set (d : StructDict) (name : String) (sp : FieldList) (a b : String)
    (h : embeds (dict_set d name sp) a b) :
    (a = name ∧ ∃ f ∈ sp, f.type ≠ DataType.FUNC ∧ f.typeName ≠ "" ∧ f.typeName = b) ∨
      (a ≠ name ∧ embeds d a b) := by
  obtain ⟨fl, hfl, hex⟩ := h
  rw [dict_find_set] at hfl
  by_cases ha : name = a
  · rw [if_pos ha] at hfl
    cases hfl
    exact Or.inl ⟨ha.symm, hex⟩
  · rw [if_neg ha] at hfl
    exact Or.inr ⟨fun hc => ha hc.symm, fl, hfl, hex⟩

theorem reach_name_set (d : StructDict) (name : String) (sp : FieldList) (x : String)
    (h : Relation.ReflTransGen (embeds (dict_set d name sp)) x name) :
    Relation.ReflTransGen (embeds d) x name := by
  induction h using Relation.ReflTransGen.head_induction_on with
  | refl => exact Relation.ReflTransGen.refl
  | head hstep _ ih =>
    rcases embeds_set d name sp _ _ hstep with ⟨rfl, _⟩ | ⟨_, he⟩
    · exact Relation.ReflTransGen.refl
    · exact Relation.ReflTransGen.head he ih

theorem path_set (d : StructDict) (name : String) (sp : FieldList) (a b : String)
    (h : Relation.TransGen (embeds (dict_set d name sp)) a b) :
    Relation.TransGen (embeds d) a b ∨
      (Relation.ReflTransGen (embeds (dict_set d name sp)) a name ∧
        ∃ f ∈ sp, f.type ≠ DataType.FUNC ∧ f.typeName ≠ "" ∧
          Relation.ReflTransGen (embeds d) f.typeName b) := by
  induction h with
  | single hstep =>
    rcases embeds_set d name sp _ _ hstep with ⟨rfl, f, hf, hty, hnm, rfl⟩ | ⟨_, he⟩
    · exact Or.inr ⟨Relation.ReflTransGen.refl, f, hf, hty, hnm, Relation.ReflTransGen.refl⟩
    · exact Or.inl (Relation.TransGen.single he)
  | tail hpath hstep ih =>
    rcases embeds_set d name sp _ _ hstep with ⟨rfl, f, hf, hty, hnm, rfl⟩ | ⟨_, he⟩
    · exact Or.inr ⟨hpath.to_reflTransGen, f, hf, hty, hnm, Relation.ReflTransGen.refl⟩
    · rcases ih with ih | ⟨hn, f, hf, hty, hnm, hr⟩
      · exact Or.inl (Relation.TransGen.tail ih he)
      · exact Or.inr ⟨hn, f, hf, hty, hnm, Relation.ReflTransGen.tail hr he⟩

theorem add_struct_keeps (d d1 : StructDict) (fuel : Nat) (name : String) (sp : FieldList)
    (hadd : add_struct d fuel name sp = some (.ok d1))
    (hc : registry_closed d) (ha : registry_acyclic d) :
    registry_closed d1 ∧ registry_acyclic d1 := by
  simp only [add_struct] at hadd
  cases hw : check_in_width d name sp with
  | error e => rw [hw] at hadd; simp at hadd
  | ok u =>
    rw [hw] at hadd
    simp only at hadd
    cases hd : check_in_depth d name fuel sp with
    | none => rw [hd] at hadd; simp at hadd
    | some r =>
      cases r with
      | error e => rw [hd] at hadd; simp at hadd
      | ok u2 =>
        rw [hd] at hadd
        simp only [Option.some.injEq, Except.ok.injEq] at hadd
        subst hadd
        refine ⟨?_, ?_⟩
        · intro n fl hfl f hf hty hnm
          rw [dict_find_set] at hfl ⊢
          by_cases hn : name = f.typeName
          · simp [hn]
          · rw [if_neg hn]
            by_cases hnn : name = n
            · rw [if_pos hnn] at hfl
              cases hfl
              exact (check_in_width_ok d name sp hw f hf hty hnm).2
            · rw [if_neg hnn] at hfl
              exact hc n fl hfl f hf hty hnm
        · intro n hcyc
          rcases path_set d name sp n n hcyc with h | ⟨hn, f, hf, hty, hnm, hr⟩
          · exact ha n h
          · have hreach := hr.trans (reach_name_set d name sp n hn)
            exact depth_ok_unreachable d name f.typeName name hreach fuel sp hd
              ⟨f, hf, hty, hnm, rfl⟩ rfl

theorem registry_empty_ok : registry_closed [] ∧ registry_acyclic [] := by
  refine ⟨fun n fl h => by simp [dict_find] at h, fun n h => ?_⟩
  have : ∀ a b, Relation.TransGen (embeds []) a b → False := by
    intro a b hab
    induction hab with
    | single hs => obtain ⟨fl, hfl, _⟩ := hs; simp [dict_find] at hfl
    | tail _ hs _ => obtain ⟨fl, hfl, _⟩ := hs; simp [dict_find] at hfl
  exact this n n h

theorem run_calls_keeps (fuel : Nat) : ∀ (calls : List RegCall) (d0 d : StructDict),
    registry_closed d0 → registry_acyclic d0 → run_calls fuel d0 calls = some d →
    registry_closed d ∧ registry_acyclic d := by
  intro calls
  induction calls with
  | nil =>
    intro d0 d hc ha h
    simp only [run_calls, Option.some.injEq] at h
    subst h
    exact ⟨hc, ha⟩
  | cons c cs ih =>
    intro d0 d hc ha h
    cases c with
    | init_structs =>
      simp only [run_calls] at h
      exact ih [] d registry_empty_ok.1 registry_empty_ok.2 h
    | add_struct name sp =>
      simp only [run_calls] at h
      cases hadd : add_struct d0 fuel name sp with
      | none => rw [hadd] at h; simp at h
      | some r =>
        cases r with
        | error e =>
          rw [hadd] at h
          exact ih d0 d hc ha h
        | ok d1 =>
          rw [hadd] at h
          obtain ⟨hc1, ha1⟩ := add_struct_keeps d0 d1 fuel name sp hadd hc ha
          exact ih d1 d hc1 ha1 h

/-- Claim C2: the registry reached from the empty dictionary of `init_structs`
by any sequence of `init_structs` and `add_struct` calls (failed calls and
re-declarations included) is closed and acyclic: every non-function field with
a non-empty `typeName` of a registered struct names a registered struct, and no
registered struct reaches its own name through such fields. -/
theorem registry_closed_acyclic (fuel : Nat) (calls : List RegCall) (d : StructDict)
    (hrun : run_calls fuel [] calls = some d) :
    registry_closed d ∧ registry_acyclic d :=
  run_calls_keeps fuel calls [] d registry_empty_ok.1 registry_empty_ok.2 hrun

/-- Witness of C2: the run of `test_calls`, with a rejected cyclic
re-declaration and an accepted re-declaration, ends in `test_dict`. -/
theorem registry_closed_acyclic_witness :
    run_calls 10 [] test_calls = some test_dict ∧
      registry_closed test_dict ∧ registry_acyclic test_dict :=
  ⟨rfl, registry_closed_acyclic 10 test_calls test_dict rfl⟩

/-! ### Claims on concrete inputs -/

/-- Witness of C3: a `u32` read with two bytes left fails. -/
theorem read_fixed_width_witness :
    (DataType.U32, 4) ∈ [(DataType.U8, 1), (DataType.U16, 2), (DataType.U32, 4),
      (DataType.I16, 2), (DataType.I32, 4), (DataType.I64, 8), (DataType.F32, 4),
      (DataType.F64, 8)] ∧
    src_short.m_pos ≤ src_short.m_size ∧ src_short.m_size ≤ PTRDIFF_MAX ∧
    (src_short.read_int DataType.U32 = .error (.brie "Insufficent data in source") ↔
      src_short.m_size - src_short.m_pos < 4) :=
  ⟨by decide, by decide, by decide,
    ((read_fixed_width src_short DataType.U32 4 (by decide) (by decide) (by decide)).1
      ⟨by decide, by decide⟩).1⟩

/-- Claim C4: when the bytes at the cursor are the little-endian two's-complement
encodings of in-range values of integer types (which is what consecutive
`add_number` calls write), `read_int` returns exactly the value written, and
consecutive reads return the consecutive values and leave the cursor at the
start plus the sum of the widths. -/
theorem read_int_returns_written (items : List (DataType × Int)) (ptr : Nat → Byte)
    (size p : Nat) (hr : ∀ it ∈ items, in_range it.1 it.2)
    (hfit : p + total_width items ≤ size) (hsz : size ≤ PTRDIFF_MAX) :
    encoded_at (write_numbers items ptr p).1 p items ∧
    (∀ s : Source, s.m_size = size → s.m_pos = p → encoded_at s.m_ptr p items →
      (∀ T v rest, items = (T, v) :: rest →
        s.read_int T = .ok (v, { s with m_pos := p + int_width T })) ∧
      read_ints s (items.map Prod.fst) =
        .ok (items.map Prod.snd, { s with m_pos := p + total_width items })) := by
  refine ⟨write_numbers_encoded items ptr p, fun s hs hp henc => ⟨?_, ?_⟩⟩
  · intro T v rest hitems
    subst hitems
    subst hp
    subst hs
    simp only [total_width] at hfit
    exact read_int_encoded s T v (hr (T, v) (List.mem_cons_self _ _)) (by omega) hsz henc.1
  · subst hp
    subst hs
    exact read_ints_encoded items s hr hfit hsz henc

/-- Witness of C4: the six integers of `TEST(DATA, RetrieveNumbers)`, written at
offset 0 of a 1204-byte buffer, are read back and the cursor ends at 21. -/
theorem read_int_returns_written_witness :
    (∀ it ∈ test_numbers, in_range it.1 it.2) ∧ 0 + total_width test_numbers ≤ 1204 ∧
    1204 ≤ PTRDIFF_MAX ∧
    read_ints ⟨(write_numbers test_numbers (mem_of []) 0).1, 1204, 0⟩
        [DataType.U8, DataType.U16, DataType.U32, DataType.I16, DataType.I32, DataType.I64] =
      .ok ([1, 2, 3, -5, -6, -7], ⟨(write_numbers test_numbers (mem_of []) 0).1, 1204, 21⟩) := by
  have hr : ∀ it ∈ test_numbers, in_range it.1 it.2 := by
    intro it hit
    simp only [test_numbers, List.mem_cons, List.mem_singleton, List.not_mem_nil, or_false] at hit
    rcases hit with rfl | rfl | rfl | rfl | rfl | rfl <;> simp [in_range]
  have h := read_int_returns_written test_numbers (mem_of []) 1204 0 hr (by decide) (by decide)
  exact ⟨hr, by decide, by decide,
    (h.2 ⟨(write_numbers test_numbers (mem_of []) 0).1, 1204, 0⟩ rfl rfl h.1).2⟩

/-- Witness of C5: `"two\0"` read in null-terminated mode. -/
theorem read_str_null_terminated_witness :
    src_two.m_pos ≤ src_two.m_size ∧ src_two.m_size ≤ PTRDIFF_MAX ∧
    src_two.read_str 0 = .ok ([0x74, 0x77, 0x6f], { src_two with m_pos := 4 }) :=
  ⟨by decide, by decide,
    (read_str_null_terminated src_two (by decide) (by decide)).2 3 (by decide) (by decide)
      (by decide) (by decide)⟩

/-- Witness of C8: one wide character followed by its terminator. -/
theorem read_wstr_null_terminated_witness :
    src_wide.m_size ≤ PTRDIFF_MAX ∧
    (src_wide.m_ptr src_wide.m_pos ≠ 255 ∧ src_wide.m_ptr src_wide.m_pos ≠ 254) ∧
    src_wide.m_pos + 2 + 1 < src_wide.m_size ∧
    src_wide.read_wstr 0 = .ok ([0xD0, 0x94], { src_wide with m_pos := 4 }) :=
  ⟨by decide, by decide, by decide,
    read_wstr_null_terminated src_wide 2 (by decide) (by decide) (by decide) (by decide)
      (by decide) (by decide) (by decide)⟩

/-- Claim C1 at a failing input: on a 2-byte source holding one wide character and
no terminator, the single call `read_wstr(0)` returns and leaves the cursor at
4, beyond the size 2. -/
theorem read_wstr_cursor_past_size :
    (src_wide_one.after_all [Call.read_wstr 0]).m_pos = 4 ∧
      (src_wide_one.after_all [Call.read_wstr 0]).m_size = 2 ∧
      ¬ (src_wide_one.after_all [Call.read_wstr 0]).m_pos ≤
        (src_wide_one.after_all [Call.read_wstr 0]).m_size := by
  decide

/-- Claim C6 at a failing input: the two bytes at the cursor are `0x00 0x41`, inside
a 3-byte source; `read_str(2)` returns both bytes, not the empty string. -/
theorem read_str_fixed_leading_zero :
    src_pad.read_str 2 = .ok ([0, 0x41], { src_pad with m_pos := 2 }) :=
  rfl

/-- Claim C7 at a failing input: a 3-byte string that ends exactly at the end of a
3-byte source; `read_str(3)` throws. -/
theorem read_str_fixed_at_end :
    src_abc.read_str 3 = .error (.brie "No available data: string is too long") :=
  rfl

/-- Claim C9 at a failing input: a 4-byte source with two wide characters and no
double-zero unit; `read_wstr(0)` returns the four bytes and moves the cursor
to 6. -/
theorem read_wstr_without_terminator :
    src_wide_open.read_wstr 0 =
      .ok ([0x41, 0, 0x42, 0], { src_wide_open with m_pos := 6 }) :=
  rfl

/-- Claim C10 at a failing input: a byte-order mark, the unit `0x41 0x00` and the
terminator; `read_wstr(0)` returns the empty string and leaves the cursor at
4, on the terminator. -/
theorem read_wstr_bom_drops_unit :
    src_bom.read_wstr 0 = .ok ([], { src_bom with m_pos := 4 }) :=
  rfl

/-! ### Source: failed calls, cursor control, search -/

theorem read_int_state_agrees (s : Source) (T : DataType) :
    s.read_int_state T =
      match s.read_int T with
      | .ok r => (.ok r.1, r.2)
      | .error e => (.error e, s) := by
  cases T <;> simp only [Source.read_int_state, Source.read_int, type_length] <;>
    split_ifs <;> simp only []

theorem read_float_state_agrees (s : Source) (T : DataType) :
    s.read_float_state T =
      match s.read_float T with
      | .ok r => (.ok r.1, r.2)
      | .error e => (.error e, s) := by
  cases T <;> simp only [Source.read_float_state, Source.read_float, type_length] <;>
    split_ifs <;> simp only []

theorem read_str_state_agrees (s : Source) (len : Nat) :
    s.read_str_state len =
      match s.read_str len with
      | .ok r => (.ok r.1, r.2)
      | .error e => (.error e, s) := by
  simp only [Source.read_str_state, Source.read_str]
  split_ifs <;> first | rfl | (split <;> simp_all)

theorem read_wstr_state_agrees (s : Source) (units : Nat) :
    s.read_wstr_state units =
      match s.read_wstr units with
      | .ok r => (.ok r.1, r.2)
      | .error e => (.error e, s) := by
  simp only [Source.read_wstr_state, Source.read_wstr]
  split <;> first | rfl | (split_ifs <;> first | rfl | (split <;> simp_all))

/-- Claim C12: when `read_int`, `read_float`, `read_str`, `read_wstr` or `set_pos`
throws, the cursor and the size of the source are the ones before the call. -/
theorem failed_call_keeps_state (s : Source) :
    (∀ T e, (s.read_int_state T).1 = .error e →
      (s.read_int_state T).2.m_pos = s.m_pos ∧ (s.read_int_state T).2.m_size = s.m_size) ∧
    (∀ T e, (s.read_float_state T).1 = .error e →
      (s.read_float_state T).2.m_pos = s.m_pos ∧ (s.read_float_state T).2.m_size = s.m_size) ∧
    (∀ n e, (s.read_str_state n).1 = .error e →
      (s.read_str_state n).2.m_pos = s.m_pos ∧ (s.read_str_state n).2.m_size = s.m_size) ∧
    (∀ n e, (s.read_wstr_state n).1 = .error e →
      (s.read_wstr_state n).2.m_pos = s.m_pos ∧ (s.read_wstr_state n).2.m_size = s.m_size) ∧
    (∀ p e, (s.set_pos_state p).1 = .error e →
      (s.set_pos_state p).2.m_pos = s.m_pos ∧ (s.set_pos_state p).2.m_size = s.m_size) := by
  refine ⟨fun T e h => ?_, fun T e h => ?_, fun n e h => ?_, fun n e h => ?_, fun p e h => ?_⟩
  · rw [read_int_state_agrees] at h ⊢
    cases hr : s.read_int T with
    | error e1 => exact ⟨rfl, rfl⟩
    | ok r => rw [hr] at h; cases h
  · rw [read_float_state_agrees] at h ⊢
    cases hr : s.read_float T with
    | error e1 => exact ⟨rfl, rfl⟩
    | ok r => rw [hr] at h; cases h
  · rw [read_str_state_agrees] at h ⊢
    cases hr : s.read_str n with
    | error e1 => exact ⟨rfl, rfl⟩
    | ok r => rw [hr] at h; cases h
  · rw [read_wstr_state_agrees] at h ⊢
    cases hr : s.read_wstr n with
    | error e1 => exact ⟨rfl, rfl⟩
    | ok r => rw [hr] at h; cases h
  · simp only [Source.set_pos_state] at h ⊢
    split_ifs at h ⊢ with hc
    exact ⟨rfl, rfl⟩

/-- Witness of C12: a `u32` read with two bytes left throws and the cursor stays
at 1, the size at 3. -/
theorem failed_call_keeps_state_witness :
    (src_short.read_int_state DataType.U32).1 = .error (.brie "Insufficent data in source") ∧
      (src_short.read_int_state DataType.U32).2.m_pos = 1 ∧
      (src_short.read_int_state DataType.U32).2.m_size = 3 :=
  ⟨rfl, (failed_call_keeps_state src_short).1 DataType.U32 _ rfl⟩

/-- Claim C13: `set_pos(p)` throws exactly when `p > size`; otherwise (also for
`p = size`) it returns, the cursor is `p` and the size is unchanged. -/
theorem set_pos_iff (s : Source) (p : Nat) :
    ((∃ e, (s.set_pos_state p).1 = .error e) ↔ p > s.m_size) ∧
    (p ≤ s.m_size → (s.set_pos_state p).1 = .ok () ∧ (s.set_pos_state p).2.m_pos = p ∧
      (s.set_pos_state p).2.m_size = s.m_size ∧ s.set_pos p = .ok { s with m_pos := p }) := by
  simp only [Source.set_pos_state, Source.set_pos]
  refine ⟨⟨fun h => ?_, fun h => ?_⟩, fun h => ?_⟩
  · by_contra hc
    rw [if_neg hc] at h
    obtain ⟨e, he⟩ := h
    cases he
  · rw [if_pos h]
    exact ⟨_, rfl⟩
  · rw [if_neg (by omega), if_neg (by omega)]
    exact ⟨rfl, rfl, rfl, rfl⟩

/-- Witness of C13: on a 3-byte source `set_pos(3)` is accepted. -/
theorem set_pos_iff_witness :
    3 ≤ src_abc.m_size ∧ (src_abc.set_pos_state 3).1 = .ok () ∧
      (src_abc.set_pos_state 3).2.m_pos = 3 ∧ (src_abc.set_pos_state 3).2.m_size = 3 :=
  ⟨by decide, ((set_pos_iff src_abc 3).2 (by decide)).1, ((set_pos_iff src_abc 3).2 (by decide)).2.1,
    ((set_pos_iff src_abc 3).2 (by decide)).2.2.1⟩

theorem find_loop_sound (ptr : Nat → Byte) (str : List Byte) (lim1 lim2 : Nat) :
    ∀ (fuel i : Nat), find_loop ptr str lim1 lim2 fuel i = nopos ∨
      (i ≤ find_loop ptr str lim1 lim2 fuel i ∧ find_loop ptr str lim1 lim2 fuel i < lim1 ∧
        find_loop ptr str lim1 lim2 fuel i < lim2 ∧
        bytes_at ptr (find_loop ptr str lim1 lim2 fuel i) str.length = str) := by
  intro fuel
  induction fuel with
  | zero => intro i; exact Or.inl rfl
  | succ fuel ih =>
    intro i
    simp only [find_loop]
    split_ifs with h1 h2
    · exact Or.inr ⟨le_refl _, h1.1, h1.2, h2.2⟩
    · rcases ih (i + 1) with h | ⟨ha, hb, hc, hd⟩
      · exact Or.inl h
      · exact Or.inr ⟨by omega, hb, hc, hd⟩
    · exact Or.inl rfl

theorem find_sound (s : Source) (str : List Byte) (maxOffset : Nat) :
    s.find str maxOffset = nopos ∨
      (str ≠ [] ∧ s.m_pos ≤ s.find str maxOffset ∧
        s.find str maxOffset + str.length < s.m_size ∧
        s.find str maxOffset + str.length < maxOffset ∧
        bytes_at s.m_ptr (s.find str maxOffset) str.length = str) := by
  simp only [Source.find]
  split_ifs with h1 h2
  · exact Or.inl rfl
  · exact Or.inl rfl
  · rcases find_loop_sound s.m_ptr str (s.m_size - str.length) (maxOffset - str.length)
      (s.m_size - str.length - s.m_pos) s.m_pos with h | ⟨ha, hb, hc, hd⟩
    · exact Or.inl h
    · exact Or.inr ⟨h1, ha, by omega, by omega, hd⟩

/-- Claim C14: `find` returns `nopos` (`2^64 - 1`) when the needle is empty, when
it is longer than the window between the cursor and `min(size, maxOffset)`,
and when it does not occur as a byte-exact substring inside that window. -/
theorem find_returns_nopos (s : Source) (str : List Byte) (maxOffset : Nat)
    (h : str = [] ∨ str.length > min s.m_size maxOffset - s.m_pos ∨
      ¬ ∃ r, s.m_pos ≤ r ∧ r + str.length ≤ min s.m_size maxOffset ∧
        bytes_at s.m_ptr r str.length = str) :
    s.find str maxOffset = nopos ∧ nopos = 2 ^ 64 - 1 := by
  refine ⟨?_, by norm_num [nopos]⟩
  rcases find_sound s str maxOffset with hn | ⟨hne, ha, hb, hc, hd⟩
  · exact hn
  · exfalso
    rcases h with h | h | h
    · exact hne h
    · have : s.find str maxOffset + str.length < min s.m_size maxOffset := lt_min hb hc
      omega
    · exact h ⟨_, ha, le_of_lt (lt_min hb hc), hd⟩

/-- Witness of C14: the needle `"abc"` is longer than the 2-byte window that is
left after the cursor of `src_short`. -/
theorem find_returns_nopos_witness :
    ([0x61, 0x62, 0x63] : List Byte).length > min src_short.m_size 10 - src_short.m_pos ∧
      src_short.find [0x61, 0x62, 0x63] 10 = nopos :=
  ⟨by decide, (find_returns_nopos src_short [0x61, 0x62, 0x63] 10 (Or.inr (Or.inl (by decide)))).1⟩

/-- Claim C11 at a failing input: of the 3 declared units the second is the
double-zero unit; `read_wstr(3)` returns the 2 bytes before it and leaves the
cursor at 2, not at 6. -/
theorem read_wstr_fixed_short_advance :
    src_wide_pad.read_wstr 3 = .ok ([0x41, 0], { src_wide_pad with m_pos := 2 }) :=
  rfl

/-- Claim C15 at a failing input: the needle `"abc"` equals the 3 bytes at the
cursor of a 3-byte source and `maxOffset` is 10; `find` returns `nopos`. -/
theorem find_misses_match_at_end :
    bytes_at src_abc.m_ptr src_abc.m_pos 3 = [0x61, 0x62, 0x63] ∧
      src_abc.find [0x61, 0x62, 0x63] 10 = nopos := by
  decide

/-! ### Struct registry: outcome of `add_struct` -/

theorem check_in_depth_mono (d : StructDict) (name : String) : ∀ (fuel : Nat) (fl : FieldList)
    (r : Except Error Unit), check_in_depth d name fuel fl = some r →
    ∀ k, check_in_depth d name (fuel + k) fl = some r := by
  intro fuel
  induction fuel with
  | zero => intro fl r h; simp [check_in_depth] at h
  | succ fuel ih =>
    intro fl r h k
    rw [show fuel + 1 + k = (fuel + k) + 1 by omega]
    cases fl with
    | nil => simpa [check_in_depth] using h
    | cons f rest =>
      simp only [check_in_depth] at h ⊢
      split_ifs at h ⊢ with h1 h2
      · exact ih rest r h k
      · exact h
      · cases hg : dict_find d f.typeName with
        | none => rw [hg] at h; simpa using h
        | some sub =>
          rw [hg] at h
          simp only at h ⊢
          cases hsub : check_in_depth d name fuel sub with
          | none => rw [hsub] at h; simp at h
          | some r1 =>
            rw [hsub] at h
            rw [ih sub r1 hsub k]
            cases r1 with
            | error e => simpa using h
            | ok u => exact ih rest r h k

theorem check_in_depth_list_finishes (d : StructDict) (name : String) : ∀ fl : FieldList,
    (∀ f ∈ fl, f.type ≠ DataType.FUNC → f.typeName ≠ "" → ∀ sub,
      dict_find d f.typeName = some sub →
      ∃ N, ∀ fuel, N ≤ fuel → (check_in_depth d name fuel sub).isSome) →
    ∃ N, ∀ fuel, N ≤ fuel → (check_in_depth d name fuel fl).isSome := by
  intro fl
  induction fl with
  | nil =>
    intro _
    refine ⟨1, fun fuel hf => ?_⟩
    obtain ⟨n, rfl⟩ : ∃ n, fuel = n + 1 := ⟨fuel - 1, by omega⟩
    simp [check_in_depth]
  | cons f rest ih =>
    intro hsub
    obtain ⟨Nr, hNr⟩ := ih (fun g hg => hsub g (List.mem_cons_of_mem _ hg))
    by_cases hskip : f.typeName = "" ∨ f.type = DataType.FUNC
    · refine ⟨Nr + 1, fun fuel hf => ?_⟩
      obtain ⟨n, rfl⟩ : ∃ n, fuel = n + 1 := ⟨fuel - 1, by omega⟩
      simp only [check_in_depth, if_pos hskip]
      exact hNr n (by omega)
    · have hty : f.type ≠ DataType.FUNC := fun h => hskip (Or.inr h)
      have hnm : f.typeName ≠ "" := fun h => hskip (Or.inl h)
      cases hg : dict_find d f.typeName with
      | none =>
        refine ⟨1, fun fuel hf => ?_⟩
        obtain ⟨n, rfl⟩ : ∃ n, fuel = n + 1 := ⟨fuel - 1, by omega⟩
        simp only [check_in_depth, if_neg hskip, hg]
        split_ifs <;> simp
      | some sub =>
        obtain ⟨Ns, hNs⟩ := hsub f (List.mem_cons_self _ _) hty hnm sub hg
        refine ⟨max Ns Nr + 1, fun fuel hf => ?_⟩
        obtain ⟨n, rfl⟩ : ∃ n, fuel = n + 1 := ⟨fuel - 1, by omega⟩
        have h1 := hNs n (by omega)
        have h2 := hNr n (by omega)
        simp only [check_in_depth, if_neg hskip, hg]
        split_ifs
        · simp
        · cases hs : check_in_depth d name n sub with
          | none => rw [hs] at h1; simp at h1
          | some r1 =>
            cases r1 with
            | error e => simp
            | ok u => exact h2

theorem dict_find_mem : ∀ (d : StructDict) (p : String), (dict_find d p).isSome →
    p ∈ d.map Prod.fst := by
  intro d
  induction d with
  | nil => intro p h; simp [dict_find] at h
  | cons e rest ih =>
    intro p h
    obtain ⟨k, v⟩ := e
    simp only [dict_find] at h
    split_ifs at h with hk
    · simp [hk]
    · exact List.mem_cons_of_mem _ (ih p h)

theorem registered_walk_finishes (d : StructDict) (hacyc : registry_acyclic d) (name : String) :
    ∀ p sub, dict_find d p = some sub →
      ∃ N, ∀ fuel, N ≤ fuel → (check_in_depth d name fuel sub).isSome := by
  have hfin : Set.Finite {p : String | (dict_find d p).isSome} :=
    (List.finite_toSet (d.map Prod.fst)).subset (fun p hp => dict_find_mem d p hp)
  haveI : Finite {p : String | (dict_find d p).isSome} := hfin.to_subtype
  let R : {p : String | (dict_find d p).isSome} → {p : String | (dict_find d p).isSome} → Prop :=
    fun c p => Relation.TransGen (embeds d) p.val c.val
  haveI : IsTrans _ R := ⟨fun a b c hab hbc => Relation.TransGen.trans hbc hab⟩
  haveI : IsIrrefl _ R := ⟨fun a h => hacyc a.val h⟩
  have hwf : WellFounded R := Finite.wellFounded_of_trans_of_irrefl R
  have key : ∀ q : {p : String | (dict_find d p).isSome}, ∀ sub, dict_find d q.val = some sub →
      ∃ N, ∀ fuel, N ≤ fuel → (check_in_depth d name fuel sub).isSome := by
    intro q
    induction q using hwf.induction with
    | _ q ih =>
      intro sub hsub
      apply check_in_depth_list_finishes
      intro f hf hty hnm sub2 hsub2
      exact ih ⟨f.typeName, by simp [hsub2]⟩
        (Relation.TransGen.single ⟨sub, hsub, f, hf, hty, hnm, rfl⟩) sub2 hsub2
  intro p sub hsub
  exact key ⟨p, by simp [hsub]⟩ sub hsub

theorem check_in_depth_finishes (d : StructDict) (hacyc : registry_acyclic d) (name : String)
    (fl : FieldList) : ∃ N, ∀ fuel, N ≤ fuel → (check_in_depth d name fuel fl).isSome :=
  check_in_depth_list_finishes d name fl
    (fun f _ _ _ sub hsub => registered_walk_finishes d hacyc name f.typeName sub hsub)

theorem check_in_depth_error (d : StructDict) (name : String) : ∀ (fuel : Nat) (fl : FieldList)
    (e : Error), check_in_depth d name fuel fl = some (.error e) →
    (e = .brie "Circular struct definition" ∨ e = .brie "Missing struct definition") ∧
    ∃ f ∈ fl, f.type ≠ DataType.FUNC ∧ f.typeName ≠ "" ∧
      ∃ x, Relation.ReflTransGen (embeds d) f.typeName x ∧ (x = name ∨ dict_find d x = none) := by
  intro fuel
  induction fuel with
  | zero => intro fl e h; simp [check_in_depth] at h
  | succ fuel ih =>
    intro fl e h
    cases fl with
    | nil => simp [check_in_depth] at h
    | cons f rest =>
      simp only [check_in_depth] at h
      split_ifs at h with h1 h2
      · obtain ⟨he, g, hg, hrest⟩ := ih rest e h
        exact ⟨he, g, List.mem_cons_of_mem _ hg, hrest⟩
      · simp only [Option.some.injEq, Except.error.injEq] at h
        exact ⟨Or.inl h.symm, f, List.mem_cons_self _ _, fun hc => h1 (Or.inr hc),
          fun hc => h1 (Or.inl hc), f.typeName, Relation.ReflTransGen.refl, Or.inl h2.symm⟩
      · have hty : f.type ≠ DataType.FUNC := fun hc => h1 (Or.inr hc)
        have hnm : f.typeName ≠ "" := fun hc => h1 (Or.inl hc)
        cases hg : dict_find d f.typeName with
        | none =>
          rw [hg] at h
          simp only [Option.some.injEq, Except.error.injEq] at h
          exact ⟨Or.inr h.symm, f, List.mem_cons_self _ _, hty, hnm, f.typeName,
            Relation.ReflTransGen.refl, Or.inr hg⟩
        | some sub =>
          rw [hg] at h
          simp only at h
          cases hsub : check_in_depth d name fuel sub with
          | none => rw [hsub] at h; simp at h
          | some r1 =>
            rw [hsub] at h
            cases r1 with
            | error e1 =>
              simp only [Option.some.injEq, Except.error.injEq] at h
              subst h
              obtain ⟨he, g, hgm, hgty, hgnm, x, hx, hend⟩ := ih sub e1 hsub
              exact ⟨he, f, List.mem_cons_self _ _, hty, hnm, x,
                Relation.ReflTransGen.head ⟨sub, hg, g, hgm, hgty, hgnm, rfl⟩ hx, hend⟩
            | ok u =>
              simp only at h
              obtain ⟨he, g, hgm, hrest⟩ := ih rest e h
              exact ⟨he, g, List.mem_cons_of_mem _ hgm, hrest⟩

theorem closed_reach (d : StructDict) (hc : registry_closed d) (t x : String)
    (ht : (dict_find d t).isSome) (h : Relation.ReflTransGen (embeds d) t x) :
    (dict_find d x).isSome := by
  induction h with
  | refl => exact ht
  | tail _ hstep _ =>
    obtain ⟨fl, hfl, f, hf, hty, hnm, rfl⟩ := hstep
    exact hc _ fl hfl f hf hty hnm

theorem check_in_width_error (d : StructDict) (name : String) : ∀ (fl : FieldList) (e : Error),
    check_in_width d name fl = .error e →
    e = .brie "Self reference" ∨ e = .brie "Missing struct definition" := by
  intro fl
  induction fl with
  | nil => intro e h; simp [check_in_width] at h
  | cons f rest ih =>
    intro e h
    simp only [check_in_width] at h
    split_ifs at h with h1 h2
    · exact ih e h
    · simp only [Except.error.injEq] at h
      exact Or.inl h.symm
    · cases hg : dict_find d f.typeName with
      | none =>
        rw [hg] at h
        simp only [Except.error.injEq] at h
        exact Or.inr h.symm
      | some sub =>
        rw [hg] at h
        exact ih e h

theorem check_in_width_complete (d : StructDict) (name : String) : ∀ fl : FieldList,
    (∀ f ∈ fl, f.type ≠ DataType.FUNC → f.typeName ≠ "" →
      f.typeName ≠ name ∧ (dict_find d f.typeName).isSome) →
    check_in_width d name fl = .ok () := by
  intro fl
  induction fl with
  | nil => intro _; rfl
  | cons f rest ih =>
    intro h
    have hrest := ih (fun g hg => h g (List.mem_cons_of_mem _ hg))
    simp only [check_in_width]
    split_ifs with h1 h2
    · exact hrest
    · exact absurd h2 (h f (List.mem_cons_self _ _) (fun hc => h1 (Or.inr hc))
        (fun hc => h1 (Or.inl hc))).1
    · have := (h f (List.mem_cons_self _ _) (fun hc => h1 (Or.inr hc))
        (fun hc => h1 (Or.inl hc))).2
      cases hg : dict_find d f.typeName with
      | none => rw [hg] at this; simp at this
      | some sub => exact hrest

theorem add_struct_state_agrees (d : StructDict) (fuel : Nat) (name : String) (sp : FieldList) :
    add_struct_state d fuel name sp =
      match add_struct d fuel name sp with
      | none => none
      | some (.ok d1) => some (.ok (), d1)
      | some (.error e) => some (.error e, d) := by
  simp only [add_struct_state, add_struct]
  cases check_in_width d name sp with
  | error e => rfl
  | ok u =>
    cases check_in_depth d name fuel sp with
    | none => rfl
    | some r => cases r <;> rfl

/-- Claim C16: on a reachable registry, when `name` is reachable from a
non-function custom-type field of the new field list through the custom-type
fields of registered structs, `add_struct` throws a schema error and the
registry is the one before the call. -/
theorem add_struct_rejects_cycle (fuel0 : Nat) (calls : List RegCall) (d : StructDict)
    (hreach : run_calls fuel0 [] calls = some d) (name : String) (sp : FieldList) (f : Field)
    (hf : f ∈ sp) (hty : f.type ≠ DataType.FUNC) (hnm : f.typeName ≠ "")
    (hpath : Relation.ReflTransGen (embeds d) f.typeName name) :
    (∃ fuel msg, schema_error msg ∧
      add_struct_state d fuel name sp = some (.error (.brie msg), d)) ∧
    (∀ fuel r, add_struct_state d fuel name sp = some r →
      ∃ msg, schema_error msg ∧ r = (.error (.brie msg), d)) := by
  have hacyc := (run_calls_keeps fuel0 calls [] d registry_empty_ok.1 registry_empty_ok.2 hreach).2
  have hnot : ∀ fuel, check_in_depth d name fuel sp ≠ some (.ok ()) := fun fuel hok =>
    depth_ok_unreachable d name f.typeName name hpath fuel sp hok ⟨f, hf, hty, hnm, rfl⟩ rfl
  cases hw : check_in_width d name sp with
  | error e =>
    have hmsg : ∃ msg, schema_error msg ∧ e = .brie msg := by
      rcases check_in_width_error d name sp e hw with h | h
      · exact ⟨_, Or.inl rfl, h⟩
      · exact ⟨_, Or.inr (Or.inl rfl), h⟩
    obtain ⟨msg, hs, rfl⟩ := hmsg
    refine ⟨⟨0, msg, hs, by simp [add_struct_state, hw]⟩, fun fuel r h => ?_⟩
    simp only [add_struct_state, hw, Option.some.injEq] at h
    exact ⟨msg, hs, h.symm⟩
  | ok u =>
    have hdepth : ∀ fuel r, add_struct_state d fuel name sp = some r →
        ∃ msg, schema_error msg ∧ r = (.error (.brie msg), d) := by
      intro fuel r h
      simp only [add_struct_state, hw] at h
      cases hd : check_in_depth d name fuel sp with
      | none => rw [hd] at h; simp at h
      | some r1 =>
        cases r1 with
        | ok u1 => exact absurd hd (hnot fuel)
        | error e =>
          rw [hd] at h
          simp only [Option.some.injEq] at h
          rcases (check_in_depth_error d name fuel sp e hd).1 with he | he
          · exact ⟨_, Or.inr (Or.inr rfl), by rw [← h, he]⟩
          · exact ⟨_, Or.inr (Or.inl rfl), by rw [← h, he]⟩
    refine ⟨?_, hdepth⟩
    obtain ⟨N, hN⟩ := check_in_depth_finishes d hacyc name sp
    have hsome := hN N (le_refl _)
    cases hd : check_in_depth d name N sp with
    | none => rw [hd] at hsome; simp at hsome
    | some r1 =>
      cases r1 with
      | ok u1 => exact absurd hd (hnot N)
      | error e =>
        have hst : add_struct_state d N name sp = some (.error e, d) := by
          simp [add_struct_state, hw, hd]
        obtain ⟨msg, hs, hr⟩ := hdepth N _ hst
        exact ⟨N, msg, hs, by rw [hst, hr]⟩

/-- Witness of C16: `B` embeds `A`, and `A` is re-declared to embed `B`. -/
theorem add_struct_rejects_cycle_witness :
    run_calls 10 [] calls_ab = some dict_ab ∧
    ∃ fuel msg, schema_error msg ∧
      add_struct_state dict_ab fuel "A" [struct_field "B" "b"] =
        some (.error (.brie msg), dict_ab) :=
  ⟨rfl, (add_struct_rejects_cycle 10 calls_ab dict_ab rfl "A" [struct_field "B" "b"]
    (struct_field "B" "b") (by simp) (by decide) (by decide)
    (Relation.ReflTransGen.single ⟨[struct_field "A" "a"], rfl, struct_field "A" "a",
      by simp, by decide, by decide, rfl⟩)).1⟩

/-- Claim C19: on a reachable registry, when every non-function custom-type field
of the new list names a registered struct other than `name` that does not
reach `name`, `add_struct` returns; afterwards `get_struct(name)` is exactly
the new field list and `get_struct` of every other name is unchanged. -/
theorem add_struct_accepts (fuel0 : Nat) (calls : List RegCall) (d : StructDict)
    (hreach : run_calls fuel0 [] calls = some d) (name : String) (sp : FieldList)
    (hall : ∀ f ∈ sp, f.type ≠ DataType.FUNC → f.typeName ≠ "" →
      f.typeName ≠ name ∧ (dict_find d f.typeName).isSome ∧
        ¬ Relation.ReflTransGen (embeds d) f.typeName name) :
    ∃ fuel d1, add_struct_state d fuel name sp = some (.ok (), d1) ∧
      (∀ fuel2 r, add_struct_state d fuel2 name sp = some r → r = (.ok (), d1)) ∧
      get_struct d1 name = .ok sp ∧ ∀ n, n ≠ name → get_struct d1 n = get_struct d n := by
  obtain ⟨hc, hacyc⟩ :=
    run_calls_keeps fuel0 calls [] d registry_empty_ok.1 registry_empty_ok.2 hreach
  have hw : check_in_width d name sp = .ok () :=
    check_in_width_complete d name sp (fun f hf hty hnm => ⟨(hall f hf hty hnm).1,
      (hall f hf hty hnm).2.1⟩)
  have hnoerr : ∀ fuel e, check_in_depth d name fuel sp ≠ some (.error e) := by
    intro fuel e he
    obtain ⟨_, f, hf, hty, hnm, x, hx, hend⟩ := check_in_depth_error d name fuel sp e he
    obtain ⟨_, hreg, hnr⟩ := hall f hf hty hnm
    rcases hend with rfl | hnone
    · exact hnr hx
    · have := closed_reach d hc f.typeName x hreg hx
      rw [hnone] at this
      simp at this
  obtain ⟨N, hN⟩ := check_in_depth_finishes d hacyc name sp
  have hsome := hN N (le_refl _)
  refine ⟨N, dict_set d name sp, ?_, ?_, ?_, ?_⟩
  · cases hd : check_in_depth d name N sp with
    | none => rw [hd] at hsome; simp at hsome
    | some r1 =>
      cases r1 with
      | error e => exact absurd hd (hnoerr N e)
      | ok u => simp [add_struct_state, hw, hd]
  · intro fuel2 r h
    simp only [add_struct_state, hw] at h
    cases hd : check_in_depth d name fuel2 sp with
    | none => rw [hd] at h; simp at h
    | some r1 =>
      cases r1 with
      | error e => exact absurd hd (hnoerr fuel2 e)
      | ok u =>
        rw [hd] at h
        simp only [Option.some.injEq] at h
        exact h.symm
  · simp [get_struct, dict_find_set]
  · intro n hn
    simp only [get_struct, dict_find_set]
    rw [if_neg (fun h => hn h.symm)]

/-- Witness of C19: `three := one:xxx two:yyy` is accepted after `one` and `two`
were declared, as in `TEST(PARSER, ComplexStructs)`. -/
theorem add_struct_accepts_witness :
    run_calls 10 [] calls_one_two = some dict_one_two ∧
    ∃ fuel d1, add_struct_state dict_one_two fuel "three"
        [struct_field "one" "xxx", struct_field "two" "yyy"] = some (.ok (), d1) ∧
      get_struct d1 "three" = .ok [struct_field "one" "xxx", struct_field "two" "yyy"] := by
  have hno : ∀ t, (t = "one" ∨ t = "two") →
      ¬ Relation.ReflTransGen (embeds dict_one_two) t "three" := by
    intro t ht hr
    have hreg : (dict_find dict_one_two t).isSome := by
      rcases ht with rfl | rfl <;> decide
    have h3 := closed_reach dict_one_two
      (run_calls_keeps 10 calls_one_two [] dict_one_two registry_empty_ok.1 registry_empty_ok.2
        rfl).1 t "three" hreg hr
    revert h3
    decide
  obtain ⟨fuel, d1, h1, _, h3, _⟩ := add_struct_accepts 10 calls_one_two dict_one_two rfl "three"
    [struct_field "one" "xxx", struct_field "two" "yyy"] (by
      intro f hf _ _
      simp only [List.mem_cons, List.mem_singleton, List.not_mem_nil, or_false] at hf
      rcases hf with rfl | rfl
      · exact ⟨by decide, by decide, hno "one" (Or.inl rfl)⟩
      · exact ⟨by decide, by decide, hno "two" (Or.inr rfl)⟩)
  exact ⟨rfl, fuel, d1, h1, h3⟩

/-- Claim C18: when the new field list has a non-function field with a non-empty
`typeName` that names no registered struct, `add_struct` throws (in the width
check, whatever the step budget) and the registry is the one before the call:
the declaration is not registered. -/
theorem add_struct_rejects_forward (d : StructDict) (name : String) (sp : FieldList)
    (f : Field) (hf : f ∈ sp) (hty : f.type ≠ DataType.FUNC) (hnm : f.typeName ≠ "")
    (hmiss : dict_find d f.typeName = none) (fuel : Nat) :
    ∃ msg, (msg = "Self reference" ∨ msg = "Missing struct definition") ∧
      add_struct_state d fuel name sp = some (.error (.brie msg), d) ∧
      (dict_find d name = none →
        ∀ d1 r, add_struct_state d fuel name sp = some (r, d1) →
          get_struct d1 name = .error (.brie "Struct is not found")) := by
  cases hw : check_in_width d name sp with
  | ok u =>
    have := (check_in_width_ok d name sp hw f hf hty hnm).2
    rw [hmiss] at this
    simp at this
  | error e =>
    have hst : add_struct_state d fuel name sp = some (.error e, d) := by
      simp [add_struct_state, hw]
    have hget : dict_find d name = none →
        ∀ d1 r, add_struct_state d fuel name sp = some (r, d1) →
          get_struct d1 name = .error (.brie "Struct is not found") := by
      intro hnone d1 r h
      rw [hst] at h
      simp only [Option.some.injEq, Prod.mk.injEq] at h
      rw [← h.2]
      simp [get_struct, hnone]
    rcases check_in_width_error d name sp e hw with h | h
    · exact ⟨_, Or.inl rfl, by rw [hst, h], hget⟩
    · exact ⟨_, Or.inr rfl, by rw [hst, h], hget⟩

/-- Witness of C18: `one := two:xxx` on an empty registry, as in
`TEST(PARSER, ComplexStructsInvalid2)`. -/
theorem add_struct_rejects_forward_witness :
    dict_find [] (struct_field "two" "xxx").typeName = none ∧
    ∃ msg, (msg = "Self reference" ∨ msg = "Missing struct definition") ∧
      add_struct_state [] 5 "one" [struct_field "two" "xxx"] = some (.error (.brie msg), []) :=
  ⟨rfl, by
    obtain ⟨msg, h1, h2, _⟩ := add_struct_rejects_forward [] "one" [struct_field "two" "xxx"]
      (struct_field "two" "xxx") (by simp) (by decide) (by decide) rfl 5
    exact ⟨msg, h1, h2⟩⟩

theorem check_in_width_pass (d : StructDict) (name : String) (rest : FieldList) :
    ∀ pre : FieldList,
    (∀ g ∈ pre, g.type ≠ DataType.FUNC → g.typeName ≠ "" →
      g.typeName ≠ name ∧ (dict_find d g.typeName).isSome) →
    check_in_width d name (pre ++ rest) = check_in_width d name rest := by
  intro pre
  induction pre with
  | nil => intro _; rfl
  | cons g pre ih =>
    intro h
    have hrest := ih (fun g2 hg2 => h g2 (List.mem_cons_of_mem _ hg2))
    simp only [List.cons_append, check_in_width]
    split_ifs with h1 h2
    · exact hrest
    · exact absurd h2 (h g (List.mem_cons_self _ _) (fun hc => h1 (Or.inr hc))
        (fun hc => h1 (Or.inl hc))).1
    · have := (h g (List.mem_cons_self _ _) (fun hc => h1 (Or.inr hc))
        (fun hc => h1 (Or.inl hc))).2
      cases hg : dict_find d g.typeName with
      | none => rw [hg] at this; simp at this
      | some sub => exact hrest

theorem check_in_width_missing (d : StructDict) (name : String) (rest : FieldList) :
    ∀ pre : FieldList,
    (∀ g ∈ pre, g.type ≠ DataType.FUNC → g.typeName ≠ "" → g.typeName ≠ name) →
    (∃ g ∈ pre, g.type ≠ DataType.FUNC ∧ g.typeName ≠ "" ∧ dict_find d g.typeName = none) →
    check_in_width d name (pre ++ rest) = .error (.brie "Missing struct definition") := by
  intro pre
  induction pre with
  | nil => intro _ h; obtain ⟨g, hg, _⟩ := h; cases hg
  | cons g pre ih =>
    intro hne hex
    simp only [List.cons_append, check_in_width]
    have hne2 := fun g2 hg2 => hne g2 (List.mem_cons_of_mem _ hg2)
    obtain ⟨g0, hg0, hty0, hnm0, hmiss0⟩ := hex
    split_ifs with h1 h2
    · rcases List.mem_cons.mp hg0 with rfl | hg0
      · rcases h1 with h1 | h1
        · exact absurd h1 hnm0
        · exact absurd h1 hty0
      · exact ih hne2 ⟨g0, hg0, hty0, hnm0, hmiss0⟩
    · exact absurd h2 (hne g (List.mem_cons_self _ _) (fun hc => h1 (Or.inr hc))
        (fun hc => h1 (Or.inl hc)))
    · cases hg : dict_find d g.typeName with
      | none => rfl
      | some sub =>
        rcases List.mem_cons.mp hg0 with rfl | hg0
        · rw [hmiss0] at hg; cases hg
        · exact ih hne2 ⟨g0, hg0, hty0, hnm0, hmiss0⟩

/-- Claim C17 as stated fails: on an empty registry the declaration
`one := two:a one:b` has a non-function field whose `typeName` is `one`, and
`add_struct` throws "Missing struct definition" for the earlier field; and
with the empty name every primitive field has a `typeName` equal to the name,
and `add_struct` accepts the declaration. -/
theorem self_reference_not_reported :
    struct_field "one" "b" ∈ [struct_field "two" "a", struct_field "one" "b"] ∧
    (struct_field "one" "b").type ≠ DataType.FUNC ∧ (struct_field "one" "b").typeName = "one" ∧
    add_struct [] 5 "one" [struct_field "two" "a", struct_field "one" "b"] =
      some (.error (.brie "Missing struct definition")) ∧
    (prim_field DataType.U8 "x").typeName = "" ∧
    add_struct [] 5 "" [prim_field DataType.U8 "x"] =
      some (.ok [("", [prim_field DataType.U8 "x"])]) :=
  ⟨by simp, by decide, rfl, rfl, rfl, rfl⟩

/-- Claim C17, amended: when the new field list has a non-function field with a
non-empty `typeName` equal to `name`, `add_struct` throws in the width check
and the registry is unchanged; with `f` the first such field, the error is
"Self reference" when every non-function custom-type field before `f` names a
registered struct, and "Missing struct definition" when one of them does not. -/
theorem add_struct_self_reference (d : StructDict) (name : String) (pre post : FieldList)
    (f : Field) (hty : f.type ≠ DataType.FUNC) (hnm : f.typeName ≠ "")
    (hself : f.typeName = name)
    (hfirst : ∀ g ∈ pre, g.type ≠ DataType.FUNC → g.typeName ≠ "" → g.typeName ≠ name)
    (fuel : Nat) :
    ((∀ g ∈ pre, g.type ≠ DataType.FUNC → g.typeName ≠ "" → (dict_find d g.typeName).isSome) →
      add_struct_state d fuel name (pre ++ f :: post) =
        some (.error (.brie "Self reference"), d)) ∧
    ((∃ g ∈ pre, g.type ≠ DataType.FUNC ∧ g.typeName ≠ "" ∧ dict_find d g.typeName = none) →
      add_struct_state d fuel name (pre ++ f :: post) =
        some (.error (.brie "Missing struct definition"), d)) := by
  refine ⟨fun hreg => ?_, fun hex => ?_⟩
  · have hw : check_in_width d name (pre ++ f :: post) = .error (.brie "Self reference") := by
      rw [check_in_width_pass d name (f :: post) pre
        (fun g hg hgt hgn => ⟨hfirst g hg hgt hgn, hreg g hg hgt hgn⟩)]
      simp only [check_in_width]
      rw [if_neg (by rintro (h | h); exact hnm h; exact hty h), if_pos hself]
    simp [add_struct_state, hw]
  · have hw := check_in_width_missing d name (f :: post) pre hfirst hex
    simp [add_struct_state, hw]

/-- Witness of C17 (amended): `one := one:xxx` on an empty registry, as in
`TEST(PARSER, ComplexStructsInvalid1)`. -/
theorem add_struct_self_reference_witness :
    (struct_field "one" "xxx").type ≠ DataType.FUNC ∧
    (struct_field "one" "xxx").typeName ≠ "" ∧ (struct_field "one" "xxx").typeName = "one" ∧
    add_struct_state [] 5 "one" ([] ++ struct_field "one" "xxx" :: []) =
      some (.error (.brie "Self reference"), []) :=
  ⟨by decide, by decide, rfl,
    (add_struct_self_reference [] "one" [] [] (struct_field "one" "xxx") (by decide) (by decide)
      rfl (fun g hg => by cases hg) 5).1 (fun g hg => by cases hg)⟩

theorem check_in_width_filter (d : StructDict) (name : String) : ∀ sp : FieldList,
    check_in_width d name (sp.filter (fun f => decide (f.type ≠ DataType.FUNC))) =
      check_in_width d name sp := by
  intro sp
  induction sp with
  | nil => rfl
  | cons f rest ih =>
    by_cases hty : f.type = DataType.FUNC
    · simp only [List.filter, hty, ne_eq, not_true_eq_false, decide_False, check_in_width,
        or_true, if_true]
      exact ih
    · simp only [List.filter, hty, ne_eq, not_false_eq_true, decide_True, check_in_width, ih]

theorem check_in_depth_filter (d : StructDict) (name : String) : ∀ (sp : FieldList) (fuel : Nat)
    (r : Except Error Unit), check_in_depth d name fuel sp = some r →
    check_in_depth d name fuel (sp.filter (fun f => decide (f.type ≠ DataType.FUNC))) =
      some r := by
  intro sp
  induction sp with
  | nil => intro fuel r h; exact h
  | cons f rest ih =>
    intro fuel r h
    cases fuel with
    | zero => simp [check_in_depth] at h
    | succ n =>
      by_cases hty : f.type = DataType.FUNC
      · simp only [check_in_depth, hty, or_true, if_true] at h
        simp only [List.filter, hty, ne_eq, not_true_eq_false, decide_False]
        exact check_in_depth_mono d name n _ r (ih n r h) 1
      · simp only [List.filter, hty, ne_eq, not_false_eq_true, decide_True]
        simp only [check_in_depth] at h ⊢
        split_ifs at h ⊢ with h1 h2
        · exact ih n r h
        · exact h
        · cases hg : dict_find d f.typeName with
          | none => rw [hg] at h; exact h
          | some sub =>
            rw [hg] at h
            simp only at h ⊢
            cases hsub : check_in_depth d name n sub with
            | none => rw [hsub] at h; simp at h
            | some r1 =>
              rw [hsub] at h
              cases r1 with
              | error e => exact h
              | ok u => exact ih n r h

theorem check_in_depth_unfilter (d : StructDict) (name : String) : ∀ (sp : FieldList)
    (fuel : Nat) (r : Except Error Unit),
    check_in_depth d name fuel (sp.filter (fun f => decide (f.type ≠ DataType.FUNC))) = some r →
    check_in_depth d name (fuel + sp.length) sp = some r := by
  intro sp
  induction sp with
  | nil => intro fuel r h; exact check_in_depth_mono d name fuel _ r h 0
  | cons f rest ih =>
    intro fuel r h
    rw [show fuel + (f :: rest).length = (fuel + rest.length) + 1 by simp; omega]
    by_cases hty : f.type = DataType.FUNC
    · simp only [List.filter, hty, ne_eq, not_true_eq_false, decide_False] at h
      simp only [check_in_depth, hty, or_true, if_true]
      exact ih fuel r h
    · simp only [List.filter, hty, ne_eq, not_false_eq_true, decide_True] at h
      cases fuel with
      | zero => simp [check_in_depth] at h
      | succ n =>
        have hstep : ∀ fl r2, check_in_depth d name (n + rest.length) fl = some r2 →
            check_in_depth d name (n + 1 + rest.length) fl = some r2 := by
          intro fl r2 h2
          rw [show n + 1 + rest.length = (n + rest.length) + 1 by omega]
          exact check_in_depth_mono d name _ fl r2 h2 1
        simp only [check_in_depth] at h ⊢
        split_ifs at h ⊢ with h1 h2
        · exact hstep _ _ (ih n r h)
        · exact h
        · cases hg : dict_find d f.typeName with
          | none => rw [hg] at h; exact h
          | some sub =>
            rw [hg] at h
            simp only at h ⊢
            cases hsub : check_in_depth d name n sub with
            | none => rw [hsub] at h; simp at h
            | some r1 =>
              rw [hsub] at h
              rw [show n + 1 + rest.length = n + (1 + rest.length) by omega,
                check_in_depth_mono d name n sub r1 hsub (1 + rest.length)]
              cases r1 with
              | error e => exact h
              | ok u =>
                simp only at h ⊢
                rw [show n + (1 + rest.length) = n + 1 + rest.length by omega]
                exact hstep _ _ (ih n r h)

/-- Claim C20: fields of type `FUNC` are exempt from the validation of
`add_struct`, whatever their `typeName`: the call on a field list and the call
on the list without its `FUNC` fields have the same outcome (they return, or
throw the same error); only the number of steps of the depth walk differs. -/
theorem func_fields_exempt (d : StructDict) (name : String) (sp : FieldList) :
    (∀ fuel r, (add_struct_state d fuel name sp).map Prod.fst = some r →
      (add_struct_state d fuel name
        (sp.filter (fun f => decide (f.type ≠ DataType.FUNC)))).map Prod.fst = some r) ∧
    (∀ fuel r, (add_struct_state d fuel name
        (sp.filter (fun f => decide (f.type ≠ DataType.FUNC)))).map Prod.fst = some r →
      (add_struct_state d (fuel + sp.length) name sp).map Prod.fst = some r) := by
  refine ⟨fun fuel r h => ?_, fun fuel r h => ?_⟩
  · simp only [add_struct_state, check_in_width_filter] at h ⊢
    cases hw : check_in_width d name sp with
    | error e => rw [hw] at h; exact h
    | ok u =>
      rw [hw] at h
      simp only at h ⊢
      cases hd : check_in_depth d name fuel sp with
      | none => rw [hd] at h; simp at h
      | some r1 =>
        rw [hd] at h
        rw [check_in_depth_filter d name sp fuel r1 hd]
        cases r1 <;> exact h
  · simp only [add_struct_state, check_in_width_filter] at h ⊢
    cases hw : check_in_width d name sp with
    | error e => rw [hw] at h; exact h
    | ok u =>
      rw [hw] at h
      simp only at h ⊢
      cases hd : check_in_depth d name fuel
          (sp.filter (fun f => decide (f.type ≠ DataType.FUNC))) with
      | none => rw [hd] at h; simp at h
      | some r1 =>
        rw [hd] at h
        rw [check_in_depth_unfilter d name sp fuel r1 hd]
        cases r1 <;> exact h

/-- Witness of C20: the declaration `one := @f2:aaa @f2:bbb @f3*4:ccc` of
`TEST(CONSOLE, Struct5)` is accepted like the empty field list. -/
theorem func_fields_exempt_witness :
    (add_struct_state [] 5 "one" [func_field "f2" "aaa", func_field "f2" "bbb",
      ⟨⟨DataType.FUNC, 0, 4, "f3"⟩, "ccc"⟩]).map Prod.fst = some (.ok ()) ∧
    (add_struct_state [] 5 "one" []).map Prod.fst = some (.ok ()) :=
  ⟨rfl, (func_fields_exempt [] "one" [func_field "f2" "aaa", func_field "f2" "bbb",
      ⟨⟨DataType.FUNC, 0, 4, "f3"⟩, "ccc"⟩]).1 5 (.ok ()) rfl⟩

/-! ### Descriptor parser: unnamed items -/

theorem type_of_num_type_num (t : DataType) : type_of_num (type_num t) = t := by
  cases t <;> rfl

theorem type_num_range (t : DataType) (h : t ≠ .MAX_TYPE) :
    ¬ type_num t < UNDEFINED_TYPE_NUM ∧ type_num t < MAX_TYPE_NUM := by
  cases t <;> first | exact absurd rfl h | (constructor <;> decide)

theorem read_feed_append (toks1 toks2 : List Token) : ∀ p : ReadStringParser,
    p.feed (toks1 ++ toks2) =
      match p.feed toks1 with
      | .error e => .error e
      | .ok p1 => p1.feed toks2 := by
  induction toks1 with
  | nil => intro p; rfl
  | cons t rest ih =>
    intro p
    simp only [List.cons_append, ReadStringParser.feed]
    cases p.on_token t with
    | error e => rfl
    | ok p1 => exact ih p1

theorem read_complete_sound (p : ReadStringParser) (h : p.sound) :
    p.complete = .ok ⟨p.pending, clear_data_item, .Initial⟩ := by
  obtain ⟨ds, cur, st⟩ := p
  simp only [ReadStringParser.sound] at h
  simp only [ReadStringParser.complete, ReadStringParser.pending]
  by_cases hs : st = .Initial
  · subst hs
    simp [h.1]
  · simp [hs, h.2 hs]

theorem read_on_type (p : ReadStringParser) (h : p.sound) (t : DataType) (ht : t ≠ .MAX_TYPE) :
    p.on_token (tok_type t) = .ok ⟨p.pending, ⟨t, 0, 1, ""⟩, .Type_⟩ := by
  have hr := type_num_range t ht
  simp only [ReadStringParser.on_token, tok_type, if_neg hr.1, if_pos hr.2,
    ReadStringParser.push_type, read_complete_sound p h, type_of_num_type_num]
  rfl

theorem read_on_ident (p : ReadStringParser) (h : p.sound) (name : String) :
    p.on_token (tok_ident name) = .ok ⟨p.pending, ⟨.UNDEFINED_TYPE, 0, 1, name⟩, .Name⟩ := by
  simp only [ReadStringParser.on_token, tok_ident, ReadStringParser.push_identifier,
    read_complete_sound p h]
  rfl

theorem read_on_fixed (ds : List DataItem) (cur : DataItem) (n : NumSuffix) (hn : n.wf)
    (hs : cur.type = .STRING ∨ cur.type = .WSTRING ∨ cur.type = .VOID) :
    (ReadStringParser.mk ds cur .Type_).on_token (tok_fixed n.text) =
      .ok ⟨ds, { cur with size := n.value }, .FixedLength⟩ := by
  have hnot : ¬ (cur.type ≠ .STRING ∧ cur.type ≠ .WSTRING ∧ cur.type ≠ .VOID) := by
    rintro ⟨h1, h2, h3⟩
    rcases hs with h | h | h
    · exact h1 h
    · exact h2 h
    · exact h3 h
  simp only [NumSuffix.wf] at hn
  simp [ReadStringParser.on_token, tok_fixed, ReadStringParser.push_value, hnot, hn,
    FIXED_LENGTH, UNDEFINED_TYPE_NUM, MAX_TYPE_NUM, MAX_LITERAL, IDENTIFIER]

theorem read_on_array (ds : List DataItem) (cur : DataItem) (st : RState) (m : NumSuffix)
    (hm : m.wf) (hst : st = .Type_ ∨ st = .FixedLength ∨ st = .Name) :
    (ReadStringParser.mk ds cur st).on_token (tok_array m.text) =
      .ok ⟨ds, { cur with count := m.value }, .ArraySize⟩ := by
  have hnot : ¬ (st ≠ .Type_ ∧ st ≠ .FixedLength ∧ st ≠ .Name) := by
    rintro ⟨h1, h2, h3⟩
    rcases hst with h | h | h
    · exact h1 h
    · exact h2 h
    · exact h3 h
  simp only [NumSuffix.wf] at hm
  simp [ReadStringParser.on_token, tok_array, ReadStringParser.push_value, hnot, hm,
    ARRAY_SIZE, FIXED_LENGTH, UNDEFINED_TYPE_NUM, MAX_TYPE_NUM, MAX_LITERAL, IDENTIFIER]

theorem read_feed_item (p : ReadStringParser) (hp : p.sound) (it : ReadItem) (hw : it.wf) :
    ∃ st, st ≠ RState.Initial ∧
      p.feed it.tokens = .ok ⟨p.pending, it.item, st⟩ ∧
      ¬ (it.item.type = .VOID ∧ it.item.size = 0) := by
  obtain ⟨head, count⟩ := it
  obtain ⟨hh, hc⟩ := hw
  cases head with
  | keyword t =>
    simp only at hh
    have ht : t ≠ .MAX_TYPE := by
      rcases hh with h | h | h | h | h | h | h | h | h | h <;> rw [h] <;> decide
    have hv : t ≠ .VOID := by
      rcases hh with h | h | h | h | h | h | h | h | h | h <;> rw [h] <;> decide
    cases count with
    | none =>
      refine ⟨.Type_, by decide, ?_, fun h => hv h.1⟩
      simp [ReadItem.tokens, ItemHead.tokens, count_tokens, ReadStringParser.feed,
        read_on_type p hp t ht, ReadItem.item, count_value]
    | some m =>
      refine ⟨.ArraySize, by decide, ?_, fun h => hv h.1⟩
      simp only at hc
      simp [ReadItem.tokens, ItemHead.tokens, count_tokens, ReadStringParser.feed,
        read_on_type p hp t ht, read_on_array _ _ _ m hc (Or.inl rfl), ReadItem.item,
        count_value]
  | sized s n =>
    simp only at hh
    obtain ⟨hs, hn, hpos⟩ := hh
    have ht : s ≠ .MAX_TYPE := by
      rcases hs with h | h | h <;> rw [h] <;> decide
    have hnz : ¬ (s = .VOID ∧ n.value = 0) := fun h => by
      have := hpos h.1
      omega
    cases count with
    | none =>
      refine ⟨.FixedLength, by decide, ?_, hnz⟩
      simp [ReadItem.tokens, ItemHead.tokens, count_tokens, ReadStringParser.feed,
        read_on_type p hp s ht, read_on_fixed _ ⟨s, 0, 1, ""⟩ n hn hs, ReadItem.item,
        count_value]
    | some m =>
      refine ⟨.ArraySize, by decide, ?_, hnz⟩
      simp only at hc
      simp [ReadItem.tokens, ItemHead.tokens, count_tokens, ReadStringParser.feed,
        read_on_type p hp s ht, read_on_fixed _ ⟨s, 0, 1, ""⟩ n hn hs,
        read_on_array _ _ _ m hc (Or.inr (Or.inl rfl)), ReadItem.item, count_value]
  | ident name =>
    cases count with
    | none =>
      refine ⟨.Name, by decide, ?_, fun h => by simp [ReadItem.item] at h⟩
      simp [ReadItem.tokens, ItemHead.tokens, count_tokens, ReadStringParser.feed,
        read_on_ident p hp name, ReadItem.item, count_value]
    | some m =>
      refine ⟨.ArraySize, by decide, ?_, fun h => by simp [ReadItem.item] at h⟩
      simp only at hc
      simp [ReadItem.tokens, ItemHead.tokens, count_tokens, ReadStringParser.feed,
        read_on_ident p hp name, read_on_array _ _ _ m hc (Or.inr (Or.inr rfl)),
        ReadItem.item, count_value]

theorem read_feed_items : ∀ (items : List ReadItem) (p : ReadStringParser), p.sound →
    (∀ it ∈ items, it.wf) →
    ∃ p1, p.feed (items.flatMap ReadItem.tokens) = .ok p1 ∧ p1.sound ∧
      p1.pending = p.pending ++ items.map ReadItem.item := by
  intro items
  induction items with
  | nil => intro p hp _; exact ⟨p, rfl, hp, by simp⟩
  | cons it rest ih =>
    intro p hp hw
    obtain ⟨st, hst, hfeed, hnz⟩ := read_feed_item p hp it (hw it (List.mem_cons_self _ _))
    have hs1 : (ReadStringParser.mk p.pending it.item st).sound :=
      ⟨fun h => absurd h hst, fun _ => hnz⟩
    obtain ⟨p1, hp1, hsound, hpend⟩ := ih ⟨p.pending, it.item, st⟩ hs1
      (fun it2 h2 => hw it2 (List.mem_cons_of_mem _ h2))
    refine ⟨p1, ?_, hsound, ?_⟩
    · simp only [List.flatMap_cons, read_feed_append, hfeed, hp1]
    · rw [hpend]
      simp [ReadStringParser.pending, hst]

/-- Claim C21: for every sequence of unnamed items of the forms `T`, `T*M`, `S#N`,
`S#N*M`, `I`, `I*M`, the unnamed-item parser returns exactly one `DataItem`
per item, in order, with the type of the keyword and an empty `typeName` (for
an identifier: `typeName = I` and the undefined type), size `N` (0 without
`#`) and count `M` (1 without `*`). -/
theorem parse_read_items (items : List ReadItem) (hw : ∀ it ∈ items, it.wf) :
    parse_read_tokens (items.flatMap ReadItem.tokens) = .ok (items.map ReadItem.item) := by
  have h0 : (ReadStringParser.new []).sound :=
    ⟨fun _ => rfl, fun h => absurd rfl h⟩
  obtain ⟨p1, hfeed, hsound, hpend⟩ := read_feed_items items (ReadStringParser.new []) h0 hw
  simp only [parse_read_tokens, hfeed, read_complete_sound p1 hsound, hpend]
  simp [ReadStringParser.pending, ReadStringParser.new]

/-- Witness of C21: the descriptor `"str#3 str#32*8"`. -/
theorem parse_read_items_witness :
    (∀ it ∈ items_str, it.wf) ∧
    parse_read_tokens [tok_type .STRING, tok_fixed "#3", tok_type .STRING, tok_fixed "#32",
        tok_array "*8"] = .ok [⟨.STRING, 3, 1, ""⟩, ⟨.STRING, 32, 8, ""⟩] := by
  have hw : ∀ it ∈ items_str, it.wf := by
    intro it hit
    simp only [items_str, List.mem_cons, List.mem_singleton, List.not_mem_nil, or_false] at hit
    rcases hit with rfl | rfl
    · exact ⟨⟨Or.inl rfl, rfl, fun h => absurd h (by decide)⟩, trivial⟩
    · exact ⟨⟨Or.inl rfl, rfl, fun h => absurd h (by decide)⟩, rfl⟩
  exact ⟨hw, parse_read_items items_str hw⟩

/-! ### Descriptor parser: named fields -/

theorem fields_feed_append (toks1 toks2 : List Token) : ∀ p : FieldsParser,
    p.feed (toks1 ++ toks2) =
      match p.feed toks1 with
      | .error e => .error e
      | .ok p1 => p1.feed toks2 := by
  induction toks1 with
  | nil => intro p; rfl
  | cons t rest ih =>
    intro p
    simp only [List.cons_append, FieldsParser.feed]
    cases p.on_token t with
    | error e => rfl
    | ok p1 => exact ih p1

theorem fields_on_type (fs : FieldList) (t : DataType) (ht : t ≠ .MAX_TYPE) :
    (FieldsParser.mk fs clear_field .Initial).on_token (tok_type t) =
      .ok ⟨fs, ⟨⟨t, 0, 1, ""⟩, ""⟩, .Type_⟩ := by
  have hr := type_num_range t ht
  simp only [FieldsParser.on_token, tok_type, if_neg hr.1, if_pos hr.2,
    FieldsParser.push_type, FieldsParser.complete_void, type_of_num_type_num]
  simp [clear_field, clear_data_item]

theorem fields_on_ident (fs : FieldList) (name : String) :
    (FieldsParser.mk fs clear_field .Initial).on_token (tok_ident name) =
      .ok ⟨fs, ⟨⟨.UNDEFINED_TYPE, 0, 1, name⟩, ""⟩, .Type_⟩ := by
  simp [FieldsParser.on_token, tok_ident, FieldsParser.push_identifier,
    FieldsParser.complete_void, clear_field, clear_data_item, IDENTIFIER, UNDEFINED_TYPE_NUM,
    MAX_TYPE_NUM, MAX_LITERAL]

theorem fields_on_fixed (fs : FieldList) (cur : Field) (n : NumSuffix) (hn : n.wf)
    (hs : cur.type = .STRING ∨ cur.type = .WSTRING ∨ cur.type = .VOID) :
    (FieldsParser.mk fs cur .Type_).on_token (tok_fixed n.text) =
      .ok ⟨fs, { cur with size := n.value }, .FixedLength⟩ := by
  have hnot : ¬ (cur.type ≠ .STRING ∧ cur.type ≠ .WSTRING ∧ cur.type ≠ .VOID) := by
    rintro ⟨h1, h2, h3⟩
    rcases hs with h | h | h
    · exact h1 h
    · exact h2 h
    · exact h3 h
  simp only [NumSuffix.wf] at hn
  simp [FieldsParser.on_token, tok_fixed, FieldsParser.push_value, hnot, hn,
    FIXED_LENGTH, UNDEFINED_TYPE_NUM, MAX_TYPE_NUM, MAX_LITERAL, IDENTIFIER]

theorem fields_on_array (fs : FieldList) (cur : Field) (st : FState) (m : NumSuffix)
    (hm : m.wf) (hst : st = .Type_ ∨ st = .FixedLength) :
    (FieldsParser.mk fs cur st).on_token (tok_array m.text) =
      .ok ⟨fs, { cur with count := m.value }, .ArraySize⟩ := by
  have hnot : ¬ (st ≠ .Type_ ∧ st ≠ .FixedLength) := by
    rintro ⟨h1, h2⟩
    rcases hst with h | h
    · exact h1 h
    · exact h2 h
  simp only [NumSuffix.wf] at hm
  simp [FieldsParser.on_token, tok_array, FieldsParser.push_value, hnot, hm,
    ARRAY_SIZE, FIXED_LENGTH, UNDEFINED_TYPE_NUM, MAX_TYPE_NUM, MAX_LITERAL, IDENTIFIER]

theorem fields_on_colon (fs : FieldList) (cur : Field) (st : FState)
    (hst : st = .Type_ ∨ st = .FixedLength ∨ st = .ArraySize) :
    (FieldsParser.mk fs cur st).on_token tok_colon = .ok ⟨fs, cur, .Colon⟩ := by
  have hnot : ¬ (st ≠ .Type_ ∧ st ≠ .FixedLength ∧ st ≠ .ArraySize) := by
    rintro ⟨h1, h2, h3⟩
    rcases hst with h | h | h
    · exact h1 h
    · exact h2 h
    · exact h3 h
  simp [FieldsParser.on_token, tok_colon, FieldsParser.push_symbol, hnot, UNDEFINED_TYPE_NUM]

theorem fields_on_name (fs : FieldList) (cur : Field) (name : String) (hv : cur.type ≠ .VOID)
    (hname : name ≠ "") :
    (FieldsParser.mk fs cur .Colon).on_token (tok_ident name) =
      .ok ⟨fs ++ [{ cur with name := name }], clear_field, .Initial⟩ := by
  simp [FieldsParser.on_token, tok_ident, FieldsParser.push_identifier,
    FieldsParser.complete_void, FieldsParser.complete, hv, hname, IDENTIFIER,
    UNDEFINED_TYPE_NUM, MAX_TYPE_NUM, MAX_LITERAL]

theorem fields_feed_item (fs : FieldList) (it : NamedItem) (hw : it.wf) :
    (FieldsParser.mk fs clear_field .Initial).feed it.tokens =
      .ok ⟨fs ++ [it.field], clear_field, .Initial⟩ := by
  obtain ⟨head, count, name⟩ := it
  obtain ⟨hh, hc, hname⟩ := hw
  simp only at hname
  cases head with
  | keyword t =>
    simp only at hh
    have ht : t ≠ .MAX_TYPE := by
      rcases hh with h | h | h | h | h | h | h | h | h | h <;> rw [h] <;> decide
    have hv : t ≠ .VOID := by
      rcases hh with h | h | h | h | h | h | h | h | h | h <;> rw [h] <;> decide
    cases count with
    | none =>
      simp [NamedItem.tokens, ItemHead.tokens, count_tokens, FieldsParser.feed,
        fields_on_type fs t ht, fields_on_colon, fields_on_name, hv, hname, NamedItem.field,
        count_value]
    | some m =>
      simp only at hc
      simp [NamedItem.tokens, ItemHead.tokens, count_tokens, FieldsParser.feed,
        fields_on_type fs t ht, fields_on_array, fields_on_colon, fields_on_name, hv, hname,
        hc, NamedItem.field, count_value]
  | sized s n =>
    simp only at hh
    obtain ⟨hs, hn⟩ := hh
    have ht : s ≠ .MAX_TYPE := by
      rcases hs with h | h <;> rw [h] <;> decide
    have hv : s ≠ .VOID := by
      rcases hs with h | h <;> rw [h] <;> decide
    have hs3 : s = .STRING ∨ s = .WSTRING ∨ s = .VOID := by
      rcases hs with h | h
      · exact Or.inl h
      · exact Or.inr (Or.inl h)
    have hfix := fields_on_fixed fs ⟨⟨s, 0, 1, ""⟩, ""⟩ n hn hs3
    cases count with
    | none =>
      simp [NamedItem.tokens, ItemHead.tokens, count_tokens, FieldsParser.feed,
        fields_on_type fs s ht, hfix, fields_on_colon, fields_on_name, hv, hname,
        NamedItem.field, count_value]
    | some m =>
      simp only at hc
      simp [NamedItem.tokens, ItemHead.tokens, count_tokens, FieldsParser.feed,
        fields_on_type fs s ht, hfix, fields_on_array, fields_on_colon, fields_on_name, hv,
        hname, hc, NamedItem.field, count_value]
  | ident tname =>
    cases count with
    | none =>
      simp [NamedItem.tokens, ItemHead.tokens, count_tokens, FieldsParser.feed,
        fields_on_ident fs tname, fields_on_colon, fields_on_name, hname, NamedItem.field,
        count_value]
    | some m =>
      simp only at hc
      simp [NamedItem.tokens, ItemHead.tokens, count_tokens, FieldsParser.feed,
        fields_on_ident fs tname, fields_on_array, fields_on_colon, fields_on_name, hname, hc,
        NamedItem.field, count_value]

theorem fields_feed_items : ∀ (items : List NamedItem) (fs : FieldList),
    (∀ it ∈ items, it.wf) →
    (FieldsParser.mk fs clear_field .Initial).feed (items.flatMap NamedItem.tokens) =
      .ok ⟨fs ++ items.map NamedItem.field, clear_field, .Initial⟩ := by
  intro items
  induction items with
  | nil => intro fs _; simp [FieldsParser.feed]
  | cons it rest ih =>
    intro fs hw
    simp only [List.flatMap_cons, fields_feed_append,
      fields_feed_item fs it (hw it (List.mem_cons_self _ _)),
      ih _ (fun it2 h2 => hw it2 (List.mem_cons_of_mem _ h2))]
    simp

/-- Claim C22: for every sequence of named items of the forms `T:name`, `T*M:name`,
`S#N:name`, `S#N*M:name`, `I:name`, `I*M:name`, `parse_fields_str` returns
and has appended exactly one `Field` per item, in order, with the type of the
keyword (or `typeName = I`), size `N` (0 without `#`), count `M` (1 without
`*`) and the name. -/
theorem parse_fields_items (items : List NamedItem) (fields : FieldList)
    (hw : ∀ it ∈ items, it.wf) :
    parse_fields_tokens (items.flatMap NamedItem.tokens) fields =
      .ok (fields ++ items.map NamedItem.field) := by
  have h := fields_feed_items items fields hw
  simp only [FieldsParser.new, parse_fields_tokens, h, FieldsParser.complete]
  simp

/-- Witness of C22: the declaration `"u8:a1 one*4:a2"`. -/
theorem parse_fields_items_witness :
    (∀ it ∈ items_named, it.wf) ∧
    parse_fields_tokens [tok_type .U8, tok_colon, tok_ident "a1", tok_ident "one",
        tok_array "*4", tok_colon, tok_ident "a2"] [] =
      .ok [⟨⟨.U8, 0, 1, ""⟩, "a1"⟩, ⟨⟨.UNDEFINED_TYPE, 0, 4, "one"⟩, "a2"⟩] := by
  have hw : ∀ it ∈ items_named, it.wf := by
    intro it hit
    simp only [items_named, List.mem_cons, List.mem_singleton, List.not_mem_nil,
      or_false] at hit
    rcases hit with rfl | rfl
    · exact ⟨Or.inl rfl, trivial, by decide⟩
    · exact ⟨trivial, rfl, by decide⟩
  exact ⟨hw, parse_fields_items items_named [] hw⟩

theorem fields_complete_ok (p p1 : FieldsParser) (h : p.complete = .ok p1) :
    (p.m_state = .Initial ∧ p1 = p) ∨ (p1.m_state = .Initial ∧ p1.m_current = clear_field) := by
  simp only [FieldsParser.complete] at h
  split_ifs at h with h0 <;> first
    | (left; cases h; exact ⟨h0, rfl⟩)
    | (right; cases h; exact ⟨rfl, rfl⟩)

theorem fields_complete_void_ok (p p1 : FieldsParser) (h : p.complete_void = .ok p1) :
    p1 = p ∨ (p1.m_state = .Initial ∧ p1.m_current = clear_field) := by
  simp only [FieldsParser.complete_void] at h
  split_ifs at h
  · rcases fields_complete_ok p p1 h with ⟨_, h1⟩ | h1
    · exact Or.inl h1
    · exact Or.inr h1
  · left; cases h; rfl

theorem fields_on_token_sound (p p1 : FieldsParser) (tok : Token) (_hp : p.sound)
    (h : p.on_token tok = .ok p1) : p1.sound := by
  simp only [FieldsParser.on_token] at h
  split_ifs at h with h1 h2 h3 h4
  · simp only [FieldsParser.push_symbol] at h
    split_ifs at h
    cases h
    exact ⟨fun hc => by simp at hc, by simp⟩
  · simp only [FieldsParser.push_type] at h
    cases hcv : p.complete_void with
    | error e => rw [hcv] at h; cases h
    | ok q =>
      rw [hcv] at h
      simp only at h
      split_ifs at h
      cases h
      exact ⟨fun hc => by simp at hc, by simp⟩
  · simp only [FieldsParser.push_identifier] at h
    cases hcv : p.complete_void with
    | error e => rw [hcv] at h; cases h
    | ok q =>
      rw [hcv] at h
      simp only at h
      split_ifs at h
      · cases h
        exact ⟨fun hc => by simp at hc, by simp⟩
      · rcases fields_complete_ok _ _ h with ⟨hs, _⟩ | ⟨hs, hc⟩
        · simp at hs
        · exact ⟨fun _ => hc, by rw [hs]; decide⟩
  · simp only [FieldsParser.push_value] at h
    split_ifs at h
    · cases hx : extract_num tok.str with
      | error e => rw [hx] at h; cases h
      | ok v =>
        rw [hx] at h
        cases h
        exact ⟨fun hc => by simp at hc, by simp⟩
    · cases hx : extract_num tok.str with
      | error e => rw [hx] at h; cases h
      | ok v =>
        rw [hx] at h
        cases h
        exact ⟨fun hc => by simp at hc, by simp⟩
    · cases h
      exact ⟨fun hc => by simp at hc, by simp⟩

theorem fields_feed_sound : ∀ (toks : List Token) (p p1 : FieldsParser), p.sound →
    p.feed toks = .ok p1 → p1.sound := by
  intro toks
  induction toks with
  | nil => intro p p1 hp h; cases h; exact hp
  | cons t rest ih =>
    intro p p1 hp h
    simp only [FieldsParser.feed] at h
    cases ht : p.on_token t with
    | error e => rw [ht] at h; cases h
    | ok q =>
      rw [ht] at h
      exact ih q p1 (fields_on_token_sound p q t hp ht) h

theorem fields_new_sound (fields : FieldList) : (FieldsParser.new fields).sound :=
  ⟨fun _ => rfl, by simp [FieldsParser.new]⟩

theorem parse_fields_split (pre rest : List Token) (fields : FieldList) (p : FieldsParser)
    (hpre : (FieldsParser.new fields).feed pre = .ok p) :
    parse_fields_tokens (pre ++ rest) fields =
      match p.feed rest with
      | .error e => .error e
      | .ok q =>
        match q.complete with
        | .error e => .error e
        | .ok q1 => .ok q1.m_fields := by
  simp only [parse_fields_tokens, fields_feed_append, hpre]

/-- Claim C23: `parse_fields_str` rejects a declaration in which a non-void item
is not named: the item is open (some tokens of it were accepted, no non-empty
name after a `:` yet) and the input ends, or the next token starts a new item
(a type keyword, a function marker, an identifier that is not the name after
the `:`), or the name after the `:` is empty. -/
theorem fields_unnamed_item_rejected (fields : FieldList) (pre rest : List Token)
    (p : FieldsParser) (hpre : (FieldsParser.new fields).feed pre = .ok p)
    (hopen : p.m_state ≠ .Initial) (hnv : p.m_current.type ≠ .VOID)
    (hnext : rest = [] ∨ ∃ tok tl, rest = tok :: tl ∧
      (tok.is_type ∨ tok.is_func ∨ (tok.is_ident ∧ (p.m_state ≠ .Colon ∨ tok.str = "")))) :
    ∃ e, parse_fields_tokens (pre ++ rest) fields = .error e := by
  have hs := fields_feed_sound pre _ p (fields_new_sound fields) hpre
  rw [parse_fields_split pre rest fields p hpre]
  rcases hnext with rfl | ⟨tok, tl, rfl, hk⟩
  · simp [FieldsParser.feed, FieldsParser.complete, hopen, hnv, hs.2]
  · have herr : ∃ e, p.on_token tok = .error e := by
      rcases hk with hk | hk | ⟨hk, hc⟩
      · obtain ⟨h1, h2⟩ := hk
        simp [FieldsParser.on_token, not_lt.mpr h1, h2, FieldsParser.push_type,
          FieldsParser.complete_void, hnv, hopen]
      · simp only [Token.is_func] at hk
        simp [FieldsParser.on_token, hk, FieldsParser.push_value, hopen, FUNC_CONSTANT,
          UNDEFINED_TYPE_NUM, MAX_TYPE_NUM, MAX_LITERAL, IDENTIFIER, FIXED_LENGTH, ARRAY_SIZE]
      · simp only [Token.is_ident] at hk
        by_cases hcol : p.m_state = .Colon
        · have hstr : tok.str = "" := by
            rcases hc with hc | hc
            · exact absurd hcol hc
            · exact hc
          simp [FieldsParser.on_token, hk, FieldsParser.push_identifier,
            FieldsParser.complete_void, hnv, hcol, FieldsParser.complete, hstr, IDENTIFIER,
            UNDEFINED_TYPE_NUM, MAX_TYPE_NUM, MAX_LITERAL]
        · simp [FieldsParser.on_token, hk, FieldsParser.push_identifier,
            FieldsParser.complete_void, hnv, hcol, hopen, IDENTIFIER,
            UNDEFINED_TYPE_NUM, MAX_TYPE_NUM, MAX_LITERAL]
    obtain ⟨e, he⟩ := herr
    exact ⟨e, by simp [FieldsParser.feed, he]⟩

/-- Witness of C23: the declaration `"u8 u16:a"`. -/
theorem fields_unnamed_item_rejected_witness :
    ∃ e, parse_fields_tokens ([tok_type .U8] ++ [tok_type .U16, tok_colon, tok_ident "a"]) [] =
      .error e :=
  fields_unnamed_item_rejected [] [tok_type .U8] [tok_type .U16, tok_colon, tok_ident "a"]
    ⟨[], ⟨⟨.U8, 0, 1, ""⟩, ""⟩, .Type_⟩ rfl (by decide) (by decide)
    (Or.inr ⟨tok_type .U16, [tok_colon, tok_ident "a"], rfl,
      Or.inl (by unfold Token.is_type; decide)⟩)

theorem fields_flush (p : FieldsParser) (h : p.flushable) :
    p.complete = .ok ⟨p.pending, clear_field, .Initial⟩ ∧
      p.complete_void = .ok ⟨p.pending, clear_field, .Initial⟩ := by
  obtain ⟨fs, cur, st⟩ := p
  rcases h with ⟨hs, hc⟩ | ⟨hv, hs, hz⟩
  · simp only at hs hc
    subst hs
    subst hc
    simp [FieldsParser.complete, FieldsParser.complete_void, FieldsParser.pending,
      clear_field, clear_data_item]
  · simp only at hv hs hz
    rcases hs with rfl | rfl <;>
      simp [FieldsParser.complete, FieldsParser.complete_void, FieldsParser.pending, hv, hz]

theorem fields_feed_void (p : FieldsParser) (hp : p.flushable) (it : VoidItem) (hw : it.wf) :
    ∃ st, (st = FState.FixedLength ∨ st = FState.ArraySize) ∧
      p.feed it.tokens = .ok ⟨p.pending, it.field, st⟩ := by
  obtain ⟨size, count⟩ := it
  obtain ⟨hn, hpos, hc⟩ := hw
  simp only at hn hpos hc
  have htype : p.on_token (tok_type .VOID) = .ok ⟨p.pending, ⟨⟨.VOID, 0, 1, ""⟩, ""⟩, .Type_⟩ := by
    have hr := type_num_range .VOID (by decide)
    simp only [FieldsParser.on_token, tok_type, if_neg hr.1, if_pos hr.2,
      FieldsParser.push_type, (fields_flush p hp).2, type_of_num_type_num]
    simp [clear_field, clear_data_item]
  have hfix := fields_on_fixed p.pending ⟨⟨.VOID, 0, 1, ""⟩, ""⟩ size hn (Or.inr (Or.inr rfl))
  cases count with
  | none =>
    refine ⟨.FixedLength, Or.inl rfl, ?_⟩
    simp [VoidItem.tokens, count_tokens, FieldsParser.feed, htype, hfix, VoidItem.field,
      count_value]
  | some m =>
    refine ⟨.ArraySize, Or.inr rfl, ?_⟩
    simp only at hc
    simp [VoidItem.tokens, count_tokens, FieldsParser.feed, htype, hfix, fields_on_array, hc,
      VoidItem.field, count_value]

theorem fields_feed_voids : ∀ (items : List VoidItem) (p : FieldsParser), p.flushable →
    (∀ it ∈ items, it.wf) →
    ∃ p1, p.feed (items.flatMap VoidItem.tokens) = .ok p1 ∧ p1.flushable ∧
      p1.pending = p.pending ++ items.map VoidItem.field := by
  intro items
  induction items with
  | nil => intro p hp _; exact ⟨p, rfl, hp, by simp⟩
  | cons it rest ih =>
    intro p hp hw
    have hwit := hw it (List.mem_cons_self _ _)
    obtain ⟨st, hst, hfeed⟩ := fields_feed_void p hp it hwit
    have hfl : (FieldsParser.mk p.pending it.field st).flushable :=
      Or.inr ⟨rfl, hst, by
        have := hwit.2.1
        simp only [VoidItem.field]
        omega⟩
    obtain ⟨p1, hp1, hflush, hpend⟩ := ih ⟨p.pending, it.field, st⟩ hfl
      (fun it2 h2 => hw it2 (List.mem_cons_of_mem _ h2))
    refine ⟨p1, ?_, hflush, ?_⟩
    · simp only [List.flatMap_cons, fields_feed_append, hfeed, hp1]
    · rw [hpend]
      rcases hst with rfl | rfl <;> simp [FieldsParser.pending]

theorem fields_void_colon_dead (p : FieldsParser) (hs : p.m_state = .Colon)
    (hv : p.m_current.type = .VOID) (rest : List Token) :
    ∃ e, (match p.feed rest with
      | .error e => .error e
      | .ok q =>
        match q.complete with
        | .error e => .error e
        | .ok q1 => .ok q1.m_fields) = (.error e : Except Error FieldList) := by
  cases rest with
  | nil => simp [FieldsParser.feed, FieldsParser.complete, hs, hv]
  | cons tok tl =>
    have herr : ∃ e, p.on_token tok = .error e := by
      simp only [FieldsParser.on_token]
      split_ifs with h1 h2 h3 h4
      · simp only [FieldsParser.push_symbol, hs]
        split_ifs with h5 h6
        · simp
        · simp at h6
        · simp
      · simp [FieldsParser.push_type, FieldsParser.complete_void, hs, hv]
      · simp [FieldsParser.push_identifier, FieldsParser.complete_void, hs, hv,
          FieldsParser.complete]
      · simp only [FieldsParser.push_value, hs]
        split_ifs <;> simp_all
      · simp
    obtain ⟨e, he⟩ := herr
    exact ⟨e, by simp [FieldsParser.feed, he]⟩

/-- Claim C24: in the named-field variant `void#N` and `void#N*M` with `N > 0` are
accepted without a name, each as the field with type `void`, size `N`, count
`M` (1 without `*`), empty `typeName` and empty name; and a declaration in
which a `:` follows a `void` item is rejected, whatever comes after the `:`. -/
theorem fields_void_items (fields : FieldList) :
    (∀ items : List VoidItem, (∀ it ∈ items, it.wf) →
      parse_fields_tokens (items.flatMap VoidItem.tokens) fields =
        .ok (fields ++ items.map VoidItem.field)) ∧
    (∀ (pre rest : List Token) (p : FieldsParser),
      (FieldsParser.new fields).feed pre = .ok p → p.m_state ≠ .Initial →
      p.m_current.type = .VOID →
      ∃ e, parse_fields_tokens (pre ++ tok_colon :: rest) fields = .error e) := by
  refine ⟨fun items hw => ?_, fun pre rest p hpre hopen hv => ?_⟩
  · have h0 : (FieldsParser.new fields).flushable := Or.inl ⟨rfl, rfl⟩
    obtain ⟨p1, hfeed, hfl, hpend⟩ := fields_feed_voids items _ h0 hw
    simp only [parse_fields_tokens, hfeed, (fields_flush p1 hfl).1, hpend]
    simp [FieldsParser.pending, FieldsParser.new]
  · rw [parse_fields_split pre _ fields p hpre]
    simp only [FieldsParser.feed]
    by_cases hst : p.m_state ≠ .Type_ ∧ p.m_state ≠ .FixedLength ∧ p.m_state ≠ .ArraySize
    · simp [FieldsParser.on_token, tok_colon, FieldsParser.push_symbol, hst,
        UNDEFINED_TYPE_NUM]
    · have hcol : p.on_token tok_colon = .ok { p with m_state := .Colon } := by
        simp [FieldsParser.on_token, tok_colon, FieldsParser.push_symbol, hst,
          UNDEFINED_TYPE_NUM]
      rw [hcol]
      exact fields_void_colon_dead { p with m_state := .Colon } rfl hv rest

/-- Witness of C24: `"void#1 void#2*3"` is accepted, `"void#1:aaa"` is rejected. -/
theorem fields_void_items_witness :
    (∀ it ∈ items_void, it.wf) ∧
    parse_fields_tokens [tok_type .VOID, tok_fixed "#1", tok_type .VOID, tok_fixed "#2",
        tok_array "*3"] [] = .ok [⟨⟨.VOID, 1, 1, ""⟩, ""⟩, ⟨⟨.VOID, 2, 3, ""⟩, ""⟩] ∧
    ∃ e, parse_fields_tokens ([tok_type .VOID, tok_fixed "#1"] ++ tok_colon :: [tok_ident "aaa"])
      [] = .error e := by
  have hw : ∀ it ∈ items_void, it.wf := by
    intro it hit
    simp only [items_void, List.mem_cons, List.mem_singleton, List.not_mem_nil, or_false] at hit
    rcases hit with rfl | rfl
    · exact ⟨rfl, by decide, trivial⟩
    · exact ⟨rfl, by decide, rfl⟩
  exact ⟨hw, (fields_void_items []).1 items_void hw,
    (fields_void_items []).2 [tok_type .VOID, tok_fixed "#1"] [tok_ident "aaa"]
      ⟨[], ⟨⟨.VOID, 1, 1, ""⟩, ""⟩, .FixedLength⟩ rfl (by decide) rfl⟩

/-! ### Descriptor parser: rejected suffixes and void items -/

theorem parse_read_split (pre rest : List Token) :
    parse_read_tokens (pre ++ rest) =
      match (ReadStringParser.new []).feed pre with
      | .error e => .error e
      | .ok p =>
        match p.feed rest with
        | .error e => .error e
        | .ok q =>
          match q.complete with
          | .error e => .error e
          | .ok q1 => .ok q1.m_dataItems := by
  simp only [parse_read_tokens, read_feed_append]
  cases (ReadStringParser.new []).feed pre <;> rfl

theorem parse_fields_split2 (pre rest : List Token) (fields : FieldList) :
    parse_fields_tokens (pre ++ rest) fields =
      match (FieldsParser.new fields).feed pre with
      | .error e => .error e
      | .ok p =>
        match p.feed rest with
        | .error e => .error e
        | .ok q =>
          match q.complete with
          | .error e => .error e
          | .ok q1 => .ok q1.m_fields := by
  simp only [parse_fields_tokens, fields_feed_append]
  cases (FieldsParser.new fields).feed pre <;> rfl

theorem read_on_token_open (p p1 : ReadStringParser) (tok : Token)
    (h : p.on_token tok = .ok p1) : p1.m_state ≠ .Initial := by
  simp only [ReadStringParser.on_token] at h
  split_ifs at h with h1 h2 h3 h4
  · simp only [ReadStringParser.push_type] at h
    cases hc : p.complete with
    | error e => rw [hc] at h; cases h
    | ok q =>
      rw [hc] at h
      simp only at h
      split_ifs at h
      cases h
      simp
  · simp only [ReadStringParser.push_identifier] at h
    cases hc : p.complete with
    | error e => rw [hc] at h; cases h
    | ok q =>
      rw [hc] at h
      simp only at h
      split_ifs at h
      cases h
      simp
  · simp only [ReadStringParser.push_value] at h
    split_ifs at h
    · cases hx : extract_num tok.str with
      | error e => rw [hx] at h; cases h
      | ok v => rw [hx] at h; cases h; simp
    · cases hx : extract_num tok.str with
      | error e => rw [hx] at h; cases h
      | ok v => rw [hx] at h; cases h; simp
    · cases h
      simp

theorem read_feed_clean : ∀ (toks : List Token) (p p1 : ReadStringParser), p.clean →
    p.feed toks = .ok p1 → p1.clean := by
  intro toks
  induction toks with
  | nil => intro p p1 hp h; cases h; exact hp
  | cons t rest ih =>
    intro p p1 hp h
    simp only [ReadStringParser.feed] at h
    cases ht : p.on_token t with
    | error e => rw [ht] at h; cases h
    | ok q =>
      rw [ht] at h
      exact ih q p1 (fun hq => absurd hq (read_on_token_open p q t ht)) h

theorem read_complete_clean (p q : ReadStringParser) (hp : p.clean) (h : p.complete = .ok q) :
    q.m_state = .Initial ∧ q.m_current = clear_data_item ∧
      (p.m_state = .Initial → q = p) := by
  simp only [ReadStringParser.complete] at h
  split_ifs at h with h1 h2
  · cases h
    exact ⟨rfl, rfl, fun hc => absurd hc h1⟩
  · cases h
    have h3 : p.m_state = .Initial := by
      by_contra hc
      exact h1 hc
    exact ⟨h3, hp h3, fun _ => rfl⟩

theorem read_fixed_dead (p : ReadStringParser) (fx : Token) (hfx : fx.is_fixed)
    (h : p.m_state ≠ .Type_ ∨
      (p.m_current.type ≠ .STRING ∧ p.m_current.type ≠ .WSTRING ∧ p.m_current.type ≠ .VOID)) :
    ∃ e, p.on_token fx = .error e := by
  simp only [Token.is_fixed] at hfx
  simp only [ReadStringParser.on_token, hfx, ReadStringParser.push_value]
  rcases h with h | h
  · simp [h, FIXED_LENGTH, UNDEFINED_TYPE_NUM, MAX_TYPE_NUM, MAX_LITERAL, IDENTIFIER]
  · by_cases hs : p.m_state ≠ .Type_
    · simp [hs, FIXED_LENGTH, UNDEFINED_TYPE_NUM, MAX_TYPE_NUM, MAX_LITERAL, IDENTIFIER]
    · simp [hs, h, FIXED_LENGTH, UNDEFINED_TYPE_NUM, MAX_TYPE_NUM, MAX_LITERAL, IDENTIFIER]

theorem fields_fixed_dead (p : FieldsParser) (fx : Token) (hfx : fx.is_fixed)
    (h : p.m_state ≠ .Type_ ∨
      (p.m_current.type ≠ .STRING ∧ p.m_current.type ≠ .WSTRING ∧ p.m_current.type ≠ .VOID)) :
    ∃ e, p.on_token fx = .error e := by
  simp only [Token.is_fixed] at hfx
  simp only [FieldsParser.on_token, hfx, FieldsParser.push_value]
  rcases h with h | h
  · simp [h, FIXED_LENGTH, UNDEFINED_TYPE_NUM, MAX_TYPE_NUM, MAX_LITERAL, IDENTIFIER]
  · by_cases hs : p.m_state ≠ .Type_
    · simp [hs, FIXED_LENGTH, UNDEFINED_TYPE_NUM, MAX_TYPE_NUM, MAX_LITERAL, IDENTIFIER]
    · simp [hs, h, FIXED_LENGTH, UNDEFINED_TYPE_NUM, MAX_TYPE_NUM, MAX_LITERAL, IDENTIFIER]

theorem read_after_head (p p1 : ReadStringParser) (tok : Token)
    (htok : (∃ t, numeric_keyword t ∧ tok = tok_type t) ∨ tok.is_ident ∨ tok.is_func)
    (h : p.on_token tok = .ok p1) :
    p1.m_state ≠ .Type_ ∨
      (p1.m_current.type ≠ .STRING ∧ p1.m_current.type ≠ .WSTRING ∧
        p1.m_current.type ≠ .VOID) := by
  rcases htok with ⟨t, ht, rfl⟩ | hk | hk
  · have hmax : t ≠ .MAX_TYPE := by
      rcases ht with h | h | h | h | h | h | h | h <;> rw [h] <;> decide
    have hr := type_num_range t hmax
    simp only [ReadStringParser.on_token, tok_type, if_neg hr.1, if_pos hr.2,
      ReadStringParser.push_type, type_of_num_type_num] at h
    cases hc : p.complete with
    | error e => rw [hc] at h; cases h
    | ok q =>
      rw [hc] at h
      simp only at h
      split_ifs at h
      cases h
      right
      rcases ht with h | h | h | h | h | h | h | h <;> rw [h] <;> simp
  · simp only [Token.is_ident] at hk
    simp only [ReadStringParser.on_token, hk, ReadStringParser.push_identifier] at h
    simp only [IDENTIFIER, UNDEFINED_TYPE_NUM, MAX_TYPE_NUM, MAX_LITERAL] at h
    norm_num at h
    cases hc : p.complete with
    | error e => rw [hc] at h; cases h
    | ok q =>
      rw [hc] at h
      simp only at h
      split_ifs at h
      cases h
      left
      simp
  · simp only [Token.is_func] at hk
    simp only [ReadStringParser.on_token, hk, ReadStringParser.push_value] at h
    simp only [FUNC_CONSTANT, IDENTIFIER, UNDEFINED_TYPE_NUM, MAX_TYPE_NUM, MAX_LITERAL,
      FIXED_LENGTH, ARRAY_SIZE] at h
    norm_num at h
    split_ifs at h
    cases h
    right
    simp

theorem fields_after_head (p p1 : FieldsParser) (tok : Token) (hp : p.sound)
    (htok : (∃ t, numeric_keyword t ∧ tok = tok_type t) ∨ tok.is_ident ∨ tok.is_func)
    (h : p.on_token tok = .ok p1) :
    p1.m_state ≠ .Type_ ∨
      (p1.m_current.type ≠ .STRING ∧ p1.m_current.type ≠ .WSTRING ∧
        p1.m_current.type ≠ .VOID) := by
  rcases htok with ⟨t, ht, rfl⟩ | hk | hk
  · have hmax : t ≠ .MAX_TYPE := by
      rcases ht with h | h | h | h | h | h | h | h <;> rw [h] <;> decide
    have hr := type_num_range t hmax
    simp only [FieldsParser.on_token, tok_type, if_neg hr.1, if_pos hr.2,
      FieldsParser.push_type, type_of_num_type_num] at h
    cases hc : p.complete_void with
    | error e => rw [hc] at h; cases h
    | ok q =>
      rw [hc] at h
      simp only at h
      split_ifs at h
      cases h
      right
      rcases ht with h | h | h | h | h | h | h | h <;> rw [h] <;> simp
  · simp only [Token.is_ident] at hk
    simp only [FieldsParser.on_token, hk, FieldsParser.push_identifier] at h
    simp only [IDENTIFIER, UNDEFINED_TYPE_NUM, MAX_TYPE_NUM, MAX_LITERAL] at h
    norm_num at h
    cases hc : p.complete_void with
    | error e => rw [hc] at h; cases h
    | ok q =>
      rw [hc] at h
      simp only at h
      have hq : q.m_state = .Initial → q.m_current = clear_field := by
        rcases fields_complete_void_ok p q hc with rfl | ⟨_, h2⟩
        · exact hp.1
        · exact fun _ => h2
      split_ifs at h with h1 h2
      · cases h
        right
        simp [hq h1, clear_field, clear_data_item]
      · rcases fields_complete_ok _ _ h with ⟨hs, _⟩ | ⟨hs, _⟩
        · simp at hs
        · left
          rw [hs]
          decide
  · simp only [Token.is_func] at hk
    simp only [FieldsParser.on_token, hk, FieldsParser.push_value] at h
    simp only [FUNC_CONSTANT, IDENTIFIER, UNDEFINED_TYPE_NUM, MAX_TYPE_NUM, MAX_LITERAL,
      FIXED_LENGTH, ARRAY_SIZE] at h
    norm_num at h
    split_ifs at h
    cases h
    right
    simp

/-- Claim C25: in both parser variants a token sequence in which a fixed-length
token `#N` directly follows an integer or float keyword, an identifier or a
function marker is rejected. -/
theorem fixed_length_rejected (pre rest : List Token) (tok fx : Token) (hfx : fx.is_fixed)
    (htok : (∃ t, numeric_keyword t ∧ tok = tok_type t) ∨ tok.is_ident ∨ tok.is_func) :
    (∃ e, parse_read_tokens (pre ++ tok :: fx :: rest) = .error e) ∧
    (∀ fields, ∃ e, parse_fields_tokens (pre ++ tok :: fx :: rest) fields = .error e) := by
  refine ⟨?_, fun fields => ?_⟩
  · rw [parse_read_split]
    cases hpre : (ReadStringParser.new []).feed pre with
    | error e => exact ⟨e, rfl⟩
    | ok p =>
      simp only [ReadStringParser.feed]
      cases h1 : p.on_token tok with
      | error e => exact ⟨e, rfl⟩
      | ok p1 =>
        obtain ⟨e, he⟩ := read_fixed_dead p1 fx hfx (read_after_head p p1 tok htok h1)
        exact ⟨e, by simp [he]⟩
  · rw [parse_fields_split2]
    cases hpre : (FieldsParser.new fields).feed pre with
    | error e => exact ⟨e, rfl⟩
    | ok p =>
      have hp := fields_feed_sound pre _ p (fields_new_sound fields) hpre
      simp only [FieldsParser.feed]
      cases h1 : p.on_token tok with
      | error e => exact ⟨e, rfl⟩
      | ok p1 =>
        obtain ⟨e, he⟩ := fields_fixed_dead p1 fx hfx (fields_after_head p p1 tok hp htok h1)
        exact ⟨e, by simp [he]⟩

/-- Witness of C25: the descriptors `"u8#3:a"` and `"@f2#2:aaa"`. -/
theorem fixed_length_rejected_witness :
    (∃ e, parse_fields_tokens ([] ++ tok_type .U8 :: tok_fixed "#3" ::
      [tok_colon, tok_ident "a"]) [] = .error e) ∧
    (∃ e, parse_read_tokens ([] ++ tok_func "@f2" :: tok_fixed "#2" ::
      [tok_colon, tok_ident "aaa"]) = .error e) :=
  ⟨(fixed_length_rejected [] [tok_colon, tok_ident "a"] (tok_type .U8) (tok_fixed "#3") rfl
      (Or.inl ⟨.U8, Or.inl rfl, rfl⟩)).2 [],
    (fixed_length_rejected [] [tok_colon, tok_ident "aaa"] (tok_func "@f2") (tok_fixed "#2") rfl
      (Or.inr (Or.inr rfl))).1⟩

theorem read_zero_void_dead (p : ReadStringParser) (hv : p.m_current.type = .VOID)
    (hz : p.m_current.size = 0) (hs : p.m_state ≠ .Initial) (rest : List Token)
    (hrest : item_ends rest) :
    ∃ e, (match p.feed rest with
      | .error e => .error e
      | .ok q =>
        match q.complete with
        | .error e => .error e
        | .ok q1 => .ok q1.m_dataItems) = (.error e : Except Error (List DataItem)) := by
  have hcomp : p.complete = .error (.brie "Parser: invalid state") := by
    simp [ReadStringParser.complete, hs, hv, hz]
  rcases hrest with rfl | ⟨tok, tl, rfl, hnf, hna⟩
  · simp [ReadStringParser.feed, hcomp]
  · have herr : ∃ e, p.on_token tok = .error e := by
      simp only [Token.is_fixed, Token.is_array] at hnf hna
      simp only [ReadStringParser.on_token]
      split_ifs with h1 h2 h3 h4
      · simp
      · simp [ReadStringParser.push_type, hcomp]
      · simp [ReadStringParser.push_identifier, hcomp]
      · simp only [ReadStringParser.push_value, if_neg hnf, if_neg hna]
        split_ifs <;> simp_all
      · simp
    obtain ⟨e, he⟩ := herr
    exact ⟨e, by simp [ReadStringParser.feed, he]⟩

theorem fields_zero_void_dead (p : FieldsParser) (hv : p.m_current.type = .VOID)
    (hz : p.m_current.size = 0)
    (hs : p.m_state = .Type_ ∨ p.m_state = .FixedLength ∨ p.m_state = .ArraySize)
    (rest : List Token) (hrest : item_ends rest) :
    ∃ e, (match p.feed rest with
      | .error e => .error e
      | .ok q =>
        match q.complete with
        | .error e => .error e
        | .ok q1 => .ok q1.m_fields) = (.error e : Except Error FieldList) := by
  have hcomp : ∃ e, p.complete = .error e := by
    rcases hs with h | h | h <;> simp [FieldsParser.complete, h, hv, hz]
  have hni : p.m_state ≠ .Initial := by
    rcases hs with h | h | h <;> rw [h] <;> decide
  have hnc : p.m_state ≠ .Colon := by
    rcases hs with h | h | h <;> rw [h] <;> decide
  rcases hrest with rfl | ⟨tok, tl, rfl, hnf, hna⟩
  · obtain ⟨e, he⟩ := hcomp
    exact ⟨e, by simp [FieldsParser.feed, he]⟩
  · simp only [Token.is_fixed, Token.is_array] at hnf hna
    simp only [FieldsParser.feed, FieldsParser.on_token]
    split_ifs with h1 h2 h3 h4
    · simp only [FieldsParser.push_symbol]
      split_ifs with h5 h6
      · simp
      · exact fields_void_colon_dead { p with m_state := .Colon } rfl hv tl
      · simp
    · have : ∃ e, p.push_type (type_of_num tok.num) = .error e := by
        obtain ⟨e, he⟩ := hcomp
        simp only [FieldsParser.push_type, FieldsParser.complete_void]
        split_ifs
        · simp [he]
        · simp [hni]
      obtain ⟨e, he⟩ := this
      exact ⟨e, by simp [he]⟩
    · have : ∃ e, p.push_identifier tok.str = .error e := by
        obtain ⟨e, he⟩ := hcomp
        simp only [FieldsParser.push_identifier, FieldsParser.complete_void]
        split_ifs
        · simp [he]
        · simp [hni, hnc]
      obtain ⟨e, he⟩ := this
      exact ⟨e, by simp [he]⟩
    · have : ∃ e, p.push_value tok.num tok.str = .error e := by
        simp only [FieldsParser.push_value, if_neg hnf, if_neg hna]
        split_ifs <;> simp_all
      obtain ⟨e, he⟩ := this
      exact ⟨e, by simp [he]⟩
    · simp

theorem read_on_void (p : ReadStringParser) (hp : p.clean) :
    (∃ e, p.on_token (tok_type .VOID) = .error e) ∨
      ∃ ds, p.on_token (tok_type .VOID) = .ok ⟨ds, ⟨.VOID, 0, 1, ""⟩, .Type_⟩ := by
  have hr := type_num_range .VOID (by decide)
  simp only [ReadStringParser.on_token, tok_type, if_neg hr.1, if_pos hr.2,
    ReadStringParser.push_type, type_of_num_type_num]
  cases hc : p.complete with
  | error e => exact Or.inl ⟨e, rfl⟩
  | ok q =>
    obtain ⟨h1, h2, _⟩ := read_complete_clean p q hp hc
    right
    refine ⟨q.m_dataItems, ?_⟩
    simp [h1, h2, clear_data_item]

theorem fields_on_void (p : FieldsParser) (hp : p.sound) :
    (∃ e, p.on_token (tok_type .VOID) = .error e) ∨
      ∃ fs, p.on_token (tok_type .VOID) = .ok ⟨fs, ⟨⟨.VOID, 0, 1, ""⟩, ""⟩, .Type_⟩ := by
  have hr := type_num_range .VOID (by decide)
  simp only [FieldsParser.on_token, tok_type, if_neg hr.1, if_pos hr.2,
    FieldsParser.push_type, type_of_num_type_num]
  cases hc : p.complete_void with
  | error e => exact Or.inl ⟨e, rfl⟩
  | ok q =>
    have hq : q.m_state = .Initial → q.m_current = clear_field := by
      rcases fields_complete_void_ok p q hc with rfl | ⟨_, h2⟩
      · exact hp.1
      · exact fun _ => h2
    by_cases hs : q.m_state = .Initial
    · right
      refine ⟨q.m_fields, ?_⟩
      simp [hs, hq hs, clear_field, clear_data_item]
    · left
      simp [hs]

/-- Claim C26: in both parser variants a token sequence that contains a `void`
item whose declared size is zero when the item ends (`void`, `void*M`,
`void#0`, `void#0*M`) is rejected. -/
theorem zero_void_rejected (pre rest : List Token) (z : ZeroVoid) (hz : z.wf)
    (hrest : item_ends rest) :
    (∃ e, parse_read_tokens (pre ++ (z.tokens ++ rest)) = .error e) ∧
    (∀ fields, ∃ e, parse_fields_tokens (pre ++ (z.tokens ++ rest)) fields = .error e) := by
  obtain ⟨size, count⟩ := z
  obtain ⟨hsz, hcn⟩ := hz
  simp only at hsz hcn
  refine ⟨?_, fun fields => ?_⟩
  · rw [parse_read_split]
    cases hpre : (ReadStringParser.new []).feed pre with
    | error e => exact ⟨e, rfl⟩
    | ok p =>
      have hp := read_feed_clean pre _ p (fun _ => rfl) hpre
      simp only [ZeroVoid.tokens, List.append_assoc, List.singleton_append,
        ReadStringParser.feed]
      rcases read_on_void p hp with ⟨e, he⟩ | ⟨ds, hok⟩
      · exact ⟨e, by simp [he]⟩
      · rw [hok]
        simp only [read_feed_append]
        cases size with
        | none =>
          cases count with
          | none =>
            simp only [size_tokens, count_tokens, ReadStringParser.feed]
            exact read_zero_void_dead _ rfl rfl (by simp) rest hrest
          | some m =>
            simp only [size_tokens, count_tokens, ReadStringParser.feed,
              read_on_array ds _ _ m hcn (Or.inl rfl)]
            exact read_zero_void_dead _ rfl rfl (by simp) rest hrest
        | some n =>
          have hfix := read_on_fixed ds ⟨.VOID, 0, 1, ""⟩ n hsz.1 (Or.inr (Or.inr rfl))
          cases count with
          | none =>
            simp only [size_tokens, count_tokens, ReadStringParser.feed, hfix]
            exact read_zero_void_dead _ rfl hsz.2 (by simp) rest hrest
          | some m =>
            simp only [size_tokens, count_tokens, ReadStringParser.feed, hfix,
              read_on_array ds _ _ m hcn (Or.inr (Or.inl rfl))]
            exact read_zero_void_dead _ rfl hsz.2 (by simp) rest hrest
  · rw [parse_fields_split2]
    cases hpre : (FieldsParser.new fields).feed pre with
    | error e => exact ⟨e, rfl⟩
    | ok p =>
      have hp := fields_feed_sound pre _ p (fields_new_sound fields) hpre
      simp only [ZeroVoid.tokens, List.append_assoc, List.singleton_append,
        FieldsParser.feed]
      rcases fields_on_void p hp with ⟨e, he⟩ | ⟨fs, hok⟩
      · exact ⟨e, by simp [he]⟩
      · rw [hok]
        simp only [fields_feed_append]
        cases size with
        | none =>
          cases count with
          | none =>
            simp only [size_tokens, count_tokens, FieldsParser.feed]
            exact fields_zero_void_dead _ rfl rfl (Or.inl rfl) rest hrest
          | some m =>
            simp only [size_tokens, count_tokens, FieldsParser.feed,
              fields_on_array fs _ _ m hcn (Or.inl rfl)]
            exact fields_zero_void_dead _ rfl rfl (Or.inr (Or.inr rfl)) rest hrest
        | some n =>
          have hfix := fields_on_fixed fs ⟨⟨.VOID, 0, 1, ""⟩, ""⟩ n hsz.1 (Or.inr (Or.inr rfl))
          cases count with
          | none =>
            simp only [size_tokens, count_tokens, FieldsParser.feed, hfix]
            exact fields_zero_void_dead _ rfl hsz.2 (Or.inr (Or.inl rfl)) rest hrest
          | some m =>
            simp only [size_tokens, count_tokens, FieldsParser.feed, hfix,
              fields_on_array fs _ _ m hcn (Or.inr rfl)]
            exact fields_zero_void_dead _ rfl hsz.2 (Or.inr (Or.inr rfl)) rest hrest

/-- Witness of C26: the descriptors `"void*3"` and `"u8 void#0 u16"`. -/
theorem zero_void_rejected_witness :
    (∃ e, parse_read_tokens ([] ++ ([tok_type .VOID, tok_array "*3"] ++ [])) = .error e) ∧
    (∃ e, parse_read_tokens ([tok_type .U8] ++ ([tok_type .VOID, tok_fixed "#0"] ++
      [tok_type .U16])) = .error e) :=
  ⟨(zero_void_rejected [] [] ⟨none, some ⟨"*3", 3⟩⟩ ⟨trivial, rfl⟩ (Or.inl rfl)).1,
    (zero_void_rejected [tok_type .U8] [tok_type .U16] ⟨some ⟨"#0", 0⟩, none⟩
      ⟨⟨rfl, rfl⟩, trivial⟩
      (Or.inr ⟨tok_type .U16, [], rfl, by unfold Token.is_fixed; decide,
        by unfold Token.is_array; decide⟩)).1⟩

theorem cstr_tail_marker (name : String) : cstr_tail ("@" ++ name) = name := by
  simp only [cstr_tail, String.data_append]
  rfl

/-- Claim C27: in both parser variants a function marker `@name` that arrives
when no item is open (state `Initial`) opens an item with type `FUNC`,
`typeName` the text after the `@`, size 0 and count 1; an array-size token
that follows sets the count to `M`. -/
theorem func_marker_item (str : String) :
    (∀ pre p, (ReadStringParser.new []).feed pre = .ok p → p.m_state = .Initial →
      p.on_token (tok_func str) =
        .ok ⟨p.m_dataItems, ⟨.FUNC, 0, 1, cstr_tail str⟩, .Type_⟩ ∧
      ∀ m : NumSuffix, m.wf →
        (ReadStringParser.mk p.m_dataItems ⟨.FUNC, 0, 1, cstr_tail str⟩ .Type_).on_token
            (tok_array m.text) =
          .ok ⟨p.m_dataItems, ⟨.FUNC, 0, m.value, cstr_tail str⟩, .ArraySize⟩) ∧
    (∀ fields pre p, (FieldsParser.new fields).feed pre = .ok p → p.m_state = .Initial →
      p.on_token (tok_func str) =
        .ok ⟨p.m_fields, ⟨⟨.FUNC, 0, 1, cstr_tail str⟩, ""⟩, .Type_⟩ ∧
      ∀ m : NumSuffix, m.wf →
        (FieldsParser.mk p.m_fields ⟨⟨.FUNC, 0, 1, cstr_tail str⟩, ""⟩ .Type_).on_token
            (tok_array m.text) =
          .ok ⟨p.m_fields, ⟨⟨.FUNC, 0, m.value, cstr_tail str⟩, ""⟩, .ArraySize⟩) ∧
    (∀ name, str = "@" ++ name → cstr_tail str = name) := by
  refine ⟨fun pre p hpre hs => ⟨?_, fun m hm => ?_⟩,
    fun fields pre p hpre hs => ⟨?_, fun m hm => ?_⟩, fun name h => ?_⟩
  · have hc := read_feed_clean pre _ p (fun _ => rfl) hpre hs
    obtain ⟨ds, cur, st⟩ := p
    simp only at hs hc
    subst hs
    subst hc
    simp [ReadStringParser.on_token, tok_func, ReadStringParser.push_value, clear_data_item,
      FUNC_CONSTANT, IDENTIFIER, UNDEFINED_TYPE_NUM, MAX_TYPE_NUM, MAX_LITERAL,
      FIXED_LENGTH, ARRAY_SIZE]
  · rw [read_on_array _ _ _ m hm (Or.inl rfl)]
  · have hc := (fields_feed_sound pre _ p (fields_new_sound fields) hpre).1 hs
    obtain ⟨fs, cur, st⟩ := p
    simp only at hs hc
    subst hs
    subst hc
    simp [FieldsParser.on_token, tok_func, FieldsParser.push_value, clear_field,
      clear_data_item, FUNC_CONSTANT, IDENTIFIER, UNDEFINED_TYPE_NUM, MAX_TYPE_NUM,
      MAX_LITERAL, FIXED_LENGTH, ARRAY_SIZE]
  · rw [fields_on_array _ _ _ m hm (Or.inl rfl)]
  · rw [h, cstr_tail_marker]

/-- Witness of C27: the marker `@f3` after the item `@f2:bbb`, then `*4`. -/
theorem func_marker_item_witness :
    (FieldsParser.mk [⟨⟨.FUNC, 0, 1, "f2"⟩, "bbb"⟩] clear_field .Initial).on_token
        (tok_func "@f3") =
      .ok ⟨[⟨⟨.FUNC, 0, 1, "f2"⟩, "bbb"⟩], ⟨⟨.FUNC, 0, 1, "f3"⟩, ""⟩, .Type_⟩ ∧
    (FieldsParser.mk [⟨⟨.FUNC, 0, 1, "f2"⟩, "bbb"⟩] ⟨⟨.FUNC, 0, 1, "f3"⟩, ""⟩ .Type_).on_token
        (tok_array "*4") =
      .ok ⟨[⟨⟨.FUNC, 0, 1, "f2"⟩, "bbb"⟩], ⟨⟨.FUNC, 0, 4, "f3"⟩, ""⟩, .ArraySize⟩ :=
  ⟨((func_marker_item "@f3").2.1 [] [tok_func "@f2", tok_colon, tok_ident "bbb"]
      ⟨[⟨⟨.FUNC, 0, 1, "f2"⟩, "bbb"⟩], clear_field, .Initial⟩ rfl rfl).1,
    ((func_marker_item "@f3").2.1 [] [tok_func "@f2", tok_colon, tok_ident "bbb"]
      ⟨[⟨⟨.FUNC, 0, 1, "f2"⟩, "bbb"⟩], clear_field, .Initial⟩ rfl rfl).2 ⟨"*4", 4⟩ rfl⟩

/-! ### Descriptor cache -/

theorem cache_find_filter (str s : String) (hs : str ≠ s) : ∀ c : ParserCache,
    cache_find (c.filter (fun e => decide (e.1 ≠ str))) s = cache_find c s := by
  intro c
  induction c with
  | nil => rfl
  | cons e rest ih =>
    obtain ⟨k, v⟩ := e
    by_cases hk : k = str
    · subst hk
      simp only [List.filter, ne_eq, not_true_eq_false, decide_False, cache_find, if_neg hs]
      exact ih
    · simp only [List.filter, ne_eq, hk, not_false_eq_true, decide_True, cache_find]
      rw [ih]

theorem cache_find_set (c : ParserCache) (str s : String) (items : List DataItem) :
    cache_find (cache_set c str items) s = if str = s then some items else cache_find c s := by
  simp only [cache_set, cache_find]
  by_cases h : str = s
  · simp [h]
  · simp only [h, if_false]
    exact cache_find_filter str s h c

theorem parse_read_str_memo (lexer : String → List Token) (cache : ParserCache) (str : String)
    (hc : ∀ s items, cache_find cache s = some items →
      parse_read_tokens (lexer s) = .ok items) :
    (parse_read_str lexer cache str).1 = parse_read_tokens (lexer str) ∧
    (∀ s items, cache_find (parse_read_str lexer cache str).2 s = some items →
      parse_read_tokens (lexer s) = .ok items) := by
  simp only [parse_read_str]
  cases hf : cache_find cache str with
  | some items => exact ⟨(hc str items hf).symm, hc⟩
  | none =>
    cases hp : parse_read_tokens (lexer str) with
    | error e => exact ⟨rfl, hc⟩
    | ok items =>
      refine ⟨rfl, fun s its hs => ?_⟩
      simp only [cache_find_set] at hs
      split_ifs at hs with h
      · cases hs
        rw [← h, hp]
      · exact hc s its hs

theorem parse_read_strs_memo (lexer : String → List Token) : ∀ (strs : List String)
    (cache : ParserCache),
    (∀ s items, cache_find cache s = some items → parse_read_tokens (lexer s) = .ok items) →
    (parse_read_strs lexer cache strs).1 = strs.map (fun s => parse_read_tokens (lexer s)) ∧
    (∀ s items, cache_find (parse_read_strs lexer cache strs).2 s = some items →
      parse_read_tokens (lexer s) = .ok items) := by
  intro strs
  induction strs with
  | nil => intro cache hc; exact ⟨rfl, hc⟩
  | cons str rest ih =>
    intro cache hc
    obtain ⟨h1, h2⟩ := parse_read_str_memo lexer cache str hc
    obtain ⟨h3, h4⟩ := ih _ h2
    exact ⟨by simp only [parse_read_strs, List.map_cons, h1, h3], h4⟩

/-- Claim C28: the descriptor cache is a pure memoization.  Starting from the
empty cache, every call of a sequence of `parse_read_str` calls has the
outcome of the uncached tokenizer-and-parser run on its string (so two calls
with the same string have equal outcomes), and every cache entry holds the
list of a successful run: a string that fails is never an entry. -/
theorem parse_read_str_cache (lexer : String → List Token) (strs : List String) :
    (parse_read_strs lexer [] strs).1 = strs.map (fun s => parse_read_tokens (lexer s)) ∧
    (∀ s items, cache_find (parse_read_strs lexer [] strs).2 s = some items →
      parse_read_tokens (lexer s) = .ok items) ∧
    (∀ s e, parse_read_tokens (lexer s) = .error e →
      cache_find (parse_read_strs lexer [] strs).2 s = none) := by
  obtain ⟨h1, h2⟩ := parse_read_strs_memo lexer strs []
    (fun s items h => by simp [cache_find] at h)
  refine ⟨h1, h2, fun s e he => ?_⟩
  cases hf : cache_find (parse_read_strs lexer [] strs).2 s with
  | none => rfl
  | some items =>
    have := h2 s items hf
    rw [he] at this
    cases this

/-- Witness of C28: the calls `"u8"`, `":"`, `"u8"` from the empty cache. -/
theorem parse_read_str_cache_witness :
    (parse_read_strs lexer_u8 [] ["u8", ":", "u8"]).1 =
      [.ok [⟨.U8, 0, 1, ""⟩], .error (.brie "ParserBase::push_symbol not impleneted"),
        .ok [⟨.U8, 0, 1, ""⟩]] ∧
    cache_find (parse_read_strs lexer_u8 [] ["u8", ":", "u8"]).2 ":" = none :=
  ⟨(parse_read_str_cache lexer_u8 ["u8", ":", "u8"]).1,
    (parse_read_str_cache lexer_u8 ["u8", ":", "u8"]).2.2 ":" _ rfl⟩

/-! ### Decoder -/

theorem retrieve_int {σ : Type} (env : LuaEnv σ) (fuel : Nat) (item : DataItem)
    (hint : integer_type item.type) (hcount : item.count = 1) (s : Source)
    (stack : List LuaValue) (structs : StructDict) (g : σ) :
    retrieve env (fuel + 1) item ⟨s, stack, structs, g⟩ =
      match s.read_int item.type with
      | .ok r => some (.ok (), ⟨r.2, .integer r.1 :: stack, structs, g⟩)
      | .error e => some (.error e, ⟨s, stack, structs, g⟩) := by
  obtain ⟨t, size, count, tn⟩ := item
  simp only at hint hcount
  subst hcount
  have hv : t ≠ .VOID := by
    rcases hint with h | h | h | h | h | h <;> rw [h] <;> decide
  simp only [retrieve, hv, if_false, retrieve_loop, gt_iff_lt, lt_irrefl]
  have hval : retrieve_value env (retrieve env fuel) ⟨t, size, 1, tn⟩
        ⟨s, stack, structs, g⟩ =
      match s.read_int_state t with
      | (.error e, s1) => some (.error e, ⟨s1, stack, structs, g⟩)
      | (.ok v, s1) => some (.ok (), ⟨s1, .integer v :: stack, structs, g⟩) := by
    rcases hint with h | h | h | h | h | h <;> subst h <;> rfl
  rw [hval, read_int_state_agrees]
  cases s.read_int t with
  | error e => rfl
  | ok r => rfl

theorem read_items_ints {σ : Type} (env : LuaEnv σ) (fuel : Nat) (structs : StructDict)
    (g : σ) :
    ∀ (items : List DataItem) (s : Source) (stack : List LuaValue) (n : Nat),
    (∀ it ∈ items, integer_type it.type ∧ it.count = 1) →
    (∀ vs s1, read_ints s (items.map DataItem.type) = .ok (vs, s1) →
      read_items env (fuel + 1) items n ⟨s, stack, structs, g⟩ =
        some (.ok (n + items.length),
          ⟨s1, (vs.map LuaValue.integer).reverse ++ stack, structs, g⟩)) ∧
    (∀ e, read_ints s (items.map DataItem.type) = .error e →
      ∃ st1, read_items env (fuel + 1) items n ⟨s, stack, structs, g⟩ =
        some (.error e, st1)) := by
  intro items
  induction items with
  | nil =>
    intro s stack n _
    refine ⟨fun vs s1 h => ?_, fun e h => ?_⟩
    · simp only [List.map_nil, read_ints, Except.ok.injEq, Prod.mk.injEq] at h
      obtain ⟨rfl, rfl⟩ := h
      simp [read_items]
    · simp [read_ints] at h
  | cons it rest ih =>
    intro s stack n hall
    obtain ⟨hint, hcount⟩ := hall it (List.mem_cons_self _ _)
    have hrest := fun it2 h2 => hall it2 (List.mem_cons_of_mem _ h2)
    have hv : it.type ≠ .VOID := by
      rcases hint with h | h | h | h | h | h <;> rw [h] <;> decide
    simp only [List.map_cons, read_ints, read_items, retrieve_int env fuel it hint hcount]
    cases hr : s.read_int it.type with
    | error e =>
      refine ⟨fun vs s1 h => by simp at h, fun e2 h => ?_⟩
      simp only [Except.error.injEq] at h
      subst h
      exact ⟨_, rfl⟩
    | ok r =>
      obtain ⟨v, s2⟩ := r
      obtain ⟨ih1, ih2⟩ := ih s2 (.integer v :: stack) (n + 1) hrest
      simp only [hv, ne_eq, not_false_eq_true, if_true]
      refine ⟨fun vs s1 h => ?_, fun e h => ?_⟩
      · cases hrr : read_ints s2 (rest.map DataItem.type) with
        | error e => rw [hrr] at h; simp at h
        | ok r2 =>
          obtain ⟨vs2, s3⟩ := r2
          rw [hrr] at h
          simp only [Except.ok.injEq, Prod.mk.injEq] at h
          obtain ⟨rfl, rfl⟩ := h
          rw [ih1 vs2 s3 hrr]
          simp [Nat.add_assoc, Nat.add_comm 1]
      · cases hrr : read_ints s2 (rest.map DataItem.type) with
        | error e2 =>
          rw [hrr] at h
          simp only [Except.error.injEq] at h
          subst h
          exact ih2 e2 hrr
        | ok r2 => rw [hrr] at h; simp at h

theorem read_ints_advance : ∀ (types : List DataType) (s : Source),
    (∀ t ∈ types, integer_type t) → s.m_pos + (types.map int_width).sum ≤ s.m_size →
    s.m_size ≤ PTRDIFF_MAX →
    ∃ vs, read_ints s types =
      .ok (vs, { s with m_pos := s.m_pos + (types.map int_width).sum }) ∧
      vs.length = types.length := by
  intro types
  induction types with
  | nil => intro s _ _ _; exact ⟨[], by simp [read_ints], rfl⟩
  | cons t rest ih =>
    intro s hint hfit hsz
    simp only [List.map_cons, List.sum_cons] at hfit ⊢
    have ht := hint t (List.mem_cons_self _ _)
    have hsz2 := hsz
    simp only [PTRDIFF_MAX] at hsz2
    have hw : int_width t ≤ 8 := by
      rcases ht with h | h | h | h | h | h <;> rw [h] <;> simp [int_width]
    have e : (s.m_pos + int_width t) % SIZE_MOD = s.m_pos + int_width t :=
      Nat.mod_eq_of_lt (by simp only [SIZE_MOD]; omega)
    have hread : ∃ v, s.read_int t = .ok (v, { s with m_pos := s.m_pos + int_width t }) := by
      rcases ht with h | h | h | h | h | h <;> subst h <;>
        simp only [int_width] at e hfit <;>
        simp only [Source.read_int, type_length, e, int_width] <;>
        rw [if_neg (by omega)] <;> exact ⟨_, rfl⟩
    obtain ⟨v, hv⟩ := hread
    obtain ⟨vs, hvs, hlen⟩ := ih { s with m_pos := s.m_pos + int_width t }
      (fun t2 h2 => hint t2 (List.mem_cons_of_mem _ h2)) (by simp only; omega) hsz
    refine ⟨v :: vs, ?_, by simp [hlen]⟩
    simp only [read_ints, hv, hvs, Nat.add_assoc]

/-- Claim C29: decoding a list of integer items of count 1 pushes, in order,
exactly the values that consecutive `read_int` calls of those types return,
fails where they fail, and with enough bytes advances the cursor by the sum
of the widths; on the encoding of `u8=1, u16=2, u32=3, i16=-5, i32=-6, i64=-7`
followed by an `f32` and an `f64`, the descriptor
`"u8 u16 u32 i16 i32 i64 f32 f64"` yields the integers 1, 2, 3, -5, -6, -7 in
order (then the two floats) and leaves the cursor at 33. -/
theorem decode_integer_items {σ : Type} (env : LuaEnv σ) (fuel : Nat)
    (items : List DataItem) (s : Source) (stack : List LuaValue) (structs : StructDict) (g : σ)
    (hall : ∀ it ∈ items, integer_type it.type ∧ it.count = 1) :
    (∀ vs s1, read_ints s (items.map DataItem.type) = .ok (vs, s1) →
      read_items env (fuel + 1) items 0 ⟨s, stack, structs, g⟩ =
        some (.ok items.length,
          ⟨s1, (vs.map LuaValue.integer).reverse ++ stack, structs, g⟩)) ∧
    (∀ e, read_ints s (items.map DataItem.type) = .error e →
      ∃ st1, read_items env (fuel + 1) items 0 ⟨s, stack, structs, g⟩ =
        some (.error e, st1)) ∧
    (s.m_pos + ((items.map DataItem.type).map int_width).sum ≤ s.m_size →
      s.m_size ≤ PTRDIFF_MAX →
      ∃ vs : List Int, vs.length = items.length ∧
        read_items env (fuel + 1) items 0 ⟨s, stack, structs, g⟩ =
          some (.ok items.length,
            ⟨{ s with m_pos := s.m_pos + ((items.map DataItem.type).map int_width).sum },
              (vs.map LuaValue.integer).reverse ++ stack, structs, g⟩)) ∧
    (func_read_wrapped env_none 1 tokens_numbers ⟨⟨mem_numbers, 1024, 0⟩, [], [], ()⟩).map
        (fun r => (r.1, r.2.source.m_pos, r.2.stack)) =
      some (.ok 8, 33, [.number (.of_f64 0x4022666666666666), .number (.of_f32 0xC101999A),
        .integer (-7), .integer (-6), .integer (-5), .integer 3, .integer 2, .integer 1]) := by
  obtain ⟨h1, h2⟩ := read_items_ints env fuel structs g items s stack 0 hall
  refine ⟨fun vs s1 h => by simpa using h1 vs s1 h, h2, fun hfit hsz => ?_, rfl⟩
  obtain ⟨vs, hvs, hlen⟩ := read_ints_advance (items.map DataItem.type) s
    (fun t ht => by
      obtain ⟨it, hit, rfl⟩ := List.mem_map.mp ht
      exact (hall it hit).1) hfit hsz
  exact ⟨vs, by simpa using hlen, by simpa using h1 vs _ hvs⟩

/-- Witness of C29: a `u8` and an `i16` decoded from the three bytes `1 2 3`
leave the cursor at 3. -/
theorem decode_integer_items_witness :
    (∀ it ∈ items_u8_i16, integer_type it.type ∧ it.count = 1) ∧
    ∃ vs : List Int, vs.length = 2 ∧
      read_items env_none 1 items_u8_i16 0 ⟨⟨mem_of [1, 2, 3], 3, 0⟩, [], [], ()⟩ =
        some (.ok 2, ⟨⟨mem_of [1, 2, 3], 3, 0 + (1 + (2 + 0))⟩,
          (vs.map LuaValue.integer).reverse ++ [], [], ()⟩) := by
  have hall : ∀ it ∈ items_u8_i16, integer_type it.type ∧ it.count = 1 := by
    intro it hit
    simp only [items_u8_i16, List.mem_cons, List.mem_singleton, List.not_mem_nil,
      or_false] at hit
    rcases hit with rfl | rfl <;> simp [integer_type]
  exact ⟨hall, (decode_integer_items env_none 0 items_u8_i16 ⟨mem_of [1, 2, 3], 3, 0⟩ [] [] ()
    hall).2.2.1 (by decide) (by decide)⟩

theorem retrieve_loop_once {σ : Type} (body : DecState σ → Decode σ) (st : DecState σ) :
    retrieve_loop body 1 1 1 st = body st := by
  simp only [retrieve_loop, gt_iff_lt, lt_irrefl, if_false]
  cases body st with
  | none => rfl
  | some r =>
    obtain ⟨res, st1⟩ := r
    cases res <;> rfl

theorem retrieve_custom {σ : Type} (env : LuaEnv σ) (fuel : Nat) (item : DataItem)
    (hc : custom_type item.type) (hcount : item.count = 1) (st : DecState σ) :
    retrieve env (fuel + 1) item st =
      retrieve_struct (retrieve env fuel) item.typeName st := by
  obtain ⟨t, size, count, tn⟩ := item
  simp only at hc hcount
  subst hcount
  have hv : t ≠ .VOID := by
    rcases hc with h | h <;> rw [h] <;> decide
  simp only [retrieve, hv, if_false, gt_iff_lt, lt_irrefl, retrieve_loop_once]
  rcases hc with h | h <;> subst h <;> rfl

theorem retrieve_fields_ints {σ : Type} (env : LuaEnv σ) (fuel : Nat) (structs : StructDict)
    (g : σ) :
    ∀ (fields : FieldList) (s : Source) (es : List (LuaKey × LuaValue))
      (stack : List LuaValue),
    (∀ f ∈ fields, integer_type f.type ∧ f.count = 1) →
    ∀ vs s1, read_ints s (fields.map (fun f => f.type)) = .ok (vs, s1) →
      retrieve_fields (retrieve env (fuel + 1)) fields ⟨s, .table es :: stack, structs, g⟩ =
        some (.ok (), ⟨s1, .table (set_fields es fields vs) :: stack, structs, g⟩) := by
  intro fields
  induction fields with
  | nil =>
    intro s es stack _ vs s1 h
    simp only [List.map_nil, read_ints, Except.ok.injEq, Prod.mk.injEq] at h
    obtain ⟨rfl, rfl⟩ := h
    simp [retrieve_fields, set_fields]
  | cons f rest ih =>
    intro s es stack hall vs s1 h
    obtain ⟨hint, hcount⟩ := hall f (List.mem_cons_self _ _)
    have hv : f.type ≠ .VOID := by
      rcases hint with h | h | h | h | h | h <;> rw [h] <;> decide
    simp only [List.map_cons, read_ints] at h
    simp only [retrieve_fields, retrieve_int env fuel f.toDataItem hint hcount]
    cases hr : s.read_int f.type with
    | error e => rw [hr] at h; simp at h
    | ok r =>
      obtain ⟨v, s2⟩ := r
      rw [hr] at h
      simp only at h
      cases hrr : read_ints s2 (rest.map (fun f => f.type)) with
      | error e => rw [hrr] at h; simp at h
      | ok r2 =>
        obtain ⟨vs2, s3⟩ := r2
        rw [hrr] at h
        simp only [Except.ok.injEq, Prod.mk.injEq] at h
        obtain ⟨rfl, rfl⟩ := h
        simp only [hv, ne_eq, not_false_eq_true, if_true, lua_setfield, set_fields]
        exact ih s2 _ stack (fun f2 h2 => hall f2 (List.mem_cons_of_mem _ h2)) vs2 s3 hrr

/-- Claim C30: decoding an item of custom type and count 1 looks its `typeName` up
in the registry and decodes the fields of the struct in declaration order
against the same source from the current cursor into a new record, storing
each value under the name of its field; for a struct of integer fields the
record holds the values of consecutive `read_int` calls.  With `one`, `two`
and `three` declared, reading `three` over the encoding of (1, 2, 3, -5)
yields `{xxx:{aaa:1,bbb:2}, yyy:{ccc:3,ddd:-5}}` and leaves the cursor at 9. -/
theorem decode_custom_item {σ : Type} (env : LuaEnv σ) (fuel : Nat) (item : DataItem)
    (st : DecState σ) (hc : custom_type item.type) (hcount : item.count = 1) :
    retrieve env (fuel + 1) item st =
      (match get_struct st.structs item.typeName with
        | .error e => some (.error e, st)
        | .ok fields =>
          retrieve_fields (retrieve env fuel) fields
            { st with stack := .table [] :: st.stack }) ∧
    (∀ fields, get_struct st.structs item.typeName = .ok fields →
      (∀ f ∈ fields, integer_type f.type ∧ f.count = 1) →
      ∀ vs s1, read_ints st.source (fields.map (fun f => f.type)) = .ok (vs, s1) →
        retrieve env (fuel + 2) item st =
          some (.ok (), ⟨s1, .table (set_fields [] fields vs) :: st.stack, st.structs,
            st.globals⟩)) ∧
    (run_calls 10 [] calls_three = some dict_three ∧
      (func_read_wrapped env_none 3 [tok_ident "three"]
          ⟨⟨mem_three, 1024, 0⟩, [], dict_three, ()⟩).map
            (fun r => (r.1, r.2.source.m_pos, r.2.stack)) =
        some (.ok 1, 9, [record_three])) := by
  refine ⟨?_, fun fields hget hall vs s1 hread => ?_, rfl, rfl⟩
  · rw [retrieve_custom env fuel item hc hcount]
    rfl
  · rw [retrieve_custom env (fuel + 1) item hc hcount]
    simp only [retrieve_struct, hget]
    exact retrieve_fields_ints env fuel st.structs st.globals fields st.source [] st.stack hall
      vs s1 hread

/-- Witness of C30: the item `one` of custom type decoded over the bytes
`1 2 0` with `one := u8:aaa u16:bbb` registered. -/
theorem decode_custom_item_witness :
    custom_type (DataItem.mk .UNDEFINED_TYPE 0 1 "one").type ∧
    (retrieve env_none 2 ⟨.UNDEFINED_TYPE, 0, 1, "one"⟩
        ⟨⟨mem_of [1, 2, 0], 3, 0⟩, [], dict_three, ()⟩).map
          (fun r => (r.2.source.m_pos, r.2.stack)) =
      some (3, [.table [(.name "aaa", .integer 1), (.name "bbb", .integer 2)]]) := by
  refine ⟨Or.inl rfl, ?_⟩
  rw [(decode_custom_item env_none 1 ⟨.UNDEFINED_TYPE, 0, 1, "one"⟩
    ⟨⟨mem_of [1, 2, 0], 3, 0⟩, [], dict_three, ()⟩ (Or.inl rfl) rfl).1]
  rfl

/-! ### Source: the first match of `find` -/

theorem bytes_at_head (ptr : Nat → Byte) (off : Nat) (str : List Byte) (hne : str ≠ [])
    (h : bytes_at ptr off str.length = str) : ptr off = str.headD 0 := by
  cases str with
  | nil => exact absurd rfl hne
  | cons b rest =>
    simp only [bytes_at, List.length_cons, List.range_succ_eq_map, List.map_cons,
      Nat.add_zero, List.cons.injEq] at h
    simp [h.1]

theorem find_loop_first (ptr : Nat → Byte) (str : List Byte) (lim1 lim2 : Nat) :
    ∀ (fuel i : Nat), find_loop ptr str lim1 lim2 fuel i ≠ nopos →
      ∀ r, i ≤ r → r < find_loop ptr str lim1 lim2 fuel i →
        ¬ (ptr r = str.headD 0 ∧ bytes_at ptr r str.length = str) := by
  intro fuel
  induction fuel with
  | zero => intro i h; exact absurd rfl h
  | succ fuel ih =>
    intro i h r hir hr
    simp only [find_loop] at h hr
    split_ifs at h hr with h1 h2
    · omega
    · rcases Nat.eq_or_lt_of_le hir with heq | hlt
      · rw [← heq]; exact h2
      · exact ih (i + 1) h r hlt hr
    · exact absurd rfl h

/-- Claim C38: when `find` returns an offset `r` other than `nopos`, then
`pos <= r`, `r + n <= size`, `r + n <= maxOffset`, the bytes of the source at
`[r, r + n)` are the needle, the needle is at no offset `r1` with
`pos <= r1 < r`, and the call leaves the source (its cursor and size) as it
was. -/
theorem find_first_match (s : Source) (str : List Byte) (maxOffset : Nat)
    (hr : s.find str maxOffset ≠ nopos) :
    str ≠ [] ∧ s.m_pos ≤ s.find str maxOffset ∧
    s.find str maxOffset + str.length ≤ s.m_size ∧
    s.find str maxOffset + str.length ≤ maxOffset ∧
    bytes_at s.m_ptr (s.find str maxOffset) str.length = str ∧
    (∀ r1, s.m_pos ≤ r1 → r1 < s.find str maxOffset →
      bytes_at s.m_ptr r1 str.length ≠ str) ∧
    s.after (.find str maxOffset) = s := by
  rcases find_sound s str maxOffset with hn | ⟨hne, ha, hb, hc, hd⟩
  · exact absurd hn hr
  · refine ⟨hne, ha, le_of_lt hb, le_of_lt hc, hd, fun r1 h1 h2 hm => ?_, rfl⟩
    have hr2 := hr
    simp only [Source.find] at hr2 h2
    split_ifs at hr2 h2 with hx hy
    · exact absurd rfl hr2
    · exact absurd rfl hr2
    · exact find_loop_first s.m_ptr str _ _ _ _ hr2 r1 h1 h2
        ⟨bytes_at_head s.m_ptr r1 str hne hm, hm⟩

/-- Witness of C38: the needle `"bc"` in the bytes `"abcd"` is found at 1. -/
theorem find_first_match_witness :
    src_abcd.find [0x62, 0x63] 10 = 1 ∧
    bytes_at src_abcd.m_ptr (src_abcd.find [0x62, 0x63] 10) 2 = [0x62, 0x63] ∧
    (∀ r1, src_abcd.m_pos ≤ r1 → r1 < src_abcd.find [0x62, 0x63] 10 →
      bytes_at src_abcd.m_ptr r1 2 ≠ [0x62, 0x63]) :=
  ⟨by decide,
    (find_first_match src_abcd [0x62, 0x63] 10 (by decide)).2.2.2.2.1,
    (find_first_match src_abcd [0x62, 0x63] 10 (by decide)).2.2.2.2.2.1⟩

/-! ### Registry: termination of the depth walk -/

theorem check_in_depth_settles (d : StructDict) (hacyc : registry_acyclic d) (name : String)
    (fl : FieldList) :
    ∃ N r, ∀ fuel, N ≤ fuel → check_in_depth d name fuel fl = some r := by
  obtain ⟨N, hN⟩ := check_in_depth_finishes d hacyc name fl
  cases hr : check_in_depth d name N fl with
  | none =>
    have := hN N (le_refl _)
    rw [hr] at this
    cases this
  | some r =>
    refine ⟨N, r, fun fuel hf => ?_⟩
    obtain ⟨k, rfl⟩ := Nat.exists_eq_add_of_le hf
    exact check_in_depth_mono d name N fl r hr k

theorem add_struct_settles (d : StructDict) (hacyc : registry_acyclic d) (name : String)
    (fl : FieldList) :
    ∃ N r, ∀ fuel, N ≤ fuel → add_struct d fuel name fl = some r := by
  obtain ⟨N, r, hN⟩ := check_in_depth_settles d hacyc name fl
  cases hw : check_in_width d name fl with
  | error e => exact ⟨0, .error e, fun fuel _ => by simp [add_struct, hw]⟩
  | ok u =>
    cases r with
    | error e => exact ⟨N, .error e, fun fuel hf => by simp [add_struct, hw, hN fuel hf]⟩
    | ok u1 =>
      exact ⟨N, .ok (dict_set d name fl), fun fuel hf => by simp [add_struct, hw, hN fuel hf]⟩

theorem run_calls_settles : ∀ (calls : List RegCall) (d0 : StructDict),
    registry_closed d0 → registry_acyclic d0 →
    ∃ N d, ∀ fuel, N ≤ fuel → run_calls fuel d0 calls = some d := by
  intro calls
  induction calls with
  | nil => intro d0 _ _; exact ⟨0, d0, fun fuel _ => rfl⟩
  | cons c cs ih =>
    intro d0 hc ha
    cases c with
    | init_structs =>
      obtain ⟨N, d, hN⟩ := ih [] registry_empty_ok.1 registry_empty_ok.2
      exact ⟨N, d, fun fuel hf => by simpa [run_calls] using hN fuel hf⟩
    | add_struct name sp =>
      obtain ⟨N1, r, hN1⟩ := add_struct_settles d0 ha name sp
      cases r with
      | error e =>
        obtain ⟨N2, d, hN2⟩ := ih d0 hc ha
        refine ⟨max N1 N2, d, fun fuel hf => ?_⟩
        simp only [run_calls, hN1 fuel (le_trans (le_max_left _ _) hf)]
        exact hN2 fuel (le_trans (le_max_right _ _) hf)
      | ok d1 =>
        obtain ⟨hc1, ha1⟩ := add_struct_keeps d0 d1 N1 name sp (hN1 N1 (le_refl _)) hc ha
        obtain ⟨N2, d, hN2⟩ := ih d1 hc1 ha1
        refine ⟨max N1 N2, d, fun fuel hf => ?_⟩
        simp only [run_calls, hN1 fuel (le_trans (le_max_left _ _) hf)]
        exact hN2 fuel (le_trans (le_max_right _ _) hf)

/-- Claim C39: `check_in_depth` terminates.  Every sequence of `init_structs` and
`add_struct` calls runs to its end, and on every registry that such a
sequence leaves, for every name and field list, the depth walk ends after
finitely many steps with one result (acceptance or an error): from some step
budget on it returns, and returns the same, and so does `add_struct`. -/
theorem check_in_depth_terminates :
    (∀ calls : List RegCall, ∃ N d, ∀ fuel, N ≤ fuel → run_calls fuel [] calls = some d) ∧
    (∀ (fuel0 : Nat) (calls : List RegCall) (d : StructDict),
      run_calls fuel0 [] calls = some d → ∀ (name : String) (fl : FieldList),
        (∃ N r, ∀ fuel, N ≤ fuel → check_in_depth d name fuel fl = some r) ∧
        (∃ N r, ∀ fuel, N ≤ fuel → add_struct d fuel name fl = some r)) := by
  refine ⟨fun calls => run_calls_settles calls [] registry_empty_ok.1 registry_empty_ok.2,
    fun fuel0 calls d hreach name fl => ?_⟩
  have hacyc := (run_calls_keeps fuel0 calls [] d registry_empty_ok.1 registry_empty_ok.2
    hreach).2
  exact ⟨check_in_depth_settles d hacyc name fl, add_struct_settles d hacyc name fl⟩

/-- Witness of C39: the depth walk over `three := one:xxx two:yyy` on the registry
with `one` and `two`. -/
theorem check_in_depth_terminates_witness :
    run_calls 10 [] calls_one_two = some dict_one_two ∧
    ∃ N r, ∀ fuel, N ≤ fuel →
      check_in_depth dict_one_two "three" fuel
        [struct_field "one" "xxx", struct_field "two" "yyy"] = some r :=
  ⟨rfl, (check_in_depth_terminates.2 10 calls_one_two dict_one_two rfl "three"
    [struct_field "one" "xxx", struct_field "two" "yyy"]).1⟩

/-! ### Descriptor parser: suffixes and colons in illegal positions -/

theorem read_fixed_state (p q : ReadStringParser) (a : Token) (ha : a.is_fixed)
    (h : p.on_token a = .ok q) : p.m_state = .Type_ ∧ q.m_state = .FixedLength := by
  simp only [Token.is_fixed] at ha
  simp only [ReadStringParser.on_token, ha, ReadStringParser.push_value] at h
  simp only [FIXED_LENGTH, UNDEFINED_TYPE_NUM, MAX_TYPE_NUM, MAX_LITERAL, IDENTIFIER] at h
  norm_num at h
  split_ifs at h with h1 h2
  cases hx : extract_num a.str with
  | error e => rw [hx] at h; cases h
  | ok v =>
    rw [hx] at h
    cases h
    exact ⟨by simpa using h1, rfl⟩

theorem read_array_state (p q : ReadStringParser) (a : Token) (ha : a.is_array)
    (h : p.on_token a = .ok q) :
    (p.m_state = .Type_ ∨ p.m_state = .FixedLength ∨ p.m_state = .Name) ∧
      q.m_state = .ArraySize := by
  simp only [Token.is_array] at ha
  simp only [ReadStringParser.on_token, ha, ReadStringParser.push_value] at h
  simp only [ARRAY_SIZE, FIXED_LENGTH, UNDEFINED_TYPE_NUM, MAX_TYPE_NUM, MAX_LITERAL,
    IDENTIFIER] at h
  norm_num at h
  split_ifs at h with h1
  cases hx : extract_num a.str with
  | error e => rw [hx] at h; cases h
  | ok v =>
    rw [hx] at h
    cases h
    refine ⟨?_, rfl⟩
    by_contra hc
    push_neg at hc
    exact h1 hc

theorem fields_fixed_state (p q : FieldsParser) (a : Token) (ha : a.is_fixed)
    (h : p.on_token a = .ok q) : p.m_state = .Type_ ∧ q.m_state = .FixedLength := by
  simp only [Token.is_fixed] at ha
  simp only [FieldsParser.on_token, ha, FieldsParser.push_value] at h
  simp only [FIXED_LENGTH, UNDEFINED_TYPE_NUM, MAX_TYPE_NUM, MAX_LITERAL, IDENTIFIER] at h
  norm_num at h
  split_ifs at h with h1 h2
  cases hx : extract_num a.str with
  | error e => rw [hx] at h; cases h
  | ok v =>
    rw [hx] at h
    cases h
    exact ⟨by simpa using h1, rfl⟩

theorem fields_array_state (p q : FieldsParser) (a : Token) (ha : a.is_array)
    (h : p.on_token a = .ok q) :
    (p.m_state = .Type_ ∨ p.m_state = .FixedLength) ∧ q.m_state = .ArraySize := by
  simp only [Token.is_array] at ha
  simp only [FieldsParser.on_token, ha, FieldsParser.push_value] at h
  simp only [ARRAY_SIZE, FIXED_LENGTH, UNDEFINED_TYPE_NUM, MAX_TYPE_NUM, MAX_LITERAL,
    IDENTIFIER] at h
  norm_num at h
  split_ifs at h with h1
  cases hx : extract_num a.str with
  | error e => rw [hx] at h; cases h
  | ok v =>
    rw [hx] at h
    cases h
    refine ⟨?_, rfl⟩
    by_contra hc
    push_neg at hc
    exact h1 hc

theorem fields_colon_state (p q : FieldsParser) (c : Token) (hc : c.is_colon)
    (h : p.on_token c = .ok q) :
    p.m_state = .Type_ ∨ p.m_state = .FixedLength ∨ p.m_state = .ArraySize := by
  simp only [Token.is_colon] at hc
  simp only [FieldsParser.on_token, hc, FieldsParser.push_symbol] at h
  simp only [UNDEFINED_TYPE_NUM] at h
  norm_num at h
  split_ifs at h with h1
  by_contra hn
  push_neg at hn
  exact h1 hn

theorem read_colon_dead (p : ReadStringParser) (c : Token) (hc : c.is_colon) :
    p.on_token c = .error (.brie "ParserBase::push_symbol not impleneted") := by
  simp only [Token.is_colon] at hc
  simp [ReadStringParser.on_token, hc, UNDEFINED_TYPE_NUM]

theorem read_feed_dead (p : ReadStringParser) (tok : Token) (rest : List Token)
    (h : ∀ q, p.on_token tok ≠ .ok q) : ∃ e, p.feed (tok :: rest) = .error e := by
  simp only [ReadStringParser.feed]
  cases ht : p.on_token tok with
  | error e => exact ⟨e, rfl⟩
  | ok q => exact absurd ht (h q)

theorem fields_feed_dead (p : FieldsParser) (tok : Token) (rest : List Token)
    (h : ∀ q, p.on_token tok ≠ .ok q) : ∃ e, p.feed (tok :: rest) = .error e := by
  simp only [FieldsParser.feed]
  cases ht : p.on_token tok with
  | error e => exact ⟨e, rfl⟩
  | ok q => exact absurd ht (h q)

theorem read_feed_dead2 (p : ReadStringParser) (a b : Token) (rest : List Token)
    (h : ∀ q r, p.on_token a = .ok q → q.on_token b ≠ .ok r) :
    ∃ e, p.feed (a :: b :: rest) = .error e := by
  simp only [ReadStringParser.feed]
  cases ha : p.on_token a with
  | error e => exact ⟨e, rfl⟩
  | ok q =>
    cases hb : q.on_token b with
    | error e => exact ⟨e, by simp [hb]⟩
    | ok r => exact absurd hb (h q r ha)

theorem fields_feed_dead2 (p : FieldsParser) (a b : Token) (rest : List Token)
    (h : ∀ q r, p.on_token a = .ok q → q.on_token b ≠ .ok r) :
    ∃ e, p.feed (a :: b :: rest) = .error e := by
  simp only [FieldsParser.feed]
  cases ha : p.on_token a with
  | error e => exact ⟨e, rfl⟩
  | ok q =>
    cases hb : q.on_token b with
    | error e => exact ⟨e, by simp [hb]⟩
    | ok r => exact absurd hb (h q r ha)

theorem read_reject_of_feed (pre rest : List Token)
    (h : ∀ p, (ReadStringParser.new []).feed pre = .ok p → ∃ e, p.feed rest = .error e) :
    ∃ e, parse_read_tokens (pre ++ rest) = .error e := by
  rw [parse_read_split]
  cases hp : (ReadStringParser.new []).feed pre with
  | error e => exact ⟨e, rfl⟩
  | ok p =>
    obtain ⟨e, he⟩ := h p hp
    exact ⟨e, by simp [he]⟩

theorem fields_reject_of_feed (pre rest : List Token) (fields : FieldList)
    (h : ∀ p, (FieldsParser.new fields).feed pre = .ok p → ∃ e, p.feed rest = .error e) :
    ∃ e, parse_fields_tokens (pre ++ rest) fields = .error e := by
  rw [parse_fields_split2]
  cases hp : (FieldsParser.new fields).feed pre with
  | error e => exact ⟨e, rfl⟩
  | ok p =>
    obtain ⟨e, he⟩ := h p hp
    exact ⟨e, by simp [he]⟩

theorem read_suffix_pair_dead (p : ReadStringParser) (a b : Token) (rest : List Token)
    (hab : (a.is_fixed ∧ b.is_fixed) ∨ (a.is_array ∧ (b.is_array ∨ b.is_fixed))) :
    ∃ e, p.feed (a :: b :: rest) = .error e := by
  apply read_feed_dead2
  intro q r ha hb
  rcases hab with ⟨h1, h2⟩ | ⟨h1, h2 | h2⟩
  · have hq := (read_fixed_state p q a h1 ha).2
    have hq2 := (read_fixed_state q r b h2 hb).1
    rw [hq] at hq2
    cases hq2
  · have hq := (read_array_state p q a h1 ha).2
    have hq2 := (read_array_state q r b h2 hb).1
    rw [hq] at hq2
    rcases hq2 with h | h | h <;> cases h
  · have hq := (read_array_state p q a h1 ha).2
    have hq2 := (read_fixed_state q r b h2 hb).1
    rw [hq] at hq2
    cases hq2

theorem fields_suffix_pair_dead (p : FieldsParser) (a b : Token) (rest : List Token)
    (hab : (a.is_fixed ∧ b.is_fixed) ∨ (a.is_array ∧ (b.is_array ∨ b.is_fixed))) :
    ∃ e, p.feed (a :: b :: rest) = .error e := by
  apply fields_feed_dead2
  intro q r ha hb
  rcases hab with ⟨h1, h2⟩ | ⟨h1, h2 | h2⟩
  · have hq := (fields_fixed_state p q a h1 ha).2
    have hq2 := (fields_fixed_state q r b h2 hb).1
    rw [hq] at hq2
    cases hq2
  · have hq := (fields_array_state p q a h1 ha).2
    have hq2 := (fields_array_state q r b h2 hb).1
    rw [hq] at hq2
    rcases hq2 with h | h <;> cases h
  · have hq := (fields_array_state p q a h1 ha).2
    have hq2 := (fields_fixed_state q r b h2 hb).1
    rw [hq] at hq2
    cases hq2

theorem read_suffix_initial_dead (p : ReadStringParser) (hs : p.m_state = .Initial) (a : Token)
    (rest : List Token) (ha : a.is_fixed ∨ a.is_array) :
    ∃ e, p.feed (a :: rest) = .error e := by
  apply read_feed_dead
  intro q hq
  rcases ha with h | h
  · have := (read_fixed_state p q a h hq).1
    rw [hs] at this
    cases this
  · have := (read_array_state p q a h hq).1
    rw [hs] at this
    rcases this with h | h | h <;> cases h

theorem fields_suffix_initial_dead (p : FieldsParser) (hs : p.m_state = .Initial) (a : Token)
    (rest : List Token) (ha : a.is_fixed ∨ a.is_array ∨ a.is_colon) :
    ∃ e, p.feed (a :: rest) = .error e := by
  apply fields_feed_dead
  intro q hq
  rcases ha with h | h | h
  · have := (fields_fixed_state p q a h hq).1
    rw [hs] at this
    cases this
  · have := (fields_array_state p q a h hq).1
    rw [hs] at this
    rcases this with h | h <;> cases h
  · have := fields_colon_state p q a h hq
    rw [hs] at this
    rcases this with h | h | h <;> cases h

/-- Claim C37: both parser variants reject a token sequence with a suffix in an
illegal position.  For a fixed-length or array-size token `a`: as the first
token (before any type or identifier) it is rejected by both variants, and by
the named variant wherever no item is open; a fixed-length token after a
fixed-length token, an array-size token after an array-size token and a
fixed-length token after an array-size token (`str*2#3`) are rejected by both
variants after every prefix.  A colon is rejected by the unnamed variant
wherever it stands, and by the named variant as the first token and wherever
no item is open (no preceding type). -/
theorem misplaced_suffix_rejected (pre rest : List Token) (a : Token)
    (ha : a.is_fixed ∨ a.is_array) :
    ((∃ e, parse_read_tokens (a :: rest) = .error e) ∧
      ∀ fields, ∃ e, parse_fields_tokens (a :: rest) fields = .error e) ∧
    (∀ fields p, (FieldsParser.new fields).feed pre = .ok p → p.m_state = .Initial →
      ∃ e, parse_fields_tokens (pre ++ a :: rest) fields = .error e) ∧
    (∀ b : Token, (a.is_fixed ∧ b.is_fixed) ∨ (a.is_array ∧ (b.is_array ∨ b.is_fixed)) →
      (∃ e, parse_read_tokens (pre ++ a :: b :: rest) = .error e) ∧
      ∀ fields, ∃ e, parse_fields_tokens (pre ++ a :: b :: rest) fields = .error e) ∧
    (∀ c : Token, c.is_colon →
      (∃ e, parse_read_tokens (pre ++ c :: rest) = .error e) ∧
      (∀ fields, ∃ e, parse_fields_tokens (c :: rest) fields = .error e) ∧
      (∀ fields p, (FieldsParser.new fields).feed pre = .ok p → p.m_state = .Initial →
        ∃ e, parse_fields_tokens (pre ++ c :: rest) fields = .error e)) := by
  have ha3 : a.is_fixed ∨ a.is_array ∨ a.is_colon := by
    rcases ha with h | h
    · exact Or.inl h
    · exact Or.inr (Or.inl h)
  refine ⟨⟨?_, fun fields => ?_⟩, fun fields p hp hs => ?_, fun b hab => ⟨?_, fun fields => ?_⟩,
    fun c hc => ⟨?_, fun fields => ?_, fun fields p hp hs => ?_⟩⟩
  · exact read_reject_of_feed [] (a :: rest) (fun p hp => by
      cases hp
      exact read_suffix_initial_dead _ rfl a rest ha)
  · exact fields_reject_of_feed [] (a :: rest) fields (fun p hp => by
      cases hp
      exact fields_suffix_initial_dead _ rfl a rest ha3)
  · exact fields_reject_of_feed pre (a :: rest) fields (fun q hq => by
      rw [hp] at hq
      cases hq
      exact fields_suffix_initial_dead p hs a rest ha3)
  · exact read_reject_of_feed pre (a :: b :: rest)
      (fun p _ => read_suffix_pair_dead p a b rest hab)
  · exact fields_reject_of_feed pre (a :: b :: rest) fields
      (fun p _ => fields_suffix_pair_dead p a b rest hab)
  · exact read_reject_of_feed pre (c :: rest) (fun p _ =>
      read_feed_dead p c rest (fun q hq => by
        rw [read_colon_dead p c hc] at hq
        cases hq))
  · exact fields_reject_of_feed [] (c :: rest) fields (fun p hp => by
      cases hp
      exact fields_suffix_initial_dead _ rfl c rest (Or.inr (Or.inr hc)))
  · exact fields_reject_of_feed pre (c :: rest) fields (fun q hq => by
      rw [hp] at hq
      cases hq
      exact fields_suffix_initial_dead p hs c rest (Or.inr (Or.inr hc)))

/-- Witness of C37: the descriptor `"str*2#3"`, and the declaration `"u8:a :b"`. -/
theorem misplaced_suffix_rejected_witness :
    (∃ e, parse_read_tokens ([tok_type .STRING] ++ tok_array "*2" :: tok_fixed "#3" :: []) =
      .error e) ∧
    (∃ e, parse_fields_tokens ([tok_type .U8, tok_colon, tok_ident "a"] ++
      tok_colon :: [tok_ident "b"]) [] = .error e) :=
  ⟨((misplaced_suffix_rejected [tok_type .STRING] [] (tok_array "*2") (Or.inr rfl)).2.2.1
      (tok_fixed "#3") (Or.inr ⟨rfl, Or.inr rfl⟩)).1,
    ((misplaced_suffix_rejected [tok_type .U8, tok_colon, tok_ident "a"] [tok_ident "b"]
      (tok_array "*2") (Or.inr rfl)).2.2.2 tok_colon rfl).2.2 []
      ⟨[⟨⟨.U8, 0, 1, ""⟩, "a"⟩], clear_field, .Initial⟩ rfl rfl⟩

/-! ### Descriptor parser: concatenation of descriptors -/

theorem read_complete_shift (pre : List DataItem) (p : ReadStringParser) :
    (p.shift pre).complete = (p.complete).map (ReadStringParser.shift pre) := by
  obtain ⟨ds, cur, st⟩ := p
  simp only [ReadStringParser.complete, ReadStringParser.shift]
  split_ifs <;> simp [Except.map, ReadStringParser.shift]

theorem read_push_type_shift (pre : List DataItem) (p : ReadStringParser) (t : DataType) :
    (p.shift pre).push_type t = (p.push_type t).map (ReadStringParser.shift pre) := by
  simp only [ReadStringParser.push_type, read_complete_shift]
  cases p.complete with
  | error e => rfl
  | ok q =>
    obtain ⟨ds, cur, st⟩ := q
    simp only [Except.map, ReadStringParser.shift]
    split_ifs <;> rfl

theorem read_push_identifier_shift (pre : List DataItem) (p : ReadStringParser) (str : String) :
    (p.shift pre).push_identifier str =
      (p.push_identifier str).map (ReadStringParser.shift pre) := by
  simp only [ReadStringParser.push_identifier, read_complete_shift]
  cases p.complete with
  | error e => rfl
  | ok q =>
    obtain ⟨ds, cur, st⟩ := q
    simp only [Except.map, ReadStringParser.shift]
    split_ifs <;> rfl

theorem read_push_value_shift (pre : List DataItem) (p : ReadStringParser) (valueType : Int)
    (str : String) :
    (p.shift pre).push_value valueType str =
      (p.push_value valueType str).map (ReadStringParser.shift pre) := by
  obtain ⟨ds, cur, st⟩ := p
  simp only [ReadStringParser.push_value, ReadStringParser.shift]
  split_ifs <;> first | rfl | (cases extract_num str <;> rfl)

theorem read_on_token_shift (pre : List DataItem) (p : ReadStringParser) (tok : Token) :
    (p.shift pre).on_token tok = (p.on_token tok).map (ReadStringParser.shift pre) := by
  simp only [ReadStringParser.on_token]
  split_ifs
  · rfl
  · exact read_push_type_shift pre p _
  · exact read_push_identifier_shift pre p _
  · exact read_push_value_shift pre p _ _
  · rfl

theorem read_feed_shift (pre : List DataItem) : ∀ (toks : List Token) (p : ReadStringParser),
    (p.shift pre).feed toks = (p.feed toks).map (ReadStringParser.shift pre) := by
  intro toks
  induction toks with
  | nil => intro p; rfl
  | cons t rest ih =>
    intro p
    simp only [ReadStringParser.feed, read_on_token_shift]
    cases p.on_token t with
    | error e => rfl
    | ok q => exact ih q

theorem read_on_head_complete (p q : ReadStringParser) (tok : Token) (hc : p.complete = .ok q)
    (hq : q.m_state = .Initial) (htok : tok.is_type ∨ tok.is_ident) :
    p.on_token tok = q.on_token tok := by
  have hqc : q.complete = .ok q := by simp [ReadStringParser.complete, hq]
  rcases htok with h | h
  · simp only [Token.is_type] at h
    simp only [ReadStringParser.on_token, not_lt.mpr h.1, h.2, if_true, if_false,
      ReadStringParser.push_type, hc, hqc]
  · simp only [Token.is_ident] at h
    simp only [ReadStringParser.on_token, h, ReadStringParser.push_identifier, hc, hqc]
    simp [IDENTIFIER, UNDEFINED_TYPE_NUM, MAX_TYPE_NUM, MAX_LITERAL]

/-- The unnamed-item parser on two descriptors in a row: when each is accepted
and the second is empty or starts with a type keyword or an identifier (or
the first is empty), the concatenation is accepted and yields the two item
lists in a row (a second descriptor that starts with a function marker is
not covered). -/
theorem parse_read_append (D1 D2 : List Token) (L1 L2 : List DataItem)
    (h1 : parse_read_tokens D1 = .ok L1) (h2 : parse_read_tokens D2 = .ok L2)
    (hhead : D1 = [] ∨ D2 = [] ∨ ∃ tok tl, D2 = tok :: tl ∧ (tok.is_type ∨ tok.is_ident)) :
    parse_read_tokens (D1 ++ D2) = .ok (L1 ++ L2) := by
  have h0 : parse_read_tokens [] = .ok [] := rfl
  rcases hhead with rfl | rfl | ⟨tok, tl, rfl, htok⟩
  · rw [h0] at h1
    cases h1
    simpa using h2
  · rw [h0] at h2
    cases h2
    simpa using h1
  · rw [parse_read_split]
    simp only [parse_read_tokens] at h1 h2
    cases hp1 : (ReadStringParser.new []).feed D1 with
    | error e => rw [hp1] at h1; cases h1
    | ok p1 =>
      rw [hp1] at h1
      simp only at h1 ⊢
      cases hq1 : p1.complete with
      | error e => rw [hq1] at h1; cases h1
      | ok q1 =>
        rw [hq1] at h1
        simp only [Except.ok.injEq] at h1
        have hclean : p1.clean :=
          read_feed_clean D1 _ p1 (fun _ => rfl) hp1
        obtain ⟨hs, hcur, _⟩ := read_complete_clean p1 q1 hclean hq1
        have hq1eq : q1 = (ReadStringParser.new []).shift L1 := by
          obtain ⟨ds, cur, st⟩ := q1
          simp only at hs hcur h1
          subst hs hcur h1
          simp [ReadStringParser.shift, ReadStringParser.new]
        have hfeed : p1.feed (tok :: tl) = q1.feed (tok :: tl) := by
          simp only [ReadStringParser.feed, read_on_head_complete p1 q1 tok hq1 hs htok]
        rw [hfeed, hq1eq, read_feed_shift]
        cases hp2 : (ReadStringParser.new []).feed (tok :: tl) with
        | error e => rw [hp2] at h2; cases h2
        | ok p2 =>
          rw [hp2] at h2
          simp only [Except.map, read_complete_shift] at h2 ⊢
          cases hq2 : p2.complete with
          | error e => rw [hq2] at h2; cases h2
          | ok q2 =>
            rw [hq2] at h2
            simp only [Except.ok.injEq] at h2
            simp only [Except.map, ReadStringParser.shift, h2]

theorem fields_complete_shift (pre : FieldList) (p : FieldsParser) :
    (p.shift pre).complete = (p.complete).map (FieldsParser.shift pre) := by
  obtain ⟨fs, cur, st⟩ := p
  simp only [FieldsParser.complete, FieldsParser.shift]
  split_ifs <;> simp [Except.map, FieldsParser.shift]

theorem fields_complete_void_shift (pre : FieldList) (p : FieldsParser) :
    (p.shift pre).complete_void = (p.complete_void).map (FieldsParser.shift pre) := by
  simp only [FieldsParser.complete_void]
  split_ifs with h1 h2 h2
  · exact fields_complete_shift pre p
  · exact absurd h1 h2
  · exact absurd h2 h1
  · rfl

theorem fields_push_type_shift (pre : FieldList) (p : FieldsParser) (t : DataType) :
    (p.shift pre).push_type t = (p.push_type t).map (FieldsParser.shift pre) := by
  simp only [FieldsParser.push_type, fields_complete_void_shift]
  cases p.complete_void with
  | error e => rfl
  | ok q =>
    obtain ⟨fs, cur, st⟩ := q
    simp only [Except.map, FieldsParser.shift]
    split_ifs <;> rfl

theorem fields_push_identifier_shift (pre : FieldList) (p : FieldsParser) (str : String) :
    (p.shift pre).push_identifier str =
      (p.push_identifier str).map (FieldsParser.shift pre) := by
  simp only [FieldsParser.push_identifier, fields_complete_void_shift]
  cases p.complete_void with
  | error e => rfl
  | ok q =>
    obtain ⟨fs, cur, st⟩ := q
    simp only [Except.map, FieldsParser.shift]
    split_ifs
    · rfl
    · exact fields_complete_shift pre ⟨fs, { cur with name := str }, .Name⟩
    · rfl

theorem fields_push_value_shift (pre : FieldList) (p : FieldsParser) (valueType : Int)
    (str : String) :
    (p.shift pre).push_value valueType str =
      (p.push_value valueType str).map (FieldsParser.shift pre) := by
  obtain ⟨fs, cur, st⟩ := p
  simp only [FieldsParser.push_value, FieldsParser.shift]
  split_ifs <;> first | rfl | (cases extract_num str <;> rfl)

theorem fields_push_symbol_shift (pre : FieldList) (p : FieldsParser) (sym : Int) :
    (p.shift pre).push_symbol sym = (p.push_symbol sym).map (FieldsParser.shift pre) := by
  obtain ⟨fs, cur, st⟩ := p
  simp only [FieldsParser.push_symbol, FieldsParser.shift]
  split_ifs <;> rfl

theorem fields_on_token_shift (pre : FieldList) (p : FieldsParser) (tok : Token) :
    (p.shift pre).on_token tok = (p.on_token tok).map (FieldsParser.shift pre) := by
  simp only [FieldsParser.on_token]
  split_ifs
  · exact fields_push_symbol_shift pre p _
  · exact fields_push_type_shift pre p _
  · exact fields_push_identifier_shift pre p _
  · exact fields_push_value_shift pre p _ _
  · rfl

theorem fields_feed_shift (pre : FieldList) : ∀ (toks : List Token) (p : FieldsParser),
    (p.shift pre).feed toks = (p.feed toks).map (FieldsParser.shift pre) := by
  intro toks
  induction toks with
  | nil => intro p; rfl
  | cons t rest ih =>
    intro p
    simp only [FieldsParser.feed, fields_on_token_shift]
    cases p.on_token t with
    | error e => rfl
    | ok q => exact ih q

theorem fields_complete_void_of_complete (p q : FieldsParser) (hp : p.sound)
    (hc : p.complete = .ok q) :
    p.complete_void = .ok q ∧ q.complete_void = .ok q ∧ q.m_state = .Initial ∧
      q.m_current = clear_field := by
  obtain ⟨fs, cur, st⟩ := p
  obtain ⟨hinit, hname⟩ := hp
  simp only at hinit hname
  simp only [FieldsParser.complete] at hc
  split_ifs at hc with h0 h1 h2 h3
  · cases hc
    subst h0
    refine ⟨by simp [FieldsParser.complete_void], by simp [FieldsParser.complete_void], rfl,
      hinit rfl⟩
  · cases hc
    have hst : st = .FixedLength ∨ st = .ArraySize := by
      by_contra hn
      push_neg at hn
      exact h2 hn
    refine ⟨?_, by simp [FieldsParser.complete_void], rfl, rfl⟩
    simp only [FieldsParser.complete_void, h1, hst, and_self, if_true, FieldsParser.complete,
      h0, if_false, h2, h3]

theorem fields_on_head_complete (p q : FieldsParser) (tok : Token) (hp : p.sound)
    (hc : p.complete = .ok q) (htok : tok.is_type ∨ tok.is_ident) :
    p.on_token tok = q.on_token tok := by
  obtain ⟨h1, h2, _, _⟩ := fields_complete_void_of_complete p q hp hc
  rcases htok with h | h
  · simp only [Token.is_type] at h
    simp only [FieldsParser.on_token, not_lt.mpr h.1, h.2, if_true, if_false,
      FieldsParser.push_type, h1, h2]
  · simp only [Token.is_ident] at h
    simp only [FieldsParser.on_token, h, FieldsParser.push_identifier, h1, h2]
    simp [IDENTIFIER, UNDEFINED_TYPE_NUM, MAX_TYPE_NUM, MAX_LITERAL]

/-- The named-field parser on two declarations in a row: when each is accepted
and the second is empty or starts with a type keyword or an identifier, or
the first leaves no item open (it is empty or ends with a named field), the
concatenation is accepted and yields the two field lists in a row (a
function marker after an anonymous void field is not covered). -/
theorem parse_fields_append (D1 D2 : List Token) (fields G1 F2 : FieldList)
    (h1 : parse_fields_tokens D1 fields = .ok G1) (h2 : parse_fields_tokens D2 [] = .ok F2)
    (hhead : D2 = [] ∨ (∃ tok tl, D2 = tok :: tl ∧ (tok.is_type ∨ tok.is_ident)) ∨
      ∃ p1, (FieldsParser.new fields).feed D1 = .ok p1 ∧ p1.m_state = .Initial) :
    parse_fields_tokens (D1 ++ D2) fields = .ok (G1 ++ F2) := by
  have h0 : parse_fields_tokens [] [] = .ok [] := rfl
  by_cases hnil : D2 = []
  · subst hnil
    rw [h0] at h2
    cases h2
    simpa using h1
  have hhead2 : (∃ tok tl, D2 = tok :: tl ∧ (tok.is_type ∨ tok.is_ident)) ∨
      ∃ p1, (FieldsParser.new fields).feed D1 = .ok p1 ∧ p1.m_state = .Initial := by
    rcases hhead with h | h | h
    · exact absurd h hnil
    · exact Or.inl h
    · exact Or.inr h
  rw [parse_fields_split2]
  simp only [parse_fields_tokens] at h1 h2
  cases hp1 : (FieldsParser.new fields).feed D1 with
  | error e => rw [hp1] at h1; cases h1
  | ok p1 =>
    rw [hp1] at h1
    simp only at h1 ⊢
    have hsound := fields_feed_sound D1 _ p1 (fields_new_sound fields) hp1
    cases hq1 : p1.complete with
    | error e => rw [hq1] at h1; cases h1
    | ok q1 =>
      rw [hq1] at h1
      simp only [Except.ok.injEq] at h1
      obtain ⟨_, _, hs, hcur⟩ := fields_complete_void_of_complete p1 q1 hsound hq1
      have hq1eq : q1 = (FieldsParser.new []).shift G1 := by
        obtain ⟨fs, cur, st⟩ := q1
        simp only at hs hcur h1
        subst hs hcur h1
        simp [FieldsParser.shift, FieldsParser.new]
      have hfeed : p1.feed D2 = q1.feed D2 := by
        rcases hhead2 with ⟨tok, tl, rfl, htok⟩ | ⟨p, hp, hinit⟩
        · simp only [FieldsParser.feed, fields_on_head_complete p1 q1 tok hsound hq1 htok]
        · rw [hp1] at hp
          cases hp
          simp only [FieldsParser.complete, hinit, if_true, Except.ok.injEq] at hq1
          rw [hq1]
      rw [hfeed, hq1eq, fields_feed_shift]
      cases hp2 : (FieldsParser.new []).feed D2 with
      | error e => rw [hp2] at h2; cases h2
      | ok p2 =>
        rw [hp2] at h2
        simp only [Except.map, fields_complete_shift] at h2 ⊢
        cases hq2 : p2.complete with
        | error e => rw [hq2] at h2; cases h2
        | ok q2 =>
          rw [hq2] at h2
          simp only [Except.ok.injEq] at h2
          simp only [Except.map, FieldsParser.shift, h2]

/-! ### Decoder: void items, value counts -/

theorem retrieve_void {σ : Type} (env : LuaEnv σ) (fuel : Nat) (item : DataItem)
    (st : DecState σ) (hv : item.type = .VOID)
    (hfit : st.source.m_pos + item.size * item.count < SIZE_MOD) :
    (st.source.m_pos + item.size * item.count ≤ st.source.m_size →
      retrieve env (fuel + 1) item st =
        some (.ok (), { st with source :=
          { st.source with m_pos := st.source.m_pos + item.size * item.count } })) ∧
    (st.source.m_pos + item.size * item.count > st.source.m_size →
      retrieve env (fuel + 1) item st =
        some (.error (.brie "Position outside of data space"), st)) := by
  have h1 : (item.size * item.count) % SIZE_MOD = item.size * item.count :=
    Nat.mod_eq_of_lt (by omega)
  have h2 : (st.source.m_pos + item.size * item.count) % SIZE_MOD =
      st.source.m_pos + item.size * item.count := Nat.mod_eq_of_lt hfit
  constructor
  · intro h
    simp only [retrieve, hv, if_true, h1, h2, Source.set_pos_state, gt_iff_lt, not_lt.mpr h,
      if_false]
  · intro h
    simp only [retrieve, hv, if_true, h1, h2, Source.set_pos_state, gt_iff_lt, h]

/-- Claim C31, the skip that wraps: for the descriptor
`"void#18446744073709551615"` (size `2^64 - 1`, count 1) on a source of 4
bytes with the cursor at 2, `pos + s*c` exceeds the size, yet the `size_t` sum
`pos + item.size * item.count` wraps to 1 and `set_pos(1)` is accepted: the
decode returns (no value, count 0) and the cursor has moved back to 1. -/
theorem void_skip_wraps :
    parse_read_tokens tokens_void_max = .ok [⟨.VOID, 18446744073709551615, 1, ""⟩] ∧
    src_four.m_pos + 18446744073709551615 * 1 > src_four.m_size ∧
    (func_read_wrapped env_none 1 tokens_void_max ⟨src_four, [], [], ()⟩).map
        (fun r => (r.1, r.2.source.m_pos, r.2.source.m_size, r.2.stack)) =
      some (.ok 0, 1, 4, []) :=
  ⟨rfl, by decide, rfl⟩

/-- Claim C32, the item of count 0: for the descriptor `"u8*0"` the decode
succeeds and `read` returns the count 1, but no value was pushed (the stack
is as before, the cursor too). -/
theorem zero_count_no_value :
    parse_read_tokens tokens_u8_zero = .ok [⟨.U8, 0, 0, ""⟩] ∧
    (func_read_wrapped env_none 1 tokens_u8_zero ⟨src_three, [], [], ()⟩).map
        (fun r => (r.1, r.2.source.m_pos, r.2.stack)) =
      some (.ok 1, 0, []) :=
  ⟨rfl, rfl⟩

/-! ### Descriptor parser: a function marker after an open item -/

/-- Claim C35, the function marker after an item: `"u8"` and `"@f"` are each
accepted by the unnamed-item parser, `"u8 @f"` is rejected
(`push_value(FUNC_CONSTANT)` does not complete the open item and finds the
state `Type`). -/
theorem read_func_after_item_rejected :
    parse_read_tokens [tok_type .U8] = .ok [⟨.U8, 0, 1, ""⟩] ∧
    parse_read_tokens [tok_func "@f"] = .ok [⟨.FUNC, 0, 1, "f"⟩] ∧
    parse_read_tokens ([tok_type .U8] ++ [tok_func "@f"]) =
      .error (.brie "Parser: invalid state") :=
  ⟨rfl, rfl, rfl⟩

/-- Claim C36, the function marker after a void field: `"void#1"` and `"@f2:aaa"`
are each accepted by the named-field parser, `"void#1 @f2:aaa"` is rejected
(`push_value(FUNC_CONSTANT)` does not complete the open void field and finds
the state `FixedLength`). -/
theorem fields_func_after_void_rejected :
    parse_fields_tokens [tok_type .VOID, tok_fixed "#1"] [] = .ok [⟨⟨.VOID, 1, 1, ""⟩, ""⟩] ∧
    parse_fields_tokens [tok_func "@f2", tok_colon, tok_ident "aaa"] [] =
      .ok [⟨⟨.FUNC, 0, 1, "f2"⟩, "aaa"⟩] ∧
    parse_fields_tokens ([tok_type .VOID, tok_fixed "#1"] ++
        [tok_func "@f2", tok_colon, tok_ident "aaa"]) [] =
      .error (.brie "Parser: invalid state") :=
  ⟨rfl, rfl, rfl⟩

/-! ### Source: the doubled length of `read_wstr` -/

/-- Claim C40, the length that wraps: `len *= 2` maps `2^63` to 0, so
`read_wstr(2^63)` is the null-terminated `read_wstr(0)` on every source; on
the 4 bytes `D0 94 00 00` it returns the 2 bytes before the terminator and
sets the cursor to 4 although fewer than `2 * 2^63` bytes remain. -/
theorem read_wstr_length_wraps :
    (∀ s : Source, s.read_wstr (2 ^ 63) = s.read_wstr 0) ∧
    src_wide.m_size - src_wide.m_pos < 2 * 2 ^ 63 ∧
    src_wide.read_wstr (2 ^ 63) = .ok ([0xD0, 0x94], { src_wide with m_pos := 4 }) :=
  ⟨fun _ => rfl, by decide, rfl⟩

/-! ### Decoder: one value per item of count at least 1 -/

theorem retrieve_fields_keeps_table {σ : Type} (rec : DataItem → DecState σ → Decode σ)
    (hrec : ∀ (f : DataItem) (st st1 : DecState σ), counts_pos st.structs → 1 ≤ f.count →
      rec f st = some (.ok (), st1) →
      counts_pos st1.structs ∧ (f.type = .VOID → st1.stack = st.stack) ∧
      (f.type ≠ .VOID → ∃ v, st1.stack = v :: st.stack)) :
    ∀ (fields : FieldList), (∀ f ∈ fields, 1 ≤ f.count) →
    ∀ (st st1 : DecState σ) (es : List (LuaKey × LuaValue)) (stack : List LuaValue),
      counts_pos st.structs → st.stack = .table es :: stack →
      retrieve_fields rec fields st = some (.ok (), st1) →
      counts_pos st1.structs ∧ ∃ es1, st1.stack = .table es1 :: stack := by
  intro fields
  induction fields with
  | nil =>
    intro _ st st1 es stack hpos hst h
    simp only [retrieve_fields, Option.some.injEq, Prod.mk.injEq, true_and] at h
    subst h
    exact ⟨hpos, es, hst⟩
  | cons f rest ih =>
    intro hall st st1 es stack hpos hst h
    have hf := hall f (List.mem_cons_self _ _)
    have hrest : ∀ g ∈ rest, 1 ≤ g.count := fun g hg => hall g (List.mem_cons_of_mem _ hg)
    simp only [retrieve_fields] at h
    cases hr : rec f.toDataItem st with
    | none => rw [hr] at h; cases h
    | some r =>
      obtain ⟨res, st2⟩ := r
      rw [hr] at h
      cases res with
      | error e => cases h
      | ok u =>
        obtain ⟨hpos2, hvoid, hval⟩ := hrec f.toDataItem st st2 hpos hf hr
        simp only at h
        by_cases hv : f.type = .VOID
        · simp only [hv, ne_eq, not_true_eq_false, if_false] at h
          exact ih hrest st2 st1 es stack hpos2 (by rw [hvoid hv, hst]) h
        · obtain ⟨v, hv2⟩ := hval hv
          simp only [hv, ne_eq, not_false_eq_true, if_true, hv2, hst, lua_setfield] at h
          exact ih hrest _ st1 _ stack (by exact hpos2) rfl h

theorem retrieve_value_pushes {σ : Type} (env : LuaEnv σ)
    (henv : ∀ w name r, env.call w name = some r → counts_pos w.structs →
      counts_pos r.2.structs)
    (rec : DataItem → DecState σ → Decode σ)
    (hrec : ∀ (f : DataItem) (st st1 : DecState σ), counts_pos st.structs → 1 ≤ f.count →
      rec f st = some (.ok (), st1) →
      counts_pos st1.structs ∧ (f.type = .VOID → st1.stack = st.stack) ∧
      (f.type ≠ .VOID → ∃ v, st1.stack = v :: st.stack))
    (item : DataItem) (st st1 : DecState σ) (hpos : counts_pos st.structs)
    (h : retrieve_value env rec item st = some (.ok (), st1)) :
    counts_pos st1.structs ∧ ∃ v, st1.stack = v :: st.stack := by
  obtain ⟨t, size, count, tn⟩ := item
  have hstruct : retrieve_struct rec tn st = some (.ok (), st1) →
      counts_pos st1.structs ∧ ∃ v, st1.stack = v :: st.stack := by
    intro hs
    simp only [retrieve_struct] at hs
    cases hg : get_struct st.structs tn with
    | error e => rw [hg] at hs; cases hs
    | ok fields =>
      rw [hg] at hs
      obtain ⟨hp1, es1, h1⟩ := retrieve_fields_keeps_table rec hrec fields
        (hpos tn fields hg) _ st1 [] st.stack (by exact hpos) rfl hs
      exact ⟨hp1, _, h1⟩
  cases t with
  | UNDEFINED_TYPE => exact hstruct h
  | MAX_TYPE => exact hstruct h
  | VOID => cases h
  | FUNC =>
    simp only [retrieve_value] at h
    cases hcall : env.call st.world tn with
    | none => rw [hcall] at h; cases h
    | some r =>
      obtain ⟨res, w⟩ := r
      rw [hcall] at h
      have hw : counts_pos w.structs := henv st.world tn _ hcall hpos
      cases res with
      | error e => cases h
      | ok results =>
        simp only at h
        split_ifs at h with hl
        · cases h
        · obtain ⟨v, rfl⟩ := List.length_eq_one.mp (not_not.mp hl)
          simp only [Option.some.injEq, Prod.mk.injEq, true_and] at h
          rw [← h]
          exact ⟨hw, v, rfl⟩
  | U8 | U16 | U32 | I16 | I32 | I64 =>
    simp only [retrieve_value] at h
    cases hr : Source.read_int_state st.source _ with
    | mk res s =>
      rw [hr] at h
      cases res with
      | error e => cases h
      | ok v => cases h; exact ⟨hpos, _, rfl⟩
  | F32 | F64 =>
    simp only [retrieve_value] at h
    cases hr : Source.read_float_state st.source _ with
    | mk res s =>
      rw [hr] at h
      cases res with
      | error e => cases h
      | ok v => cases h; exact ⟨hpos, _, rfl⟩
  | STRING =>
    simp only [retrieve_value] at h
    cases hr : Source.read_str_state st.source size with
    | mk res s =>
      rw [hr] at h
      cases res with
      | error e => cases h
      | ok v => cases h; exact ⟨hpos, _, rfl⟩
  | WSTRING =>
    simp only [retrieve_value] at h
    cases hr : Source.read_wstr_state st.source size with
    | mk res s =>
      rw [hr] at h
      cases res with
      | error e => cases h
      | ok v => cases h; exact ⟨hpos, _, rfl⟩

theorem retrieve_loop_keeps_table {σ : Type} (body : DecState σ → Decode σ)
    (hbody : ∀ st st1, counts_pos st.structs → body st = some (.ok (), st1) →
      counts_pos st1.structs ∧ ∃ v, st1.stack = v :: st.stack)
    (count : Nat) (hc : count > 1) :
    ∀ (n i : Nat) (st st1 : DecState σ) (es : List (LuaKey × LuaValue))
      (stack : List LuaValue),
      counts_pos st.structs → st.stack = .table es :: stack →
      retrieve_loop body count n i st = some (.ok (), st1) →
      counts_pos st1.structs ∧ ∃ es1, st1.stack = .table es1 :: stack := by
  intro n
  induction n with
  | zero =>
    intro i st st1 es stack hpos hst h
    simp only [retrieve_loop] at h
    split_ifs at h
    simp only [Option.some.injEq, Prod.mk.injEq, true_and] at h
    subst h
    exact ⟨hpos, es, hst⟩
  | succ n ih =>
    intro i st st1 es stack hpos hst h
    simp only [retrieve_loop] at h
    cases hb : body st with
    | none => rw [hb] at h; cases h
    | some r =>
      obtain ⟨res, st2⟩ := r
      rw [hb] at h
      cases res with
      | error e => cases h
      | ok u =>
        obtain ⟨hpos2, v, hv⟩ := hbody st st2 hpos hb
        simp only [hc, if_true, hv, hst, lua_rawseti] at h
        exact ih (i + 1) _ st1 _ stack (by exact hpos2) rfl h

theorem retrieve_pushes {σ : Type} (env : LuaEnv σ)
    (henv : ∀ w name r, env.call w name = some r → counts_pos w.structs →
      counts_pos r.2.structs) :
    ∀ (fuel : Nat) (item : DataItem) (st st1 : DecState σ), counts_pos st.structs →
      1 ≤ item.count → retrieve env fuel item st = some (.ok (), st1) →
      counts_pos st1.structs ∧ (item.type = .VOID → st1.stack = st.stack) ∧
      (item.type ≠ .VOID → ∃ v, st1.stack = v :: st.stack) := by
  intro fuel
  induction fuel with
  | zero => intro item st st1 _ _ h; simp [retrieve] at h
  | succ fuel ih =>
    intro item st st1 hpos hc h
    simp only [retrieve] at h
    by_cases hv : item.type = .VOID
    · simp only [hv, if_true, Source.set_pos_state] at h
      have hst : st1.structs = st.structs ∧ st1.stack = st.stack := by
        split_ifs at h <;> cases h
        exact ⟨rfl, rfl⟩
      exact ⟨by rw [hst.1]; exact hpos, fun _ => hst.2, fun hn => absurd hv hn⟩
    · simp only [hv, if_false] at h
      have hbody := retrieve_value_pushes env henv (retrieve env fuel) ih item
      by_cases h1 : item.count = 1
      · simp only [h1, gt_iff_lt, lt_irrefl, if_false, retrieve_loop_once] at h
        obtain ⟨hp1, hv1⟩ := hbody st st1 hpos h
        exact ⟨hp1, fun hn => absurd hn hv, fun _ => hv1⟩
      · have hgt : item.count > 1 := by omega
        simp only [hgt, if_true] at h
        obtain ⟨hp1, es1, he⟩ := retrieve_loop_keeps_table _ hbody item.count hgt item.count 1 _
          st1 [] st.stack (by exact hpos) rfl h
        exact ⟨hp1, fun hn => absurd hn hv, fun _ => ⟨_, he⟩⟩

/-- Where every count is at least 1 (in the item list and in the registered
structs, also after the calls of Lua functions), a successful `read`
returns the number of values it pushed: one value per item that is no `void`
item. -/
theorem read_items_values {σ : Type} (env : LuaEnv σ) (fuel : Nat)
    (henv : ∀ w name r, env.call w name = some r → counts_pos w.structs →
      counts_pos r.2.structs) :
    ∀ (items : List DataItem) (n m : Nat) (st st1 : DecState σ), counts_pos st.structs →
      (∀ it ∈ items, 1 ≤ it.count) →
      read_items env fuel items n st = some (.ok m, st1) →
      ∃ vs : List LuaValue, st1.stack = vs ++ st.stack ∧ m = n + vs.length ∧
        vs.length = (items.filter (fun it => decide (it.type ≠ .VOID))).length := by
  intro items
  induction items with
  | nil =>
    intro n m st st1 _ _ h
    simp only [read_items, Option.some.injEq, Prod.mk.injEq, Except.ok.injEq] at h
    obtain ⟨rfl, rfl⟩ := h
    exact ⟨[], rfl, rfl, rfl⟩
  | cons item rest ih =>
    intro n m st st1 hpos hall h
    simp only [read_items] at h
    cases hr : retrieve env fuel item st with
    | none => rw [hr] at h; cases h
    | some r =>
      obtain ⟨res, st2⟩ := r
      rw [hr] at h
      cases res with
      | error e => cases h
      | ok u =>
        simp only at h
        obtain ⟨hpos2, hvoid, hval⟩ := retrieve_pushes env henv fuel item st st2 hpos
          (hall item (List.mem_cons_self _ _)) hr
        obtain ⟨vs, hvs, hm, hlen⟩ := ih _ m st2 st1 hpos2
          (fun it hit => hall it (List.mem_cons_of_mem _ hit)) h
        by_cases hv : item.type = .VOID
        · refine ⟨vs, by rw [hvs, hvoid hv], ?_, ?_⟩
          · simpa [hv] using hm
          · simpa [hv] using hlen
        · obtain ⟨v, hv2⟩ := hval hv
          refine ⟨vs ++ [v], by rw [hvs, hv2]; simp, ?_, ?_⟩
          · simp only [hv, ne_eq, not_false_eq_true, if_true] at hm
            simp only [List.length_append, List.length_singleton]
            omega
          · simp [hv, hlen]

/-! ### Decoder: function-reference items -/

theorem retrieve_value_func {σ : Type} (env : LuaEnv σ)
    (rec : DataItem → DecState σ → Decode σ) (item : DataItem) (st : DecState σ)
    (hf : item.type = .FUNC) :
    retrieve_value env rec item st =
      match env.call st.world item.typeName with
      | none => some (.error (.brie "Function not defined"), st)
      | some (.error e, w) => some (.error e, st.set_world w)
      | some (.ok results, w) =>
        if results.length ≠ 1 then
          some (.error (.brie "Function returned too many results"),
            { st.set_world w with stack := results.reverse ++ st.stack })
        else some (.ok (), { st.set_world w with stack := results.reverse ++ st.stack }) := by
  simp only [retrieve_value, hf]

theorem invoke_all_length {σ : Type} (env : LuaEnv σ) (name : String) :
    ∀ (n : Nat) (w w1 : World σ) (vs : List LuaValue),
      invoke_all env name n w = .ok (vs, w1) → vs.length = n := by
  intro n
  induction n with
  | zero =>
    intro w w1 vs h
    simp only [invoke_all, Except.ok.injEq, Prod.mk.injEq] at h
    rw [← h.1]
    rfl
  | succ n ih =>
    intro w w1 vs h
    simp only [invoke_all] at h
    cases hcall : env.call w name with
    | none => rw [hcall] at h; cases h
    | some r =>
      obtain ⟨res, w2⟩ := r
      rw [hcall] at h
      cases res with
      | error e => cases h
      | ok results =>
        cases results with
        | nil => cases h
        | cons v rest =>
          cases rest with
          | cons v2 rest2 => cases h
          | nil =>
            simp only at h
            cases hrec : invoke_all env name n w2 with
            | error x => rw [hrec] at h; cases h
            | ok r2 =>
              obtain ⟨vs2, w3⟩ := r2
              rw [hrec] at h
              simp only [Except.ok.injEq, Prod.mk.injEq] at h
              rw [← h.1, List.length_cons, ih w2 w3 vs2 hrec]

theorem invoke_all_source {σ : Type} (env : LuaEnv σ) (name : String)
    (hpure : ∀ w r, env.call w name = some r → r.2.source = w.source) :
    ∀ (n : Nat) (w : World σ),
      (∀ vs w1, invoke_all env name n w = .ok (vs, w1) → w1.source = w.source) ∧
      (∀ e w1, invoke_all env name n w = .error (e, w1) → w1.source = w.source) := by
  intro n
  induction n with
  | zero =>
    intro w
    refine ⟨fun vs w1 h => ?_, fun e w1 h => ?_⟩
    · simp only [invoke_all, Except.ok.injEq, Prod.mk.injEq] at h
      rw [← h.2]
    · cases h
  | succ n ih =>
    intro w
    simp only [invoke_all]
    cases hcall : env.call w name with
    | none =>
      refine ⟨fun vs w1 h => (by cases h), fun e w1 h => ?_⟩
      simp only [Except.error.injEq, Prod.mk.injEq] at h
      rw [← h.2]
    | some r =>
      obtain ⟨res, w2⟩ := r
      have hw2 : w2.source = w.source := hpure w _ hcall
      cases res with
      | error e1 =>
        refine ⟨fun vs w1 h => (by cases h), fun e w1 h => ?_⟩
        simp only [Except.error.injEq, Prod.mk.injEq] at h
        rw [← h.2, hw2]
      | ok results =>
        cases results with
        | nil =>
          refine ⟨fun vs w1 h => (by cases h), fun e w1 h => ?_⟩
          simp only [Except.error.injEq, Prod.mk.injEq] at h
          rw [← h.2, hw2]
        | cons v rest =>
          cases rest with
          | cons v2 rest2 =>
            refine ⟨fun vs w1 h => (by cases h), fun e w1 h => ?_⟩
            simp only [Except.error.injEq, Prod.mk.injEq] at h
            rw [← h.2, hw2]
          | nil =>
            obtain ⟨ih1, ih2⟩ := ih w2
            simp only
            cases hrec : invoke_all env name n w2 with
            | error x =>
              obtain ⟨e2, w3⟩ := x
              refine ⟨fun vs w1 h => (by cases h), fun e w1 h => ?_⟩
              simp only [Except.error.injEq, Prod.mk.injEq] at h
              rw [← h.2, ih2 e2 w3 hrec, hw2]
            | ok r2 =>
              obtain ⟨vs2, w3⟩ := r2
              refine ⟨fun vs w1 h => ?_, fun e w1 h => by cases h⟩
              simp only [Except.ok.injEq, Prod.mk.injEq] at h
              rw [← h.2, ih1 vs2 w3 hrec, hw2]

theorem func_loop_invoke {σ : Type} (env : LuaEnv σ) (rec : DataItem → DecState σ → Decode σ)
    (item : DataItem) (hf : item.type = .FUNC) (count : Nat) (hc : count > 1)
    (hmax : count < SIZE_MOD - 1) :
    ∀ (n i : Nat) (st : DecState σ) (es : List (LuaKey × LuaValue)) (stack0 : List LuaValue),
      st.stack = .table es :: stack0 →
      (∀ vs w, invoke_all env item.typeName n st.world = .ok (vs, w) →
        retrieve_loop (retrieve_value env rec item) count n i st =
          some (.ok (), ⟨w.source, .table (set_elems es i vs) :: stack0, w.structs,
            w.globals⟩)) ∧
      (∀ e w, invoke_all env item.typeName n st.world = .error (e, w) →
        ∃ st1, retrieve_loop (retrieve_value env rec item) count n i st =
          some (.error e, st1) ∧ st1.world = w) := by
  intro n
  induction n with
  | zero =>
    intro i st es stack0 hst
    obtain ⟨src, stk, d, g⟩ := st
    simp only at hst
    subst hst
    refine ⟨fun vs w h => ?_, fun e w h => by cases h⟩
    simp only [invoke_all, Except.ok.injEq, Prod.mk.injEq] at h
    obtain ⟨rfl, rfl⟩ := h
    simp only [retrieve_loop, if_neg (Nat.ne_of_lt hmax)]
    rfl
  | succ n ih =>
    intro i st es stack0 hst
    obtain ⟨src, stk, d, g⟩ := st
    simp only at hst
    subst hst
    simp only [invoke_all, retrieve_loop, retrieve_value_func env rec item _ hf]
    cases hcall : env.call (DecState.world ⟨src, .table es :: stack0, d, g⟩) item.typeName with
    | none =>
      refine ⟨fun vs w h => (by cases h), fun e w h => ?_⟩
      simp only [Except.error.injEq, Prod.mk.injEq] at h
      obtain ⟨rfl, rfl⟩ := h
      exact ⟨_, rfl, rfl⟩
    | some r =>
      obtain ⟨res, w2⟩ := r
      cases res with
      | error e1 =>
        refine ⟨fun vs w h => (by cases h), fun e w h => ?_⟩
        simp only [Except.error.injEq, Prod.mk.injEq] at h
        obtain ⟨rfl, rfl⟩ := h
        exact ⟨_, rfl, rfl⟩
      | ok results =>
        cases results with
        | nil =>
          refine ⟨fun vs w h => (by cases h), fun e w h => ?_⟩
          simp only [Except.error.injEq, Prod.mk.injEq] at h
          obtain ⟨rfl, rfl⟩ := h
          exact ⟨_, rfl, rfl⟩
        | cons v rest =>
          cases rest with
          | cons v2 rest2 =>
            have hl : (v :: v2 :: rest2).length ≠ 1 := by simp
            simp only [if_pos hl]
            refine ⟨fun vs w h => (by cases h), fun e w h => ?_⟩
            cases h
            exact ⟨_, rfl, rfl⟩
          | nil =>
            obtain ⟨ih1, ih2⟩ := ih (i + 1)
              ⟨w2.source, .table (table_set es (.idx i) v) :: stack0, w2.structs, w2.globals⟩
              (table_set es (.idx i) v) stack0 rfl
            have hw : DecState.world (σ := σ)
                ⟨w2.source, .table (table_set es (.idx i) v) :: stack0, w2.structs,
                  w2.globals⟩ = w2 := rfl
            rw [hw] at ih1 ih2
            simp only [List.length_singleton, ne_eq, not_true_eq_false, if_false, hc, if_true,
              DecState.set_world, List.reverse_singleton, List.singleton_append, lua_rawseti]
            cases hrec : invoke_all env item.typeName n w2 with
            | error x =>
              obtain ⟨e2, w3⟩ := x
              refine ⟨fun vs w h => (by cases h), fun e w h => ?_⟩
              simp only [Except.error.injEq, Prod.mk.injEq] at h
              obtain ⟨rfl, rfl⟩ := h
              exact ih2 e2 w3 hrec
            | ok r2 =>
              obtain ⟨vs2, w3⟩ := r2
              refine ⟨fun vs w h => ?_, fun e w h => by cases h⟩
              simp only [Except.ok.injEq, Prod.mk.injEq] at h
              obtain ⟨rfl, rfl⟩ := h
              simp only [set_elems]
              exact ih1 vs2 w3 hrec

theorem func_once_invoke {σ : Type} (env : LuaEnv σ) (rec : DataItem → DecState σ → Decode σ)
    (item : DataItem) (hf : item.type = .FUNC) (st : DecState σ) :
    (∀ vs w, invoke_all env item.typeName 1 st.world = .ok (vs, w) →
      retrieve_value env rec item st =
        some (.ok (), ⟨w.source, vs.headD .nil :: st.stack, w.structs, w.globals⟩)) ∧
    (∀ e w, invoke_all env item.typeName 1 st.world = .error (e, w) →
      ∃ st1, retrieve_value env rec item st = some (.error e, st1) ∧ st1.world = w) := by
  simp only [invoke_all, retrieve_value_func env rec item _ hf]
  cases hcall : env.call st.world item.typeName with
  | none =>
    refine ⟨fun vs w h => (by cases h), fun e w h => ?_⟩
    cases h
    exact ⟨_, rfl, rfl⟩
  | some r =>
    obtain ⟨res, w2⟩ := r
    cases res with
    | error e1 =>
      refine ⟨fun vs w h => (by cases h), fun e w h => ?_⟩
      cases h
      exact ⟨_, rfl, rfl⟩
    | ok results =>
      cases results with
      | nil =>
        refine ⟨fun vs w h => (by cases h), fun e w h => ?_⟩
        cases h
        exact ⟨_, rfl, rfl⟩
      | cons v rest =>
        cases rest with
        | cons v2 rest2 =>
          have hl : (v :: v2 :: rest2).length ≠ 1 := by simp
          simp only [if_pos hl]
          refine ⟨fun vs w h => (by cases h), fun e w h => ?_⟩
          cases h
          exact ⟨_, rfl, rfl⟩
        | nil =>
          refine ⟨fun vs w h => ?_, fun e w h => (by cases h)⟩
          cases h
          rfl

theorem func_loop_never {σ : Type} (env : LuaEnv σ) (rec : DataItem → DecState σ → Decode σ)
    (item : DataItem) (hf : item.type = .FUNC)
    (hgood : ∀ w, ∃ v w1, env.call w item.typeName = some (.ok [v], w1)) :
    ∀ (n i : Nat) (st : DecState σ) (es : List (LuaKey × LuaValue)) (stack0 : List LuaValue),
      st.stack = .table es :: stack0 →
      retrieve_loop (retrieve_value env rec item) (SIZE_MOD - 1) n i st = none := by
  intro n
  induction n with
  | zero => intro i st es stack0 _; simp only [retrieve_loop, if_true]
  | succ n ih =>
    intro i st es stack0 hst
    obtain ⟨v, w1, hcall⟩ := hgood st.world
    have hbig : SIZE_MOD - 1 > 1 := by simp only [SIZE_MOD]; norm_num
    simp only [retrieve_loop, retrieve_value_func env rec item _ hf, hcall,
      List.length_singleton, ne_eq, not_true_eq_false, if_false, hbig, if_true, hst,
      List.reverse_singleton, List.singleton_append, lua_rawseti]
    exact ih (i + 1) _ _ stack0 rfl

theorem invoke_all_f2 : ∀ (n : Nat) (w : World Unit),
    invoke_all env_f2_f3 "f2" n w = .ok (List.replicate n (.integer 42), w) := by
  intro n
  induction n with
  | zero => intro w; rfl
  | succ n ih =>
    intro w
    have hcall : env_f2_f3.call w "f2" = some (.ok [.integer 42], w) := rfl
    simp only [invoke_all, hcall, ih w, List.replicate_succ]

/-- Claim C33 as the code has it: decoding a function-reference item with
`1 <= count < 2^64 - 1` makes `count` invocations of the named global, one
after the other.  It succeeds if and only if every invocation finds a
function and gets exactly one value back; it fails with the error of the
first invocation that does not (the global is no function, the call raises
an error, or it returns no value or more than one).  On success the item's
value, pushed at that position, is the returned value (count 1) or the array
of the `count` returned values in call order.  The decoder itself does not
touch the source: the source, the registry and the globals are as the last
call left them, so the cursor has not moved when the called function leaves
the source alone. -/
theorem decode_func_item {σ : Type} (env : LuaEnv σ) (fuel : Nat) (item : DataItem)
    (st : DecState σ) (hf : item.type = .FUNC) (hc : 1 ≤ item.count)
    (hmax : item.count < SIZE_MOD - 1) :
    (∀ vs w, invoke_all env item.typeName item.count st.world = .ok (vs, w) →
      vs.length = item.count ∧
      retrieve env (fuel + 1) item st =
        some (.ok (), ⟨w.source,
          (if item.count = 1 then vs.headD .nil else .table (set_elems [] 1 vs)) :: st.stack,
          w.structs, w.globals⟩)) ∧
    (∀ e w, invoke_all env item.typeName item.count st.world = .error (e, w) →
      ∃ st1, retrieve env (fuel + 1) item st = some (.error e, st1) ∧ st1.world = w) ∧
    ((∃ st1, retrieve env (fuel + 1) item st = some (.ok (), st1)) ↔
      ∃ vs w, invoke_all env item.typeName item.count st.world = .ok (vs, w)) ∧
    ((∀ w r, env.call w item.typeName = some r → r.2.source = w.source) →
      ∀ res st1, retrieve env (fuel + 1) item st = some (res, st1) →
        st1.source = st.source) ∧
    (env.call st.world item.typeName = none →
      ∃ st1, retrieve env (fuel + 1) item st =
        some (.error (.brie "Function not defined"), st1) ∧ st1.world = st.world) ∧
    (∀ results w, env.call st.world item.typeName = some (.ok results, w) →
      results.length ≠ 1 →
      ∃ st1, retrieve env (fuel + 1) item st =
        some (.error (.brie "Function returned too many results"), st1) ∧
          st1.world = w) := by
  have hv : item.type ≠ .VOID := by rw [hf]; decide
  obtain ⟨n, hn⟩ : ∃ n, item.count = n + 1 := ⟨item.count - 1, by omega⟩
  have hunf : retrieve env (fuel + 1) item st =
      retrieve_loop (retrieve_value env (retrieve env fuel) item) item.count
        item.count 1
        (if item.count > 1 then { st with stack := .table [] :: st.stack } else st) := by
    simp only [retrieve, hv, if_false]
  have hok : ∀ vs w, invoke_all env item.typeName item.count st.world = .ok (vs, w) →
      retrieve env (fuel + 1) item st =
        some (.ok (), ⟨w.source,
          (if item.count = 1 then vs.headD .nil else .table (set_elems [] 1 vs)) :: st.stack,
          w.structs, w.globals⟩) := by
    intro vs w h
    rw [hunf]
    by_cases h1 : item.count = 1
    · rw [h1] at h
      simp only [h1, gt_iff_lt, lt_irrefl, if_false, if_true, retrieve_loop_once]
      exact (func_once_invoke env _ item hf st).1 vs w h
    · have hgt : item.count > 1 := by omega
      simp only [hgt, if_true, h1, if_false]
      exact (func_loop_invoke env _ item hf item.count hgt hmax item.count 1
        { st with stack := .table [] :: st.stack } [] st.stack rfl).1 vs w h
  have herr : ∀ e w, invoke_all env item.typeName item.count st.world = .error (e, w) →
      ∃ st1, retrieve env (fuel + 1) item st = some (.error e, st1) ∧ st1.world = w := by
    intro e w h
    rw [hunf]
    by_cases h1 : item.count = 1
    · rw [h1] at h
      simp only [h1, gt_iff_lt, lt_irrefl, if_false, retrieve_loop_once]
      exact (func_once_invoke env _ item hf st).2 e w h
    · have hgt : item.count > 1 := by omega
      simp only [hgt, if_true]
      exact (func_loop_invoke env _ item hf item.count hgt hmax item.count 1
        { st with stack := .table [] :: st.stack } [] st.stack rfl).2 e w h
  refine ⟨fun vs w h => ⟨invoke_all_length env _ _ _ w vs h, hok vs w h⟩, herr,
    ⟨fun ⟨st1, h⟩ => ?_, fun ⟨vs, w, h⟩ => ⟨_, hok vs w h⟩⟩, fun hpure res st1 h => ?_,
    fun hnone => herr _ _ (by rw [hn]; simp only [invoke_all, hnone]),
    fun results w hcall hl => herr _ _ (by
      rw [hn]
      simp only [invoke_all, hcall]
      cases results with
      | nil => rfl
      | cons v rest =>
        cases rest with
        | nil => exact absurd rfl hl
        | cons v2 rest2 => rfl)⟩
  · cases hinv : invoke_all env item.typeName item.count st.world with
    | ok r => exact ⟨r.1, r.2, rfl⟩
    | error x =>
      obtain ⟨st2, h2, _⟩ := herr x.1 x.2 hinv
      rw [h2] at h
      cases h
  · obtain ⟨hs1, hs2⟩ := invoke_all_source env item.typeName hpure item.count st.world
    cases hinv : invoke_all env item.typeName item.count st.world with
    | ok r =>
      rw [hok r.1 r.2 hinv] at h
      cases h
      exact hs1 r.1 r.2 hinv
    | error x =>
      obtain ⟨st2, h2, hw⟩ := herr x.1 x.2 hinv
      rw [h2] at h
      cases h
      have := hs2 x.1 x.2 hinv
      rw [← hw] at this
      exact this

/-- Counterexamples of C33: the item `@f*0` with no function `f` defined is
decoded without an error; the item `@h`, where `h` returns `read('u8')`,
is decoded with the cursor moved from 0 to 1; and for the item
`@f2*18446744073709551615`, where every call of `f2` returns the one value
42, the decoding never returns. -/
theorem func_item_counterexamples :
    ((∀ w, env_none.call w "f" = none) ∧
      parse_read_tokens tokens_func_zero = .ok [⟨.FUNC, 0, 0, "f"⟩] ∧
      (func_read_wrapped env_none 1 tokens_func_zero ⟨src_three, [], [], ()⟩).map
          (fun r => (r.1, r.2.source.m_pos, r.2.stack)) =
        some (.ok 1, 0, [])) ∧
    (src_three.m_pos = 0 ∧
      (retrieve env_reader 1 ⟨.FUNC, 0, 1, "h"⟩ ⟨src_three, [], [], ()⟩).map
          (fun r => (r.1, r.2.source.m_pos, r.2.stack)) =
        some (.ok (), 1, [.integer 1])) ∧
    ((∀ n w, invoke_all env_f2_f3 "f2" n w = .ok (List.replicate n (.integer 42), w)) ∧
      ∀ fuel, retrieve env_f2_f3 fuel ⟨.FUNC, 0, 18446744073709551615, "f2"⟩
        ⟨src_three, [], [], ()⟩ = none) := by
  refine ⟨⟨fun _ => rfl, rfl, rfl⟩, ⟨rfl, rfl⟩, invoke_all_f2, fun fuel => ?_⟩
  cases fuel with
  | zero => rfl
  | succ fuel =>
    have hmaxc : (18446744073709551615 : Nat) = SIZE_MOD - 1 := by
      simp only [SIZE_MOD]
    have hgt : (18446744073709551615 : Nat) > 1 := by norm_num
    simp only [retrieve, reduceCtorEq, if_false, hgt, if_true]
    rw [hmaxc]
    exact func_loop_never env_f2_f3 _ ⟨.FUNC, 0, SIZE_MOD - 1, "f2"⟩ rfl
      (fun w => ⟨.integer 42, w, rfl⟩) _ 1 _ [] [] rfl

/-- Witness of C33: the field `@f3*4` of `TEST(CONSOLE, Struct5)` yields the
array of four times 37. -/
theorem decode_func_item_witness :
    invoke_all env_f2_f3 "f3" 4 ⟨src_three, [], ()⟩ =
      .ok ([.integer 37, .integer 37, .integer 37, .integer 37], ⟨src_three, [], ()⟩) ∧
    retrieve env_f2_f3 1 ⟨.FUNC, 0, 4, "f3"⟩ ⟨src_three, [], [], ()⟩ =
      some (.ok (), ⟨src_three, [.table [(.idx 1, .integer 37), (.idx 2, .integer 37),
        (.idx 3, .integer 37), (.idx 4, .integer 37)]], [], ()⟩) :=
  ⟨rfl, ((decode_func_item env_f2_f3 0 ⟨.FUNC, 0, 4, "f3"⟩ ⟨src_three, [], [], ()⟩ rfl
    (by decide) (by decide)).1 _ _ rfl).2⟩

/-! ### Decoder: the cursor after a failed read -/

theorem retrieve_single_error {σ : Type} (env : LuaEnv σ) (fuel : Nat)
    (item : DataItem) (st st2 : DecState σ) (e : Error) (hs : item.single)
    (h : retrieve env (fuel + 1) item st = some (.error e, st2)) :
    st2.source = st.source := by
  obtain ⟨t, size, count, tn⟩ := item
  rcases hs with hv | ⟨hc, hn, hnf⟩
  · simp only at hv
    subst hv
    simp only [retrieve, if_true, Source.set_pos_state] at h
    split_ifs at h <;> cases h
    rfl
  · simp only at hc hnf
    subst hc
    simp only [custom_type] at hn
    push_neg at hn
    cases t with
    | UNDEFINED_TYPE => exact absurd rfl hn.1
    | MAX_TYPE => exact absurd rfl hn.2
    | FUNC => exact absurd rfl hnf
    | VOID =>
      simp only [retrieve, if_true, Source.set_pos_state] at h
      split_ifs at h <;> cases h
      rfl
    | U8 | U16 | U32 | I16 | I32 | I64 =>
      simp only [retrieve, retrieve_loop_once, retrieve_value, gt_iff_lt, lt_irrefl, if_false,
        reduceCtorEq, read_int_state_agrees] at h
      cases hr : Source.read_int st.source _ with
      | error e1 => rw [hr] at h; cases h; rfl
      | ok r => rw [hr] at h; cases h
    | F32 | F64 =>
      simp only [retrieve, retrieve_loop_once, retrieve_value, gt_iff_lt, lt_irrefl, if_false,
        reduceCtorEq, read_float_state_agrees] at h
      cases hr : Source.read_float st.source _ with
      | error e1 => rw [hr] at h; cases h; rfl
      | ok r => rw [hr] at h; cases h
    | STRING =>
      simp only [retrieve, retrieve_loop_once, retrieve_value, gt_iff_lt, lt_irrefl, if_false,
        reduceCtorEq, read_str_state_agrees] at h
      cases hr : Source.read_str st.source size with
      | error e1 => rw [hr] at h; cases h; rfl
      | ok r => rw [hr] at h; cases h
    | WSTRING =>
      simp only [retrieve, retrieve_loop_once, retrieve_value, gt_iff_lt, lt_irrefl, if_false,
        reduceCtorEq, read_wstr_state_agrees] at h
      cases hr : Source.read_wstr st.source size with
      | error e1 => rw [hr] at h; cases h; rfl
      | ok r => rw [hr] at h; cases h

theorem read_items_error_split {σ : Type} (env : LuaEnv σ) (fuel : Nat) :
    ∀ (items : List DataItem) (n : Nat) (st st2 : DecState σ) (e : Error),
    read_items env fuel items n st = some (.error e, st2) →
    ∃ pre item rest m st1, items = pre ++ item :: rest ∧
      read_items env fuel pre n st = some (.ok m, st1) ∧
      retrieve env fuel item st1 = some (.error e, st2) := by
  intro items
  induction items with
  | nil => intro n st st2 e h; simp [read_items] at h
  | cons item rest ih =>
    intro n st st2 e h
    simp only [read_items] at h
    cases hr : retrieve env fuel item st with
    | none => rw [hr] at h; cases h
    | some r =>
      obtain ⟨res, st1⟩ := r
      rw [hr] at h
      cases res with
      | error e1 =>
        simp only [Option.some.injEq, Prod.mk.injEq, Except.error.injEq] at h
        obtain ⟨rfl, rfl⟩ := h
        exact ⟨[], item, rest, n, st, rfl, rfl, hr⟩
      | ok u =>
        simp only at h
        obtain ⟨pre, it, rest2, m, st3, hsplit, hpre, hfail⟩ := ih _ st1 st2 e h
        refine ⟨item :: pre, it, rest2, m, st3, by rw [hsplit]; rfl, ?_, hfail⟩
        simp only [read_items, hr]
        exact hpre

/-- Claim C34 as the code has it: a failed `read` is not rolled back.  Either the
descriptor is rejected by the parser and the state is untouched, or some item
fails: the items before it were decoded and stay consumed, and the state
after the failed read is the one the failing item leaves; when the failing
item is a `void` skip or a single number or string (no struct, no array, no
function reference), the cursor is the one reached after the items before
it. -/
theorem failed_decode_cursor {σ : Type} (env : LuaEnv σ) (fuel : Nat)
    (tokens : List Token) (st st2 : DecState σ) (e : Error)
    (h : func_read_wrapped env fuel tokens st = some (.error e, st2)) :
    (parse_read_tokens tokens = .error e ∧ st2 = st) ∨
    (∃ pre item rest m st1, parse_read_tokens tokens = .ok (pre ++ item :: rest) ∧
      read_items env fuel pre 0 st = some (.ok m, st1) ∧
      retrieve env fuel item st1 = some (.error e, st2) ∧
      (item.single → st2.source = st1.source)) := by
  simp only [func_read_wrapped] at h
  cases hp : parse_read_tokens tokens with
  | error e1 =>
    rw [hp] at h
    simp only [Option.some.injEq, Prod.mk.injEq, Except.error.injEq] at h
    obtain ⟨rfl, rfl⟩ := h
    exact Or.inl ⟨rfl, rfl⟩
  | ok items =>
    rw [hp] at h
    simp only at h
    cases hr : read_items env fuel items 0 st with
    | none => rw [hr] at h; cases h
    | some r =>
      obtain ⟨res, st3⟩ := r
      rw [hr] at h
      cases res with
      | ok m => cases h
      | error e1 =>
        simp only [Option.some.injEq, Prod.mk.injEq, Except.error.injEq] at h
        obtain ⟨rfl, rfl⟩ := h
        obtain ⟨pre, item, rest, m, st1, rfl, hpre, hfail⟩ :=
          read_items_error_split env fuel items 0 st st3 e1 hr
        refine Or.inr ⟨pre, item, rest, m, st1, rfl, hpre, hfail, fun hs => ?_⟩
        cases fuel with
        | zero => simp [retrieve] at hfail
        | succ fuel => exact retrieve_single_error env fuel item st1 st3 e1 hs hfail

/-- Counterexample of C34: the descriptor `"u8 u32"` on a source with 3 bytes
left fails in the second item and leaves the cursor at 1, not at 0. -/
theorem failed_decode_moves_cursor :
    src_three.m_pos = 0 ∧
    (func_read_wrapped env_none 1 tokens_u8_u32 ⟨src_three, [], [], ()⟩).map
        (fun r => (r.1, r.2.source.m_pos, r.2.stack)) =
      some (.error (.brie "Insufficent data in source"), 1, [.integer 1]) :=
  ⟨rfl, rfl⟩

/-- Witness of C34: the failed read of `"u8 u32"` on 3 bytes. -/
theorem failed_decode_cursor_witness :
    func_read_wrapped env_none 1 tokens_u8_u32 ⟨src_three, [], [], ()⟩ =
        some (.error (.brie "Insufficent data in source"),
          ⟨{ src_three with m_pos := 1 }, [.integer 1], [], ()⟩) ∧
    ((parse_read_tokens tokens_u8_u32 = .error (.brie "Insufficent data in source") ∧
        (⟨{ src_three with m_pos := 1 }, [.integer 1], [], ()⟩ : DecState Unit) =
          ⟨src_three, [], [], ()⟩) ∨
      (∃ pre item rest m st1, parse_read_tokens tokens_u8_u32 = .ok (pre ++ item :: rest) ∧
        read_items env_none 1 pre 0 ⟨src_three, [], [], ()⟩ = some (.ok m, st1) ∧
        retrieve env_none 1 item st1 =
          some (.error (.brie "Insufficent data in source"),
            ⟨{ src_three with m_pos := 1 }, [.integer 1], [], ()⟩) ∧
        (item.single →
          (⟨{ src_three with m_pos := 1 }, [.integer 1], [], ()⟩ : DecState Unit).source =
            st1.source))) :=
  ⟨rfl, failed_decode_cursor env_none 1 tokens_u8_u32 ⟨src_three, [], [], ()⟩
    ⟨{ src_three with m_pos := 1 }, [.integer 1], [], ()⟩ (.brie "Insufficent data in source")
    rfl⟩

end brie
